import Mathlib

/-!
Verification development for the meta-hybrid_mount boot-time mount
orchestrator.  Each Rust unit named by the specification is shallowly
embedded as executable Lean definitions: filesystem reads and mount
syscall outcomes are supplied by explicit oracle records, paths are lists
of components, and machine integers are naturals reduced modulo their
width where overflow matters.
-/

namespace MetaHybrid

/-- A filesystem path, as its list of components (no leading slash). -/
abbrev FsPath := List String

/-! ## State store (src/core/state.rs)

`RuntimeState::save` serializes the state and calls `fs::write` on the
state file.  We embed the write as a sequence of primitive filesystem
operations so that atomicity (write-and-rename versus in-place write)
is expressible. -/

/-- Primitive filesystem operations performed by a persistence routine. -/
inductive FsWriteOp where
  /-- `fs::write path content`: truncate `path` and write `content` in place. -/
  | writeFile (path : String) (content : String)
  /-- `fs::rename src dst`. -/
  | rename (src : String) (dst : String)
  deriving DecidableEq, Repr

/-- `defs::STATE_FILE` (the known runtime-state path). -/
def STATE_FILE : String := "/data/adb/meta-hybrid/state.json"

/-- The persisted runtime state (src/core/state.rs, `RuntimeState`). -/
structure RuntimeState where
  timestamp : Nat
  pid : Nat
  storage_mode : String
  mount_point : String
  overlay_modules : List String
  magic_modules : List String
  nuke_active : Bool
  active_mounts : List String
  deriving DecidableEq, Repr

/-- Serialization of a `RuntimeState` (stands for `serde_json::to_string_pretty`;
the exact rendering is irrelevant, only that the full string is produced). -/
def RuntimeState.serialize (s : RuntimeState) : String :=
  String.intercalate "\n"
    ([s.storage_mode, s.mount_point, toString s.timestamp, toString s.pid]
      ++ s.overlay_modules ++ s.magic_modules ++ s.active_mounts)

/-- `RuntimeState::save` as the sequence of filesystem operations it performs:
a single direct `fs::write` of the serialized state onto `STATE_FILE`
(src/core/state.rs lines 46-50). -/
def RuntimeState.save (s : RuntimeState) : List FsWriteOp :=
  [FsWriteOp.writeFile STATE_FILE s.serialize]

/-- The write-and-rename pattern: the routine writes the full content to some
temporary path different from the final path and then renames it over the
final path, never writing the final path directly. -/
def atomicWriteRename (ops : List FsWriteOp) (finalPath content : String) : Prop :=
  ∃ tmp, tmp ≠ finalPath ∧
    ops = [FsWriteOp.writeFile tmp content, FsWriteOp.rename tmp finalPath]

/-- Contents of `finalPath` observable while `ops` execute, if the observer can
interrupt a plain `fs::write` after any byte: a direct write to `finalPath`
exposes every take-k truncation of the content; a rename is atomic. -/
def observableContents (ops : List FsWriteOp) (finalPath : String)
    (initial : String) : List String :=
  match ops with
  | [] => [initial]
  | FsWriteOp.writeFile p c :: rest =>
      if p = finalPath then
        ((List.range (c.length + 1)).map (fun k => (c.take k : String)))
          ++ observableContents rest finalPath c
      else observableContents rest finalPath initial
  | FsWriteOp.rename src dst :: rest =>
      if dst = finalPath then observableContents rest finalPath src
      else observableContents rest finalPath initial

/-! ## Per-module rules loading (src/core/inventory.rs, `ModuleRules::load`) -/

/-- `MountMode` (src/core/inventory.rs).  Serde default is `overlay`. -/
inductive MountMode where
  | overlay
  | hymofs
  | magic
  | ignore
  deriving DecidableEq, Repr

/-- In-memory `ModuleRules`: a default mode and path overrides
(the Rust `HashMap` is embedded as an association list keyed by
relative path, unique keys). -/
structure ModuleRules where
  default_mode : MountMode
  paths : List (String × MountMode)
  deriving DecidableEq, Repr

/-- `ModuleRules::default()`. -/
def ModuleRules.deflt : ModuleRules := { default_mode := MountMode.overlay, paths := [] }

/-- The shape of a parsed rules JSON document: serde fills omitted fields
from their defaults, so both fields are optional at the document level. -/
structure RulesJson where
  default_mode : Option MountMode
  paths : Option (List (String × MountMode))
  deriving DecidableEq, Repr

/-- Serde deserialization of a rules document into `ModuleRules`
(`#[serde(default)]` on both fields). -/
def RulesJson.deserialize (j : RulesJson) : ModuleRules :=
  { default_mode := j.default_mode.getD MountMode.overlay
    paths := j.paths.getD [] }

/-- Insert-or-replace into an association list (one `HashMap::insert`). -/
def alistInsert (m : List (String × MountMode)) (k : String) (v : MountMode) :
    List (String × MountMode) :=
  match m with
  | [] => [(k, v)]
  | (k', v') :: rest =>
      if k' = k then (k, v) :: rest else (k', v') :: alistInsert rest k v

/-- `HashMap::extend`: every user entry is inserted, overwriting equal keys. -/
def alistExtend (base add : List (String × MountMode)) : List (String × MountMode) :=
  add.foldl (fun m kv => alistInsert m kv.1 kv.2) base

/-- `ModuleRules::load` (src/core/inventory.rs lines 33-50).  `internal` is the
parse result of the in-module `hybrid_rules.json` (`none` when the file is
missing or does not parse), `user` likewise for
`/data/adb/meta-hybrid/rules/<id>.json`. -/
def ModuleRules.load (internal user : Option RulesJson) : ModuleRules :=
  let rules := match internal with
    | some j => j.deserialize
    | none => ModuleRules.deflt
  match user with
  | some j =>
      { default_mode := j.deserialize.default_mode
        paths := alistExtend rules.paths j.deserialize.paths }
  | none => rules

/-- Association-list lookup. -/
def alistLookup (m : List (String × MountMode)) (k : String) : Option MountMode :=
  match m with
  | [] => none
  | (k', v) :: rest => if k' = k then some v else alistLookup rest k

theorem alistLookup_alistInsert (m : List (String × MountMode)) (k : String)
    (v : MountMode) (k' : String) :
    alistLookup (alistInsert m k v) k' =
      if k = k' then some v else alistLookup m k' := by
  induction m with
  | nil =>
      by_cases h : k = k' <;> simp [alistInsert, alistLookup, h]
  | cons hd tl ih =>
      obtain ⟨k0, v0⟩ := hd
      by_cases h0 : k0 = k
      · subst h0
        by_cases h : k0 = k' <;> simp [alistInsert, alistLookup, h]
      · by_cases h : k0 = k'
        · subst h
          have : ¬ k = k0 := fun hh => h0 hh.symm
          simp [alistInsert, alistLookup, h0, this]
        · simp [alistInsert, alistLookup, h0, h, ih]

theorem alistLookup_eq_none_of_not_mem (m : List (String × MountMode)) (k : String)
    (h : k ∉ m.map Prod.fst) : alistLookup m k = none := by
  induction m with
  | nil => rfl
  | cons hd tl ih =>
      obtain ⟨k0, v0⟩ := hd
      simp only [List.map_cons, List.mem_cons] at h
      push_neg at h
      have hne : k0 ≠ k := fun hh => h.1 hh.symm
      simp [alistLookup, hne, ih h.2]

theorem alistLookup_alistExtend (base add : List (String × MountMode))
    (hnd : (add.map Prod.fst).Nodup) (k : String) :
    alistLookup (alistExtend base add) k =
      match alistLookup add k with
      | some v => some v
      | none => alistLookup base k := by
  induction add generalizing base with
  | nil => simp [alistExtend, alistLookup]
  | cons hd rest ih =>
      obtain ⟨k0, v0⟩ := hd
      simp only [List.map_cons, List.nodup_cons] at hnd
      have hstep : alistExtend base ((k0, v0) :: rest) =
          alistExtend (alistInsert base k0 v0) rest := by
        simp [alistExtend]
      rw [hstep, ih _ hnd.2]
      by_cases h : k0 = k
      · subst h
        have hnone : alistLookup rest k0 = none :=
          alistLookup_eq_none_of_not_mem rest k0 hnd.1
        simp [hnone, alistLookup, alistLookup_alistInsert]
      · have hne : ¬ k0 = k := h
        cases hrest : alistLookup rest k <;>
          simp [alistLookup, hne, hrest, alistLookup_alistInsert]

/-- C10: for every module, when the user rules file exists and parses, the
user file's (serde-defaulted) `default_mode` unconditionally replaces the
module-internal one — in particular a user file omitting `default_mode`
silently installs the serde default `overlay` — while user path entries are
merged over internal ones, overwriting equal keys. -/
theorem C10_user_rules_override (internal : Option RulesJson) (uj : RulesJson)
    (hnd : ((uj.deserialize.paths).map Prod.fst).Nodup) :
    (ModuleRules.load internal (some uj)).default_mode
        = uj.default_mode.getD MountMode.overlay ∧
    (uj.default_mode = none →
      (ModuleRules.load internal (some uj)).default_mode = MountMode.overlay) ∧
    (∀ k, alistLookup (ModuleRules.load internal (some uj)).paths k =
      match alistLookup uj.deserialize.paths k with
      | some v => some v
      | none =>
          alistLookup
            (match internal with
              | some ij => ij.deserialize.paths
              | none => []) k) := by
  refine ⟨?_, ?_, ?_⟩
  · cases internal <;> rfl
  · intro hnone
    cases internal <;> simp [ModuleRules.load, RulesJson.deserialize, hnone]
  · intro k
    cases internal with
    | none =>
        simpa [ModuleRules.load, ModuleRules.deflt] using
          alistLookup_alistExtend [] uj.deserialize.paths hnd k
    | some ij =>
        simpa [ModuleRules.load] using
          alistLookup_alistExtend ij.deserialize.paths uj.deserialize.paths hnd k

/-- Witness for C10 at a concrete pair of rules documents: the module's
internal default `magic` is overridden by a user file that omits
`default_mode` (becoming `overlay`), and the user path entry wins on the
shared key. -/
theorem C10_user_rules_override_witness :
    (ModuleRules.load
        (some { default_mode := some MountMode.magic,
                paths := some [("system/app", MountMode.magic)] })
        (some { default_mode := none,
                paths := some [("system/app", MountMode.ignore),
                               ("vendor/lib", MountMode.magic)] })).default_mode
      = MountMode.overlay ∧
    alistLookup
      (ModuleRules.load
        (some { default_mode := some MountMode.magic,
                paths := some [("system/app", MountMode.magic)] })
        (some { default_mode := none,
                paths := some [("system/app", MountMode.ignore),
                               ("vendor/lib", MountMode.magic)] })).paths
      "system/app" = some MountMode.ignore := by
  have h := C10_user_rules_override
    (some { default_mode := some MountMode.magic,
            paths := some [("system/app", MountMode.magic)] })
    { default_mode := none,
      paths := some [("system/app", MountMode.ignore),
                     ("vendor/lib", MountMode.magic)] }
    (by decide)
  refine ⟨h.2.1 rfl, ?_⟩
  have h3 := h.2.2 "system/app"
  simpa using h3

/-- C3: `RuntimeState::save` performs a single direct `fs::write` onto the
state path instead of the claimed temporary-file-plus-rename, so an
interrupted save exposes a strictly partial state file to a reader. -/
theorem C3_save_not_write_rename :
    (∀ s : RuntimeState, ¬ atomicWriteRename (RuntimeState.save s) STATE_FILE s.serialize) ∧
    (let s0 : RuntimeState :=
      { timestamp := 0, pid := 1, storage_mode := "tmpfs", mount_point := "/mnt",
        overlay_modules := ["alpha"], magic_modules := [], nuke_active := false,
        active_mounts := ["system"] }
     (s0.serialize.take 4) ∈ observableContents (RuntimeState.save s0) STATE_FILE ""
       ∧ s0.serialize.take 4 ≠ s0.serialize) := by
  constructor
  · intro s h
    obtain ⟨tmp, htmp, hops⟩ := h
    simp only [RuntimeState.save] at hops
    exact List.noConfusion (List.noConfusion hops (fun _ h2 => h2))
  · constructor
    · simp only [RuntimeState.save, observableContents, if_pos rfl]
      refine List.mem_append.2 (Or.inl ?_)
      refine List.mem_map.2 ⟨4, ?_, rfl⟩
      refine List.mem_range.2 ?_
      decide
    · decide

/-! ## Executor (src/executor.rs)

`execute` drives overlay mounts, reclassifies failed overlay operations
into the magic queue, and produces the final id lists.  Mount outcomes and
temp-dir selection are environment oracles. -/

/-- An overlay operation of the mount plan consumed by the executor
(src/planner.rs `OverlayOperation`): target path string plus the module
layer paths. -/
structure OverlayOperationX where
  target : String
  layers : List FsPath
  deriving DecidableEq, Repr

/-- The mount plan consumed by the executor (src/planner.rs `MountPlan`). -/
structure MountPlanX where
  overlay_ops : List OverlayOperationX
  magic_module_paths : List FsPath
  overlay_module_ids : List String
  magic_module_ids : List String
  deriving DecidableEq, Repr

/-- Environment oracle for one run of `execute`: per-target overlay mount
outcome, `utils::select_temp_dir` availability, and the outcome of
`magic_mount::mount_partitions`. -/
structure ExecEnv where
  overlayOk : String → Bool
  tempdirOk : Bool
  magicOk : Bool

/-- The executor's result (src/executor.rs `ExecutionResult`), extended with
the de-duplicated queue handed to the magic-mount engine (`none` when the
engine was not invoked). -/
structure ExecOutcome where
  overlay_module_ids : List String
  magic_module_ids : List String
  magicInvokedWith : Option (List FsPath)
  deriving DecidableEq, Repr

/-- `extract_id`: `path.file_name()` of a module path. -/
def extractId (p : FsPath) : Option String := p.getLast?

/-- Rust `Vec::dedup`: remove consecutive repeated elements. -/
def rustDedup {α : Type} [DecidableEq α] : List α → List α
  | [] => []
  | [a] => [a]
  | a :: b :: rest =>
      if a = b then rustDedup (b :: rest) else a :: rustDedup (b :: rest)

/-- Lexicographic comparison of character lists (the byte order `Vec::sort`
uses on strings, restricted to the characters involved here). -/
def charLeB : List Char → List Char → Bool
  | [], _ => true
  | _ :: _, [] => false
  | a :: as, b :: bs => if a = b then charLeB as bs else decide (a < b)

/-- Executable total order on strings, character-wise lexicographic. -/
def strLeB (a b : String) : Bool := charLeB a.data b.data

theorem charLeB_total (as bs : List Char) :
    charLeB as bs = true ∨ charLeB bs as = true := by
  induction as generalizing bs with
  | nil => exact Or.inl rfl
  | cons a as ih =>
      cases bs with
      | nil => exact Or.inr rfl
      | cons b bs =>
          by_cases hab : a = b
          · subst hab
            rcases ih bs with h | h
            · exact Or.inl (by simpa [charLeB] using h)
            · exact Or.inr (by simpa [charLeB] using h)
          · rcases lt_or_gt_of_ne hab with h | h
            · exact Or.inl (by simp [charLeB, hab, h])
            · have hba : b ≠ a := fun hh => hab hh.symm
              exact Or.inr (by simp [charLeB, hba, h])

theorem charLeB_trans (as bs cs : List Char)
    (h1 : charLeB as bs = true) (h2 : charLeB bs cs = true) :
    charLeB as cs = true := by
  induction as generalizing bs cs with
  | nil => rfl
  | cons a as ih =>
      cases bs with
      | nil => simp [charLeB] at h1
      | cons b bs =>
          cases cs with
          | nil => simp [charLeB] at h2
          | cons c cs =>
              by_cases hab : a = b
              · subst hab
                by_cases hbc : a = c
                · subst hbc
                  simp only [charLeB, if_pos rfl] at h1 h2 ⊢
                  exact ih bs cs h1 h2
                · simp only [charLeB, if_pos rfl] at h1
                  simp only [charLeB, hbc, if_false, decide_eq_true_eq] at h2 ⊢
                  exact h2
              · simp only [charLeB, hab, if_false, decide_eq_true_eq] at h1
                by_cases hbc : b = c
                · have hac : a ≠ c := by rw [← hbc]; exact hab
                  have hlt : a < c := hbc ▸ h1
                  simp only [charLeB, hac, if_false, decide_eq_true_eq]
                  exact hlt
                · simp only [charLeB, hbc, if_false, decide_eq_true_eq] at h2
                  have hlt : a < c := lt_trans h1 h2
                  have hac : a ≠ c := ne_of_lt hlt
                  simp only [charLeB, hac, if_false, decide_eq_true_eq]
                  exact hlt

theorem charLeB_antisymm (as bs : List Char)
    (h1 : charLeB as bs = true) (h2 : charLeB bs as = true) : as = bs := by
  induction as generalizing bs with
  | nil =>
      cases bs with
      | nil => rfl
      | cons b bs => simp [charLeB] at h2
  | cons a as ih =>
      cases bs with
      | nil => simp [charLeB] at h1
      | cons b bs =>
          by_cases hab : a = b
          · subst hab
            simp only [charLeB, if_pos rfl] at h1 h2
            rw [ih bs h1 h2]
          · have hba : b ≠ a := fun hh => hab hh.symm
            simp only [charLeB, hab, hba, if_false, decide_eq_true_eq] at h1 h2
            exact absurd h2 (not_lt_of_gt h1)

theorem strLeB_total (a b : String) : strLeB a b = true ∨ strLeB b a = true :=
  charLeB_total a.data b.data

theorem strLeB_trans (a b c : String) (h1 : strLeB a b = true)
    (h2 : strLeB b c = true) : strLeB a c = true :=
  charLeB_trans a.data b.data c.data h1 h2

theorem strLeB_antisymm (a b : String) (h1 : strLeB a b = true)
    (h2 : strLeB b a = true) : a = b := by
  cases a with
  | mk da =>
      cases b with
      | mk db =>
          have := charLeB_antisymm da db h1 h2
          simp [this]

instance : IsTotal String (fun a b => strLeB a b = true) := ⟨strLeB_total⟩

instance : IsTrans String (fun a b => strLeB a b = true) :=
  ⟨fun a b c => strLeB_trans a b c⟩

/-- Total comparison on paths (component-wise, then by length), standing for
the lexicographic `Ord` on `PathBuf` used by `Vec::sort`. -/
def pathLeB : FsPath → FsPath → Bool
  | [], _ => true
  | _ :: _, [] => false
  | a :: as, b :: bs => if a = b then pathLeB as bs else strLeB a b

/-- Phase A of `execute` (src/executor.rs lines 24-43): for every overlay
operation whose mount fails, push each layer into the magic queue and its
extracted id into the fallback id list. -/
def phaseA (env : ExecEnv) (init : List FsPath × List String)
    (ops : List OverlayOperationX) : List FsPath × List String :=
  ops.foldl
    (fun acc op =>
      if env.overlayOk op.target then acc
      else (acc.1 ++ op.layers, acc.2 ++ op.layers.filterMap extractId))
    init

/-- The magic queue after Phase A: planned magic paths plus all fallen-back
overlay layers. -/
def magicQueueOf (env : ExecEnv) (plan : MountPlanX) : List FsPath :=
  (phaseA env (plan.magic_module_paths, []) plan.overlay_ops).1

/-- The fallback id list after Phase A. -/
def fallbackIdsOf (env : ExecEnv) (plan : MountPlanX) : List String :=
  (phaseA env (plan.magic_module_paths, []) plan.overlay_ops).2

/-- `final_overlay_ids` after the retain step (src/executor.rs lines 45-50). -/
def finalOverlayIdsOf (env : ExecEnv) (plan : MountPlanX) : List String :=
  if (fallbackIdsOf env plan).isEmpty then plan.overlay_module_ids
  else plan.overlay_module_ids.filter (fun i => ¬ (fallbackIdsOf env plan).contains i)

/-- The sorted, consecutively de-duplicated magic queue handed to
`magic_mount::mount_partitions` (src/executor.rs lines 63-64). -/
def dedupedQueueOf (env : ExecEnv) (plan : MountPlanX) : List FsPath :=
  rustDedup (List.insertionSort (fun a b => pathLeB a b = true) (magicQueueOf env plan))

/-- Final sort-plus-dedup applied to both id lists (src/executor.rs lines 89-92). -/
def finalizeIds (ids : List String) : List String :=
  rustDedup (List.insertionSort (fun a b : String => strLeB a b = true) ids)

/-- `execute` (src/executor.rs lines 17-98).  `cfgTempdir` is
`config.tempdir`; the error case is a failed temp-dir selection. -/
def execute (cfgTempdir : Option String) (env : ExecEnv) (plan : MountPlanX) :
    Except Unit ExecOutcome :=
  if (magicQueueOf env plan).isEmpty then
    Except.ok
      { overlay_module_ids := finalizeIds (finalOverlayIdsOf env plan)
        magic_module_ids := []
        magicInvokedWith := none }
  else
    if cfgTempdir.isSome || env.tempdirOk then
      Except.ok
        { overlay_module_ids := finalizeIds (finalOverlayIdsOf env plan)
          magic_module_ids :=
            finalizeIds
              (if env.magicOk then (dedupedQueueOf env plan).filterMap extractId
               else [])
          magicInvokedWith := some (dedupedQueueOf env plan) }
    else Except.error ()

theorem mem_rustDedup {α : Type} [DecidableEq α] (l : List α) (x : α) :
    x ∈ rustDedup l ↔ x ∈ l := by
  induction l with
  | nil => simp [rustDedup]
  | cons a rest ih =>
      cases rest with
      | nil => simp [rustDedup]
      | cons b rest2 =>
          by_cases hab : a = b
          · subst hab
            rw [show rustDedup (a :: a :: rest2) = rustDedup (a :: rest2) by
              simp [rustDedup]]
            rw [ih]
            simp
          · rw [show rustDedup (a :: b :: rest2) = a :: rustDedup (b :: rest2) by
              simp [rustDedup, hab]]
            simp only [List.mem_cons] at ih ⊢
            rw [ih]

theorem rustDedup_sublist {α : Type} [DecidableEq α] (l : List α) :
    List.Sublist (rustDedup l) l := by
  induction l with
  | nil => simp [rustDedup]
  | cons a rest ih =>
      cases rest with
      | nil => simp [rustDedup]
      | cons b rest2 =>
          by_cases hab : a = b
          · subst hab
            rw [show rustDedup (a :: a :: rest2) = rustDedup (a :: rest2) by
              simp [rustDedup]]
            exact ih.cons a
          · rw [show rustDedup (a :: b :: rest2) = a :: rustDedup (b :: rest2) by
              simp [rustDedup, hab]]
            exact ih.cons₂ a

/-- A `strLeB`-sorted list stays sorted and becomes duplicate-free under
consecutive dedup. -/
theorem rustDedup_str_sorted (l : List String)
    (h : l.Sorted (fun a b => strLeB a b = true)) :
    (rustDedup l).Pairwise (fun a b => strLeB a b = true ∧ a ≠ b) := by
  induction l with
  | nil => simp [rustDedup]
  | cons a rest ih =>
      cases rest with
      | nil => simp [rustDedup]
      | cons b rest2 =>
          rw [List.sorted_cons] at h
          by_cases hab : a = b
          · subst hab
            rw [show rustDedup (a :: a :: rest2) = rustDedup (a :: rest2) by
              simp [rustDedup]]
            exact ih h.2
          · rw [show rustDedup (a :: b :: rest2) = a :: rustDedup (b :: rest2) by
              simp [rustDedup, hab]]
            rw [List.pairwise_cons]
            refine ⟨?_, ih h.2⟩
            intro c hc
            have hcmem : c ∈ b :: rest2 := (mem_rustDedup _ _).1 hc
            have hac : strLeB a c = true := h.1 c hcmem
            have hbc : strLeB b c = true ∨ c = b := by
              rcases List.mem_cons.1 hcmem with h1 | h1
              · exact Or.inr h1
              · exact Or.inl ((List.sorted_cons.1 h.2).1 c h1)
            have hane : a ≠ c := by
              intro hEq
              subst hEq
              rcases hbc with h1 | h1
              · exact hab (strLeB_antisymm a b
                  (h.1 b (List.mem_cons_self _ _)) h1)
              · exact hab h1
            exact ⟨hac, hane⟩

/-- After Phase A, the queue and fallback lists only grow. -/
theorem phaseA_mono (env : ExecEnv) (init : List FsPath × List String)
    (ops : List OverlayOperationX) :
    (∀ p ∈ init.1, p ∈ (phaseA env init ops).1) ∧
    (∀ i ∈ init.2, i ∈ (phaseA env init ops).2) := by
  induction ops generalizing init with
  | nil => exact ⟨fun p hp => hp, fun i hi => hi⟩
  | cons op rest ih =>
      simp only [phaseA, List.foldl_cons]
      by_cases hok : env.overlayOk op.target
      · simpa [hok] using ih init
      · have := ih (init.1 ++ op.layers, init.2 ++ op.layers.filterMap extractId)
        refine ⟨fun p hp => ?_, fun i hi => ?_⟩
        · simpa [hok, phaseA] using this.1 p (List.mem_append.2 (Or.inl hp))
        · simpa [hok, phaseA] using this.2 i (List.mem_append.2 (Or.inl hi))

/-- A layer of a failed overlay operation lands in the Phase-A queue, and its
extracted id in the fallback list. -/
theorem phaseA_mem_of_failed (env : ExecEnv) (init : List FsPath × List String)
    (ops : List OverlayOperationX) (op : OverlayOperationX)
    (hop : op ∈ ops) (hfail : env.overlayOk op.target = false)
    (layer : FsPath) (hlayer : layer ∈ op.layers) :
    layer ∈ (phaseA env init ops).1 ∧
    (∀ i, extractId layer = some i → i ∈ (phaseA env init ops).2) := by
  induction ops generalizing init with
  | nil => cases hop
  | cons op0 rest ih =>
      rcases List.mem_cons.1 hop with hEq | hmem
      · subst hEq
        simp only [phaseA, List.foldl_cons, hfail, Bool.false_eq_true, if_false]
        constructor
        · exact (phaseA_mono env _ rest).1 layer
            (List.mem_append.2 (Or.inr hlayer))
        · intro i hi
          exact (phaseA_mono env _ rest).2 i
            (List.mem_append.2 (Or.inr (List.mem_filterMap.2 ⟨layer, hlayer, hi⟩)))
      · simp only [phaseA, List.foldl_cons]
        by_cases hok : env.overlayOk op0.target
        · simpa [hok, phaseA] using ih init hmem
        · simpa [hok, phaseA] using ih _ hmem

theorem mem_finalizeIds (ids : List String) (i : String) :
    i ∈ finalizeIds ids ↔ i ∈ ids := by
  rw [finalizeIds, mem_rustDedup]
  exact (List.perm_insertionSort _ ids).mem_iff

theorem finalizeIds_sorted (ids : List String) :
    (finalizeIds ids).Sorted (fun a b => strLeB a b = true) ∧
      (finalizeIds ids).Nodup := by
  have hs : (List.insertionSort (fun a b : String => strLeB a b = true) ids).Sorted
      (fun a b => strLeB a b = true) :=
    List.sorted_insertionSort _ ids
  have hstrict := rustDedup_str_sorted _ hs
  rw [finalizeIds]
  exact ⟨hstrict.imp (fun h => h.1), hstrict.imp (fun h => h.2)⟩

theorem mem_dedupedQueueOf (env : ExecEnv) (plan : MountPlanX) (p : FsPath) :
    p ∈ dedupedQueueOf env plan ↔ p ∈ magicQueueOf env plan := by
  rw [dedupedQueueOf, mem_rustDedup]
  exact (List.perm_insertionSort _ _).mem_iff

/-- C2 as stated fails on the code: when the overlay mount for `/vendor`
falls back but the magic-mount engine invocation itself errors, the executor
clears the final magic id list, so the fallen-back module ids `a`, `b` land
in neither final list even though their paths were handed to the engine. -/
theorem C2_counterexample_magic_failure_clears_ids :
    execute (some "/tmp")
      { overlayOk := fun _ => false, tempdirOk := true, magicOk := false }
      { overlay_ops := [{ target := "/vendor",
                          layers := [["data", "adb", "modules", "a"],
                                     ["data", "adb", "modules", "b"]] }],
        magic_module_paths := [],
        overlay_module_ids := ["a", "b"],
        magic_module_ids := [] }
      = Except.ok
          { overlay_module_ids := [],
            magic_module_ids := [],
            magicInvokedWith := some [["data", "adb", "modules", "a"],
                                      ["data", "adb", "modules", "b"]] } := by
  rfl

/-- C2 (amended): for every overlay operation whose mount fails, each module
layer is reclassified — its id leaves the final overlay id list, its path is
passed to the magic engine together with the already-planned magic paths,
and, provided the magic-mount engine invocation succeeds, its id enters the
final magic id list, which is sorted and de-duplicated. -/
theorem C2_overlay_failure_reclassified
    (cfgTempdir : Option String) (env : ExecEnv) (plan : MountPlanX)
    (op : OverlayOperationX) (layer : FsPath) (i : String) (out : ExecOutcome)
    (hop : op ∈ plan.overlay_ops)
    (hfail : env.overlayOk op.target = false)
    (hlayer : layer ∈ op.layers)
    (hid : extractId layer = some i)
    (hmagic : env.magicOk = true)
    (hres : execute cfgTempdir env plan = Except.ok out) :
    i ∉ out.overlay_module_ids ∧
    i ∈ out.magic_module_ids ∧
    out.magic_module_ids.Sorted (fun a b => strLeB a b = true) ∧
    out.magic_module_ids.Nodup ∧
    ∃ q, out.magicInvokedWith = some q ∧ layer ∈ q ∧
      ∀ mp ∈ plan.magic_module_paths, mp ∈ q := by
  have hcore := phaseA_mem_of_failed env (plan.magic_module_paths, [])
    plan.overlay_ops op hop hfail layer hlayer
  have hq : layer ∈ magicQueueOf env plan := hcore.1
  have hfid : i ∈ fallbackIdsOf env plan := hcore.2 i hid
  have hne : (magicQueueOf env plan).isEmpty = false := by
    rcases h : (magicQueueOf env plan) with _ | _
    · rw [h] at hq; cases hq
    · rfl
  unfold execute at hres
  simp only [hne, Bool.false_eq_true, if_false] at hres
  by_cases htd : (cfgTempdir.isSome || env.tempdirOk) = true
  · rw [if_pos htd] at hres
    injection hres with hout
    subst hout
    have hoverlay : i ∉ finalizeIds (finalOverlayIdsOf env plan) := by
      rw [mem_finalizeIds]
      intro hmem
      rw [finalOverlayIdsOf] at hmem
      have hfne : (fallbackIdsOf env plan).isEmpty = false := by
        rcases h : (fallbackIdsOf env plan) with _ | _
        · rw [h] at hfid; cases hfid
        · rfl
      rw [hfne] at hmem
      simp only [Bool.false_eq_true, if_false, List.mem_filter,
        decide_eq_true_eq] at hmem
      exact hmem.2 (by simpa using hfid)
    refine ⟨hoverlay, ?_, ?_, ?_, ?_⟩
    · rw [hmagic]
      simp only [if_true]
      rw [mem_finalizeIds]
      exact List.mem_filterMap.2
        ⟨layer, (mem_dedupedQueueOf env plan layer).2 hq, hid⟩
    · rw [hmagic]; exact (finalizeIds_sorted _).1
    · rw [hmagic]; exact (finalizeIds_sorted _).2
    · refine ⟨dedupedQueueOf env plan, rfl,
        (mem_dedupedQueueOf env plan layer).2 hq, fun mp hmp => ?_⟩
      refine (mem_dedupedQueueOf env plan mp).2 ?_
      exact (phaseA_mono env (plan.magic_module_paths, []) plan.overlay_ops).1
        mp hmp
  · rw [if_neg htd] at hres
    cases hres

/-- Witness for C2 (amended) at scenario S3: modules `a`, `b` on a failing
`/vendor` overlay, magic engine succeeding. -/
theorem C2_overlay_failure_reclassified_witness :
    "a" ∉ (ExecOutcome.mk [] ["a", "b"]
        (some [["data", "adb", "modules", "a"],
               ["data", "adb", "modules", "b"]])).overlay_module_ids ∧
    "a" ∈ (ExecOutcome.mk [] ["a", "b"]
        (some [["data", "adb", "modules", "a"],
               ["data", "adb", "modules", "b"]])).magic_module_ids ∧
    (ExecOutcome.mk [] ["a", "b"]
        (some [["data", "adb", "modules", "a"],
               ["data", "adb", "modules", "b"]])).magic_module_ids.Sorted
      (fun a b => strLeB a b = true) ∧
    (ExecOutcome.mk [] ["a", "b"]
        (some [["data", "adb", "modules", "a"],
               ["data", "adb", "modules", "b"]])).magic_module_ids.Nodup ∧
    ∃ q, (ExecOutcome.mk [] ["a", "b"]
        (some [["data", "adb", "modules", "a"],
               ["data", "adb", "modules", "b"]])).magicInvokedWith = some q ∧
      ["data", "adb", "modules", "a"] ∈ q ∧
      ∀ mp ∈ ([] : List FsPath), mp ∈ q :=
  C2_overlay_failure_reclassified (some "/tmp")
    { overlayOk := fun _ => false, tempdirOk := true, magicOk := true }
    { overlay_ops := [{ target := "/vendor",
                        layers := [["data", "adb", "modules", "a"],
                                   ["data", "adb", "modules", "b"]] }],
      magic_module_paths := [],
      overlay_module_ids := ["a", "b"],
      magic_module_ids := [] }
    { target := "/vendor",
      layers := [["data", "adb", "modules", "a"],
                 ["data", "adb", "modules", "b"]] }
    ["data", "adb", "modules", "a"] "a" _
    (by decide) rfl (by decide) rfl rfl (by rfl)

/-! ## Ratoon + Granary (src/core/granary.rs)

State: the counter file content, the granary directory (one parseable
silo file per entry, keyed by its file name stem, which the system always
writes as `silo_<unix_ts>`), the live config file, and the module
directories with their `disable` markers.  The only fallible external
operation reached from `engage_ratoon_protocol` is `Config::save_to_file`
inside `restore_silo`; its outcome is the oracle `saveOk`. -/

/-- Stand-in for the serialized `Config` a silo snapshots. -/
structure ConfigC where
  content : String
  deriving DecidableEq, Repr

/-- A stored snapshot (src/core/granary.rs `Silo`). -/
structure Silo where
  id : String
  timestamp : Nat
  label : String
  reason : String
  config_snapshot : ConfigC
  deriving DecidableEq, Repr

/-- The filesystem state touched by Ratoon and the Granary. -/
structure GState where
  counter : Option String
  granary : List (String × Silo)
  liveConfig : Option ConfigC
  moduleDirs : List (String × Bool)
  deriving DecidableEq, Repr

/-- Environment oracle: outcome of `Config::save_to_file` during a restore. -/
structure GEnv where
  saveOk : Bool
  deriving DecidableEq, Repr

/-- `MAX_AUTO_SILOS` (src/core/granary.rs line 20). -/
def MAX_AUTO_SILOS : Nat := 5

/-- Whitespace trim on the character list (`str::trim`). -/
def trimChars (cs : List Char) : List Char :=
  ((cs.dropWhile Char.isWhitespace).reverse.dropWhile Char.isWhitespace).reverse

/-- Rust `content.trim().parse::<u8>()`: optional leading `+`, ASCII digits
only, value within `0 ..= 255`, otherwise a parse error (`none`). -/
def parseU8 (s : String) : Option Nat :=
  let t := trimChars s.data
  let digits := match t with
    | '+' :: rest => rest
    | _ => t
  if digits ≠ [] ∧ digits.all Char.isDigit then
    let v := digits.foldl (fun acc c => acc * 10 + (c.toNat - '0'.toNat)) 0
    if v ≤ 255 then some v else none
  else none

/-- The counter value `engage_ratoon_protocol` reads: 0 when the file is
missing, `parse().unwrap_or(0)` otherwise (src/core/granary.rs lines 24-29). -/
def readCounterVal (st : GState) : Nat :=
  match st.counter with
  | none => 0
  | some c => (parseU8 c).getD 0

/-- `list_silos` (src/core/granary.rs lines 90-108): deserialize every
parseable silo file and sort newest-first by timestamp. -/
def listSilos (st : GState) : List Silo :=
  List.insertionSort (fun a b => b.timestamp ≤ a.timestamp) (st.granary.map Prod.snd)

instance : IsTotal Silo (fun a b => b.timestamp ≤ a.timestamp) :=
  ⟨fun a b => (le_total b.timestamp a.timestamp).elim Or.inl Or.inr⟩

instance : IsTrans Silo (fun a b => b.timestamp ≤ a.timestamp) :=
  ⟨fun _ _ _ h1 h2 => le_trans h2 h1⟩

/-- Writing the silo file `<k>.json` into the granary directory: overwrite
the file of the same name, otherwise add a new file. -/
def insertReplaceSilo (g : List (String × Silo)) (k : String) (v : Silo) :
    List (String × Silo) :=
  match g with
  | [] => [(k, v)]
  | (k0, v0) :: rest =>
      if k0 = k then (k, v) :: rest else (k0, v0) :: insertReplaceSilo rest k v

/-- `create_silo` followed by `prune_old_silos`
(src/core/granary.rs lines 65-88 and 145-154): write `silo_<now>.json`, then
delete the files of every listed silo past the newest `MAX_AUTO_SILOS`. -/
def createSilo (st : GState) (now : Nat) (cfg : ConfigC) (label reason : String) :
    GState × String :=
  let sid := "silo_" ++ toString now
  let silo : Silo :=
    { id := sid, timestamp := now, label := label, reason := reason,
      config_snapshot := cfg }
  let granary1 := insertReplaceSilo st.granary sid silo
  let st1 := { st with granary := granary1 }
  let silos := listSilos st1
  if MAX_AUTO_SILOS < silos.length then
    let removeIds := (silos.drop MAX_AUTO_SILOS).map Silo.id
    ({ st1 with granary := granary1.filter (fun kv => ¬ removeIds.contains kv.1) },
      sid)
  else (st1, sid)

/-- `disable_all_modules` (src/core/granary.rs lines 156-168): create a
`disable` marker in every module directory entry. -/
def disableAllModules (st : GState) : GState :=
  { st with moduleDirs := st.moduleDirs.map (fun d => (d.1, true)) }

/-- `engage_ratoon_protocol` (src/core/granary.rs lines 22-52): read the
counter (0 when missing/unparseable), add one (`u8`, so modulo 256), write it
back, and at 3 or more attempt a restore from the newest silo — deleting the
counter on success, disabling every module on failure. -/
def engageRatoon (env : GEnv) (st : GState) : GState :=
  let count := readCounterVal st
  let count1 := (count + 1) % 256
  let st1 := { st with counter := some (toString count1) }
  if 3 ≤ count1 then
    match (listSilos st1).head? with
    | some latest =>
        if env.saveOk then
          { st1 with liveConfig := some latest.config_snapshot, counter := none }
        else disableAllModules st1
    | none => disableAllModules st1
  else st1

/-- `disengage_ratoon_protocol` (src/core/granary.rs lines 54-63). -/
def disengageRatoon (st : GState) : GState := { st with counter := none }

/-- Well-formedness of the granary directory as the system itself writes it:
file names are distinct, each file is named by the id of the silo it holds,
and ids are determined by timestamps. -/
def GWf (st : GState) : Prop :=
  (st.granary.map Prod.fst).Nodup ∧
  ∀ kv ∈ st.granary, kv.1 = kv.2.id ∧ kv.2.id = "silo_" ++ toString kv.2.timestamp

instance (st : GState) : Decidable (GWf st) := by
  unfold GWf
  infer_instance

set_option maxRecDepth 10000 in
set_option maxHeartbeats 1000000 in
/-- Rendering a `u8` value and parsing it back round-trips. -/
theorem parseU8_toString : ∀ n, n < 256 → parseU8 (toString n) = some n := by
  decide

/-- `engage` below the trigger threshold only advances the counter. -/
theorem engageRatoon_small (env : GEnv) (st : GState)
    (h : readCounterVal st + 1 < 3) :
    engageRatoon env st = { st with counter := some (toString (readCounterVal st + 1)) } := by
  simp only [engageRatoon]
  have hlt : readCounterVal st + 1 < 256 := lt_trans h (by norm_num)
  rw [Nat.mod_eq_of_lt hlt, if_neg (by omega)]

/-- `list_silos` only reads the granary directory. -/
theorem listSilos_counter_irrelevant (st : GState) (c : Option String) :
    listSilos { st with counter := c } = listSilos st := rfl

/-- C4 as stated fails on the code, in two ways.  First, the boot counter is
a `u8`: an engage over a persisted `"255"` wraps the counter to 0 rather
than incrementing it to 256.  Second, when the counter starts at `"2"`, the
restore already fires at the first of three engage calls; the two later
calls recreate the counter file, so after three calls the counter file
exists and no module carries a `disable` marker, falsifying the claimed
disjunction. -/
theorem C4_counterexample_wrap_and_recreated_counter :
    ((engageRatoon { saveOk := true }
        { counter := some "255", granary := [], liveConfig := none,
          moduleDirs := [] }).counter = some "0") ∧
    (let s10 : Silo :=
      { id := "silo_10", timestamp := 10, label := "l", reason := "r",
        config_snapshot := { content := "snap" } }
     let st3 :=
      engageRatoon { saveOk := true } (engageRatoon { saveOk := true }
        (engageRatoon { saveOk := true }
          { counter := some "2", granary := [("silo_10", s10)],
            liveConfig := none, moduleDirs := [("m", false)] }))
     ¬ ((st3.liveConfig = some { content := "snap" } ∧ st3.counter = none) ∨
        (∀ d ∈ st3.moduleDirs, d.2 = true))) := by
  constructor
  · decide
  · decide

/-- C4 (amended): an engage call sets the persisted counter to the previous
value plus one (missing or unparseable content counting as 0) provided the
previous value is below 255 — the `u8` counter wraps 255 to 0 — and provided
no successful threshold restore intervenes, since a successful restore at
counter ≥ 3 deletes the counter file; and after three consecutive engage
calls starting with the counter file absent and no intervening disengage,
either the newest silo's config snapshot has been restored over the live
config file and the counter file deleted, or a disable marker has been
created inside every module directory. -/
theorem C4_ratoon_amended (env : GEnv) (st : GState) (p : Nat)
    (hp : readCounterVal st = p) :
    ((p + 1 < 3 ∨ (p < 255 ∧ (listSilos st = [] ∨ env.saveOk = false))) →
      readCounterVal (engageRatoon env st) = p + 1) ∧
    (st.counter = none →
      (∃ latest, (listSilos st).head? = some latest ∧
        (engageRatoon env (engageRatoon env (engageRatoon env st))).liveConfig
          = some latest.config_snapshot ∧
        (engageRatoon env (engageRatoon env (engageRatoon env st))).counter
          = none) ∨
      (∀ d ∈ (engageRatoon env (engageRatoon env (engageRatoon env st))).moduleDirs,
        d.2 = true)) := by
  constructor
  · intro hcase
    have hlt : p + 1 < 256 := by
      rcases hcase with h | h
      · omega
      · omega
    have hread : ∀ c : Option String, c = some (toString (p + 1)) →
        readCounterVal { st with counter := c } = p + 1 := by
      intro c hc
      subst hc
      simp [readCounterVal, parseU8_toString (p + 1) hlt]
    rcases hcase with h | h
    · rw [engageRatoon_small env st (by omega)]
      exact hread _ (by rw [hp])
    · simp only [engageRatoon]
      rw [hp, Nat.mod_eq_of_lt hlt]
      by_cases h3 : 3 ≤ p + 1
      · rw [if_pos h3]
        rcases h.2 with hsil | hsave
        · rw [listSilos_counter_irrelevant, hsil]
          simp only [List.head?_nil]
          exact hread _ rfl
        · rcases hhead : (listSilos { st with counter := some (toString (p + 1)) }).head?
            with _ | latest
          · exact hread _ rfl
          · rw [hsave]
            simp only [Bool.false_eq_true, if_false]
            exact hread _ rfl
      · rw [if_neg h3]
        exact hread _ rfl
  · intro hc
    have h0 : readCounterVal st = 0 := by simp [readCounterVal, hc]
    have e1 : engageRatoon env st = { st with counter := some (toString 1) } := by
      rw [engageRatoon_small env st (by omega), h0]
    have r1 : readCounterVal { st with counter := some (toString 1) } = 1 := by
      simp [readCounterVal, parseU8_toString 1 (by norm_num)]
    have e2 : engageRatoon env { st with counter := some (toString 1) }
        = { st with counter := some (toString 2) } := by
      rw [engageRatoon_small env _ (by rw [r1]; norm_num)]
      rw [r1]
    have r2 : readCounterVal { st with counter := some (toString 2) } = 2 := by
      simp [readCounterVal, parseU8_toString 2 (by norm_num)]
    rw [e1, e2]
    simp only [engageRatoon]
    rw [r2]
    simp only [Nat.reduceAdd, Nat.reduceMod, le_refl, if_pos]
    have hsil : listSilos { st with counter := some (toString 3) } = listSilos st := rfl
    rw [hsil]
    cases hhead : (listSilos st).head? with
    | none =>
        right
        show ∀ d ∈ (disableAllModules
          { st with counter := some (toString 3) }).moduleDirs, d.2 = true
        intro d hd
        simp only [disableAllModules, List.mem_map] at hd
        obtain ⟨d0, _, hdEq⟩ := hd
        rw [← hdEq]
    | some latest =>
        by_cases hsave : env.saveOk = true
        · refine Or.inl ⟨latest, rfl, ?_, ?_⟩ <;> simp [hsave]
        · simp only [Bool.not_eq_true] at hsave
          right
          show ∀ d ∈ (if env.saveOk = true then
              ({ st with counter := none, liveConfig := some latest.config_snapshot } : GState)
            else disableAllModules
              { st with counter := some (toString 3) }).moduleDirs, d.2 = true
          rw [hsave]
          simp only [Bool.false_eq_true, if_false]
          intro d hd
          simp only [disableAllModules, List.mem_map] at hd
          obtain ⟨d0, _, hdEq⟩ := hd
          rw [← hdEq]

/-! ## Planner (src/core/planner.rs)

`generate` consumes the module inventory and the filesystem (an oracle
record covering exactly the queries the planner makes) and produces the
mount plan.  `BUILTIN_PARTITIONS` lives in the repository's `defs.rs`,
which is absent from the sources; it is modelled from the spec. -/

/-- A module as the planner consumes it: id, on-disk source path, and the
effective mode of its rules (`module.mode` strings map onto `MountMode`). -/
structure ModuleP where
  id : String
  source_path : FsPath
  mode : MountMode
  deriving DecidableEq, Repr

/-- Modelled from the spec: the built-in root partitions of `defs.rs`
(`BUILTIN_PARTITIONS`), absent from the provided sources:
`system`, `vendor`, `system_ext`, `product`, `odm`. -/
def BUILTIN_PARTITIONS : List String :=
  ["system", "vendor", "system_ext", "product", "odm"]

/-- Filesystem oracle for one planner run: each field answers exactly one
kind of filesystem query `generate` performs. -/
structure PlanFs where
  /-- `content_path.exists()` (the synchronized-copy check). -/
  pathExists : FsPath → Bool
  /-- `part_path.is_dir() && has_files(&part_path)`. -/
  isDirWithFiles : FsPath → Bool
  /-- `p.exists() && has_files(&p)` inside `has_meaningful_content`. -/
  existsWithFiles : FsPath → Bool
  /-- resolution of the initial target `/<part>`: `none` when the path is
  absent or canonicalization fails, otherwise the canonical path. -/
  resolveTarget : String → Option String
  /-- `resolved_target.is_dir()`. -/
  resolvedIsDir : String → Bool

/-- `has_meaningful_content` (src/core/planner.rs lines 164-172). -/
def hasMeaningfulContent (fs : PlanFs) (base : FsPath) (tps : List String) : Bool :=
  tps.any (fun part => fs.existsWithFiles (base ++ [part]))

/-- One `partition_layers.entry(part).or_default().push(path)`. -/
def pushLayer (m : List (String × List FsPath)) (p : String) (path : FsPath) :
    List (String × List FsPath) :=
  match m with
  | [] => [(p, [path])]
  | (q, ls) :: rest =>
      if q = p then (q, ls ++ [path]) :: rest else (q, ls) :: pushLayer rest p path

/-- The accumulated planning state while iterating modules: partition
layers, magic paths, overlay id set, magic id set (sets kept as
insertion-ordered duplicate-free lists). -/
structure PlanAcc where
  layers : List (String × List FsPath)
  magicPaths : List FsPath
  overlayIds : List String
  magicIds : List String
  deriving DecidableEq, Repr

/-- `HashSet::insert` on an insertion-ordered list. -/
def setInsertStr (l : List String) (x : String) : List String :=
  if x ∈ l then l else l ++ [x]

/-- `HashSet::insert` for paths. -/
def setInsertPath (l : List FsPath) (x : FsPath) : List FsPath :=
  if x ∈ l then l else l ++ [x]

/-- The overlay-branch inner loop over target partitions, one partition at
a time (the recursion equivalent of the source's `for part in
&target_partitions` loop). -/
def planOverlayPartsAux (fs : PlanFs) (content : FsPath) :
    List String → List (String × List FsPath) × Bool →
      List (String × List FsPath) × Bool
  | [], acc => acc
  | q :: tps, acc =>
      planOverlayPartsAux fs content tps
        (if fs.isDirWithFiles (content ++ [q])
         then (pushLayer acc.1 q (content ++ [q]), true)
         else acc)

/-- The overlay-branch inner loop over target partitions
(src/core/planner.rs lines 101-110): push each non-empty partition
directory of the module's synchronized copy, and report whether any was
pushed. -/
def planOverlayParts (fs : PlanFs) (content : FsPath) (tps : List String)
    (layers0 : List (String × List FsPath)) :
    List (String × List FsPath) × Bool :=
  planOverlayPartsAux fs content tps (layers0, false)

/-- One iteration of the planner's module loop
(src/core/planner.rs lines 83-116). -/
def planModuleStep (fs : PlanFs) (root : FsPath) (tps : List String)
    (acc : PlanAcc) (m : ModuleP) : PlanAcc :=
  if m.mode = MountMode.magic then
    if hasMeaningfulContent fs m.source_path tps then
      { acc with magicPaths := setInsertPath acc.magicPaths m.source_path
                 magicIds := setInsertStr acc.magicIds m.id }
    else acc
  else
    if fs.pathExists (root ++ [m.id]) then
      let r := planOverlayParts fs (root ++ [m.id]) tps acc.layers
      if r.2 then
        { acc with layers := r.1, overlayIds := setInsertStr acc.overlayIds m.id }
      else { acc with layers := r.1 }
    else acc

/-- An overlay operation of the generated plan (src/core/planner.rs
`OverlayOperation`). -/
structure OverlayOperationG where
  partition_name : String
  target : String
  lowerdirs : List FsPath
  deriving DecidableEq, Repr

/-- The generated plan (src/core/planner.rs `MountPlan`). -/
structure MountPlanG where
  overlay_ops : List OverlayOperationG
  magic_module_paths : List FsPath
  overlay_module_ids : List String
  magic_module_ids : List String
  deriving DecidableEq, Repr

/-- `generate` (src/core/planner.rs lines 68-153): iterate the modules,
then emit one overlay operation per partition with layers whose resolved
target is a directory, then sort the id lists. -/
def generate (fs : PlanFs) (cfgPartitions : List String) (modules : List ModuleP)
    (root : FsPath) : MountPlanG :=
  let tps := BUILTIN_PARTITIONS ++ cfgPartitions
  let acc := modules.foldl (planModuleStep fs root tps)
    { layers := [], magicPaths := [], overlayIds := [], magicIds := [] }
  let ops := acc.layers.filterMap (fun pl =>
    match fs.resolveTarget ("/" ++ pl.1) with
    | none => none
    | some tgt =>
        if fs.resolvedIsDir tgt then
          some { partition_name := pl.1, target := tgt, lowerdirs := pl.2 }
        else none)
  { overlay_ops := ops
    magic_module_paths := acc.magicPaths
    overlay_module_ids :=
      List.insertionSort (fun a b => strLeB a b = true) acc.overlayIds
    magic_module_ids :=
      List.insertionSort (fun a b => strLeB a b = true) acc.magicIds }

/-- C1: the planner violates the claim — it never checks for `ignore` mode
(src/core/planner.rs lines 86-115 branch only on `magic`), so a module whose
effective rules say `ignore`, but whose content is present under the
planner's storage root (as in the `conflicts`/`diagnostics`/dry-run
invocations, where the storage root is the module directory itself), is
planned as an overlay layer and its id lands in `overlay_module_ids`. -/
theorem C1_ignore_module_planned_into_overlay :
    generate
      { pathExists := fun p => decide (p = ["root", "m"]),
        isDirWithFiles := fun p => decide (p = ["root", "m", "system"]),
        existsWithFiles := fun _ => false,
        resolveTarget := fun s => if s = "/system" then some "/system" else none,
        resolvedIsDir := fun _ => true }
      [] [{ id := "m", source_path := ["data", "modules", "m"],
            mode := MountMode.ignore }]
      ["root"]
    = { overlay_ops := [{ partition_name := "system", target := "/system",
                          lowerdirs := [["root", "m", "system"]] }],
        magic_module_paths := [],
        overlay_module_ids := ["m"],
        magic_module_ids := [] } := by
  rfl

/-- Reflexivity of the character-wise string order. -/
theorem charLeB_refl (cs : List Char) : charLeB cs cs = true := by
  induction cs with
  | nil => rfl
  | cons c rest ih => simp [charLeB, ih]

theorem strLeB_refl (s : String) : strLeB s s = true := charLeB_refl s.data

/-- Association lookup of the partition-layers map, defaulting to `[]`. -/
def lookupLayers (m : List (String × List FsPath)) (p : String) : List FsPath :=
  match m with
  | [] => []
  | (q, ls) :: rest => if q = p then ls else lookupLayers rest p

theorem lookupLayers_pushLayer (m : List (String × List FsPath)) (q : String)
    (path : FsPath) (p : String) :
    lookupLayers (pushLayer m q path) p =
      if q = p then lookupLayers m p ++ [path] else lookupLayers m p := by
  induction m with
  | nil =>
      by_cases h : q = p <;> simp [pushLayer, lookupLayers, h]
  | cons hd rest ih =>
      obtain ⟨q0, ls0⟩ := hd
      by_cases h0 : q0 = q
      · subst h0
        by_cases h : q0 = p <;> simp [pushLayer, lookupLayers, h]
      · by_cases h : q0 = p
        · subst h
          have hqp : ¬ q = q0 := fun hh => h0 hh.symm
          simp [pushLayer, lookupLayers, h0, hqp]
        · simp [pushLayer, lookupLayers, h0, h, ih]

theorem keys_pushLayer (m : List (String × List FsPath)) (q : String)
    (path : FsPath) (x : String)
    (h : x ∈ (pushLayer m q path).map Prod.fst) :
    x = q ∨ x ∈ m.map Prod.fst := by
  induction m with
  | nil =>
      simp only [pushLayer, List.map_cons, List.map_nil,
        List.mem_singleton] at h
      exact Or.inl h
  | cons hd rest ih =>
      obtain ⟨q0, ls0⟩ := hd
      by_cases h0 : q0 = q
      · subst h0
        have hrw : pushLayer ((q0, ls0) :: rest) q0 path
            = (q0, ls0 ++ [path]) :: rest := by simp [pushLayer]
        rw [hrw, List.map_cons, List.mem_cons] at h
        rcases h with h | h
        · exact Or.inl h
        · exact Or.inr (List.mem_cons_of_mem _ h)
      · have hrw : pushLayer ((q0, ls0) :: rest) q path
            = (q0, ls0) :: pushLayer rest q path := by simp [pushLayer, h0]
        rw [hrw, List.map_cons, List.mem_cons] at h
        rcases h with h | h
        · exact Or.inr (List.mem_cons.2 (Or.inl h))
        · rcases ih h with h2 | h2
          · exact Or.inl h2
          · exact Or.inr (List.mem_cons_of_mem _ h2)

theorem keys_nodup_pushLayer (m : List (String × List FsPath)) (q : String)
    (path : FsPath) (h : (m.map Prod.fst).Nodup) :
    ((pushLayer m q path).map Prod.fst).Nodup := by
  induction m with
  | nil => simp [pushLayer]
  | cons hd rest ih =>
      obtain ⟨q0, ls0⟩ := hd
      simp only [List.map_cons, List.nodup_cons] at h
      by_cases h0 : q0 = q
      · subst h0
        have hrw : pushLayer ((q0, ls0) :: rest) q0 path
            = (q0, ls0 ++ [path]) :: rest := by simp [pushLayer]
        rw [hrw, List.map_cons, List.nodup_cons]
        exact ⟨h.1, h.2⟩
      · have hrw : pushLayer ((q0, ls0) :: rest) q path
            = (q0, ls0) :: pushLayer rest q path := by simp [pushLayer, h0]
        rw [hrw, List.map_cons, List.nodup_cons]
        refine ⟨fun hmem => ?_, ih h.2⟩
        rcases keys_pushLayer rest q path q0 hmem with h2 | h2
        · exact h0 h2
        · exact h.1 h2

theorem values_nonempty_pushLayer (m : List (String × List FsPath)) (q : String)
    (path : FsPath) (h : ∀ pl ∈ m, pl.2 ≠ ([] : List FsPath)) :
    ∀ pl ∈ pushLayer m q path, pl.2 ≠ ([] : List FsPath) := by
  induction m with
  | nil =>
      intro pl hpl
      simp only [pushLayer, List.mem_singleton] at hpl
      subst hpl
      simp
  | cons hd rest ih =>
      obtain ⟨q0, ls0⟩ := hd
      intro pl hpl
      by_cases h0 : q0 = q
      · subst h0
        have hrw : pushLayer ((q0, ls0) :: rest) q0 path
            = (q0, ls0 ++ [path]) :: rest := by simp [pushLayer]
        rw [hrw, List.mem_cons] at hpl
        rcases hpl with hpl | hpl
        · subst hpl; simp
        · exact h pl (List.mem_cons_of_mem _ hpl)
      · have hrw : pushLayer ((q0, ls0) :: rest) q path
            = (q0, ls0) :: pushLayer rest q path := by simp [pushLayer, h0]
        rw [hrw, List.mem_cons] at hpl
        rcases hpl with hpl | hpl
        · subst hpl; exact h _ (List.mem_cons_self _ _)
        · exact ih (fun pl2 hpl2 => h pl2 (List.mem_cons_of_mem _ hpl2)) pl hpl

theorem lookupLayers_of_mem (m : List (String × List FsPath)) (p : String)
    (ls : List FsPath) (hmem : (p, ls) ∈ m) (hnd : (m.map Prod.fst).Nodup) :
    lookupLayers m p = ls := by
  induction m with
  | nil => cases hmem
  | cons hd rest ih =>
      obtain ⟨q0, ls0⟩ := hd
      simp only [List.map_cons, List.nodup_cons] at hnd
      rcases List.mem_cons.1 hmem with h | h
      · rw [Prod.mk.injEq] at h
        obtain ⟨h1, h2⟩ := h
        subst h1
        simp only [lookupLayers, if_pos rfl]
        exact h2.symm
      · have hne : q0 ≠ p := by
          intro hEq
          subst hEq
          exact hnd.1 (List.mem_map_of_mem Prod.fst h)
        simp only [lookupLayers, hne, if_false]
        exact ih h hnd.2

/-- The layers the inner partition loop contributes to partition `p` for one
module content root. -/
def contribParts (fs : PlanFs) (content : FsPath) (tps : List String)
    (p : String) : List FsPath :=
  tps.filterMap (fun q =>
    if q = p then
      (if fs.isDirWithFiles (content ++ [q]) then some (content ++ [q]) else none)
    else none)

theorem contribParts_all_eq (fs : PlanFs) (content : FsPath) (tps : List String)
    (p : String) : ∀ x ∈ contribParts fs content tps p, x = content ++ [p] := by
  intro x hx
  rcases List.mem_filterMap.1 hx with ⟨q, _, hq⟩
  by_cases hqp : q = p
  · subst hqp
    by_cases hd : fs.isDirWithFiles (content ++ [q])
    · simp only [if_pos rfl, hd, if_true, Option.some.injEq] at hq
      exact hq.symm
    · simp [if_pos rfl, hd] at hq
  · simp [hqp] at hq

theorem planOverlayPartsAux_lookup (fs : PlanFs) (content : FsPath)
    (tps : List String) :
    ∀ (acc : List (String × List FsPath) × Bool) (p : String),
      lookupLayers (planOverlayPartsAux fs content tps acc).1 p =
        lookupLayers acc.1 p ++ contribParts fs content tps p := by
  induction tps with
  | nil => intro acc p; simp [planOverlayPartsAux, contribParts]
  | cons q tps ih =>
      intro acc p
      simp only [planOverlayPartsAux]
      rw [ih]
      by_cases hd : fs.isDirWithFiles (content ++ [q])
      · rw [if_pos hd]
        simp only [lookupLayers_pushLayer]
        by_cases hqp : q = p
        · subst hqp
          simp [contribParts, List.filterMap_cons, hd, List.append_assoc]
        · simp [contribParts, List.filterMap_cons, hqp]
      · rw [if_neg hd]
        by_cases hqp : q = p
        · subst hqp
          simp [contribParts, List.filterMap_cons, hd]
        · simp [contribParts, List.filterMap_cons, hqp]

theorem planOverlayPartsAux_keys_nodup (fs : PlanFs) (content : FsPath)
    (tps : List String) :
    ∀ (acc : List (String × List FsPath) × Bool),
      (acc.1.map Prod.fst).Nodup →
      ((planOverlayPartsAux fs content tps acc).1.map Prod.fst).Nodup := by
  induction tps with
  | nil => intro acc h; exact h
  | cons q tps ih =>
      intro acc h
      simp only [planOverlayPartsAux]
      by_cases hd : fs.isDirWithFiles (content ++ [q])
      · rw [if_pos hd]
        exact ih _ (keys_nodup_pushLayer _ _ _ h)
      · rw [if_neg hd]
        exact ih _ h

theorem planOverlayPartsAux_values_nonempty (fs : PlanFs) (content : FsPath)
    (tps : List String) :
    ∀ (acc : List (String × List FsPath) × Bool),
      (∀ pl ∈ acc.1, pl.2 ≠ ([] : List FsPath)) →
      ∀ pl ∈ (planOverlayPartsAux fs content tps acc).1,
        pl.2 ≠ ([] : List FsPath) := by
  induction tps with
  | nil => intro acc h; exact h
  | cons q tps ih =>
      intro acc h
      simp only [planOverlayPartsAux]
      by_cases hd : fs.isDirWithFiles (content ++ [q])
      · rw [if_pos hd]
        exact ih _ (values_nonempty_pushLayer _ _ _ h)
      · rw [if_neg hd]
        exact ih _ h

/-- The layers one module contributes to partition `p` in the planner's
module loop. -/
def perModuleContrib (fs : PlanFs) (root : FsPath) (tps : List String)
    (p : String) (m : ModuleP) : List FsPath :=
  if m.mode = MountMode.magic then []
  else if fs.pathExists (root ++ [m.id]) then
    contribParts fs (root ++ [m.id]) tps p
  else []

theorem planModuleStep_layers (fs : PlanFs) (root : FsPath) (tps : List String)
    (acc : PlanAcc) (m : ModuleP) (p : String) :
    lookupLayers (planModuleStep fs root tps acc m).layers p =
      lookupLayers acc.layers p ++ perModuleContrib fs root tps p m := by
  by_cases hm : m.mode = MountMode.magic
  · simp only [planModuleStep, hm, if_pos rfl, perModuleContrib]
    by_cases hc : hasMeaningfulContent fs m.source_path tps
    · simp [hc]
    · simp [hc]
  · by_cases he : fs.pathExists (root ++ [m.id])
    · have h1 : lookupLayers (planOverlayParts fs (root ++ [m.id]) tps acc.layers).1 p
          = lookupLayers acc.layers p ++ contribParts fs (root ++ [m.id]) tps p :=
        planOverlayPartsAux_lookup fs (root ++ [m.id]) tps (acc.layers, false) p
      simp only [planModuleStep, hm, if_false, he, if_true, perModuleContrib]
      by_cases hr : (planOverlayParts fs (root ++ [m.id]) tps acc.layers).2
      · simp [hr, h1]
      · simp [hr, h1]
    · simp [planModuleStep, hm, he, perModuleContrib]

theorem planModuleStep_keys_nodup (fs : PlanFs) (root : FsPath)
    (tps : List String) (acc : PlanAcc) (m : ModuleP)
    (h : (acc.layers.map Prod.fst).Nodup) :
    ((planModuleStep fs root tps acc m).layers.map Prod.fst).Nodup := by
  by_cases hm : m.mode = MountMode.magic
  · simp only [planModuleStep, hm, if_pos rfl]
    by_cases hc : hasMeaningfulContent fs m.source_path tps
    · simpa [hc] using h
    · simpa [hc] using h
  · by_cases he : fs.pathExists (root ++ [m.id])
    · have h1 := planOverlayPartsAux_keys_nodup fs (root ++ [m.id]) tps
        (acc.layers, false) h
      simp only [planModuleStep, hm, if_false, he, if_true]
      by_cases hr : (planOverlayParts fs (root ++ [m.id]) tps acc.layers).2
      · simpa [hr] using h1
      · simpa [hr] using h1
    · simpa [planModuleStep, hm, he] using h

theorem planModuleStep_values_nonempty (fs : PlanFs) (root : FsPath)
    (tps : List String) (acc : PlanAcc) (m : ModuleP)
    (h : ∀ pl ∈ acc.layers, pl.2 ≠ ([] : List FsPath)) :
    ∀ pl ∈ (planModuleStep fs root tps acc m).layers,
      pl.2 ≠ ([] : List FsPath) := by
  by_cases hm : m.mode = MountMode.magic
  · simp only [planModuleStep, hm, if_pos rfl]
    by_cases hc : hasMeaningfulContent fs m.source_path tps
    · simpa [hc] using h
    · simpa [hc] using h
  · by_cases he : fs.pathExists (root ++ [m.id])
    · have h1 := planOverlayPartsAux_values_nonempty fs (root ++ [m.id]) tps
        (acc.layers, false) h
      simp only [planModuleStep, hm, if_false, he, if_true]
      by_cases hr : (planOverlayParts fs (root ++ [m.id]) tps acc.layers).2
      · simpa [hr] using h1
      · simpa [hr] using h1
    · simpa [planModuleStep, hm, he] using h

theorem planFold_lookup (fs : PlanFs) (root : FsPath) (tps : List String)
    (modules : List ModuleP) :
    ∀ (acc : PlanAcc) (p : String),
      lookupLayers ((modules.foldl (planModuleStep fs root tps) acc).layers) p =
        lookupLayers acc.layers p ++
          ((modules.map (perModuleContrib fs root tps p)).flatten) := by
  induction modules with
  | nil => intro acc p; simp
  | cons m rest ih =>
      intro acc p
      simp only [List.foldl_cons, List.map_cons, List.flatten_cons]
      rw [ih, planModuleStep_layers, List.append_assoc]

theorem planFold_keys_nodup (fs : PlanFs) (root : FsPath) (tps : List String)
    (modules : List ModuleP) :
    ∀ (acc : PlanAcc), (acc.layers.map Prod.fst).Nodup →
      (((modules.foldl (planModuleStep fs root tps) acc).layers).map Prod.fst).Nodup := by
  induction modules with
  | nil => intro acc h; exact h
  | cons m rest ih =>
      intro acc h
      simp only [List.foldl_cons]
      exact ih _ (planModuleStep_keys_nodup fs root tps acc m h)

theorem planFold_values_nonempty (fs : PlanFs) (root : FsPath) (tps : List String)
    (modules : List ModuleP) :
    ∀ (acc : PlanAcc), (∀ pl ∈ acc.layers, pl.2 ≠ ([] : List FsPath)) →
      ∀ pl ∈ (modules.foldl (planModuleStep fs root tps) acc).layers,
        pl.2 ≠ ([] : List FsPath) := by
  induction modules with
  | nil => intro acc h; exact h
  | cons m rest ih =>
      intro acc h
      simp only [List.foldl_cons]
      exact ih _ (planModuleStep_values_nonempty fs root tps acc m h)

/-- The module id embedded in a layer path `root ++ [id, part]`. -/
def layerId (root : FsPath) (l : FsPath) : String :=
  ((l.drop root.length).headD "")

theorem layerId_append (root : FsPath) (i p : String) :
    layerId root (root ++ [i, p]) = i := by
  simp [layerId, List.drop_left]

/-- C6: for every OverlayOperation of a generated MountPlan, `lowerdirs` is
non-empty, each lower dir is the partition directory `root/<id>/<part>` of
an inventory module, and — given the scanner's guarantee that the inventory
is sorted descending by id — the lower dirs appear in descending-id
inventory order, the first entry having the highest overlayfs precedence. -/
theorem C6_lowerdirs_nonempty_descending
    (fs : PlanFs) (cfgPartitions : List String) (modules : List ModuleP)
    (root : FsPath)
    (hsort : modules.Pairwise (fun a b => strLeB b.id a.id = true))
    (op : OverlayOperationG)
    (hop : op ∈ (generate fs cfgPartitions modules root).overlay_ops) :
    op.lowerdirs ≠ [] ∧
    (∀ l ∈ op.lowerdirs,
      l = root ++ [layerId root l, op.partition_name] ∧
      layerId root l ∈ modules.map ModuleP.id) ∧
    op.lowerdirs.Pairwise
      (fun l1 l2 => strLeB (layerId root l2) (layerId root l1) = true) := by
  simp only [generate] at hop
  rcases List.mem_filterMap.1 hop with ⟨pl, hpl, hresolve⟩
  obtain ⟨p, ls⟩ := pl
  have hlowerdirs : op.lowerdirs = ls ∧ op.partition_name = p := by
    rcases hres : fs.resolveTarget ("/" ++ p) with _ | tgt
    · rw [hres] at hresolve; cases hresolve
    · rw [hres] at hresolve
      by_cases hdir : fs.resolvedIsDir tgt
      · simp only [hdir, if_true, Option.some.injEq] at hresolve
        rw [← hresolve]
        exact ⟨rfl, rfl⟩
      · simp [hdir] at hresolve
  set tps := BUILTIN_PARTITIONS ++ cfgPartitions with htps
  set acc0 : PlanAcc :=
    { layers := [], magicPaths := [], overlayIds := [], magicIds := [] } with hacc0
  have hnd : (((modules.foldl (planModuleStep fs root tps) acc0).layers).map
      Prod.fst).Nodup :=
    planFold_keys_nodup fs root tps modules acc0 (by simp [hacc0])
  have hlook : lookupLayers ((modules.foldl (planModuleStep fs root tps) acc0).layers) p = ls :=
    lookupLayers_of_mem _ p ls hpl hnd
  have hchar : ls = ((modules.map (perModuleContrib fs root tps p)).flatten) := by
    rw [← hlook, planFold_lookup]
    simp [hacc0, lookupLayers]
  have hne : ls ≠ [] :=
    planFold_values_nonempty fs root tps modules acc0 (by simp [hacc0]) (p, ls) hpl
  have hmemchar : ∀ l ∈ ls, ∃ m ∈ modules, l = root ++ [m.id, p] := by
    intro l hl
    rw [hchar] at hl
    rcases List.mem_flatten.1 hl with ⟨block, hblock, hlin⟩
    rcases List.mem_map.1 hblock with ⟨m, hm, hbeq⟩
    refine ⟨m, hm, ?_⟩
    rw [← hbeq] at hlin
    simp only [perModuleContrib] at hlin
    by_cases hmm : m.mode = MountMode.magic
    · rw [if_pos hmm] at hlin; cases hlin
    · rw [if_neg hmm] at hlin
      by_cases he : fs.pathExists (root ++ [m.id])
      · rw [if_pos he] at hlin
        have := contribParts_all_eq fs (root ++ [m.id]) tps p l hlin
        rw [this]
        simp
      · rw [if_neg he] at hlin; cases hlin
  refine ⟨?_, ?_, ?_⟩
  · rw [hlowerdirs.1]; exact hne
  · intro l hl
    rw [hlowerdirs.1] at hl
    rcases hmemchar l hl with ⟨m, hm, hleq⟩
    have hid : layerId root l = m.id := by rw [hleq, layerId_append]
    constructor
    · rw [hid, hlowerdirs.2, ← hleq]
    · rw [hid]
      exact List.mem_map_of_mem ModuleP.id hm
  · rw [hlowerdirs.1, hchar]
    rw [List.pairwise_flatten]
    constructor
    · intro block hblock
      rcases List.mem_map.1 hblock with ⟨m, _, hbeq⟩
      refine List.pairwise_of_forall_mem_list ?_
      intro x hx y hy
      rw [← hbeq] at hx hy
      have hxe : x = root ++ [m.id, p] := by
        simp only [perModuleContrib] at hx
        by_cases hmm : m.mode = MountMode.magic
        · rw [if_pos hmm] at hx; cases hx
        · rw [if_neg hmm] at hx
          by_cases he : fs.pathExists (root ++ [m.id])
          · rw [if_pos he] at hx
            have := contribParts_all_eq fs (root ++ [m.id]) tps p x hx
            rw [this]; simp
          · rw [if_neg he] at hx; cases hx
      have hye : y = root ++ [m.id, p] := by
        simp only [perModuleContrib] at hy
        by_cases hmm : m.mode = MountMode.magic
        · rw [if_pos hmm] at hy; cases hy
        · rw [if_neg hmm] at hy
          by_cases he : fs.pathExists (root ++ [m.id])
          · rw [if_pos he] at hy
            have := contribParts_all_eq fs (root ++ [m.id]) tps p y hy
            rw [this]; simp
          · rw [if_neg he] at hy; cases hy
      rw [hxe, hye, layerId_append]
      exact strLeB_refl m.id
    · rw [List.pairwise_map]
      refine hsort.imp_of_mem ?_
      intro m1 m2 hm1 hm2 hle x hx y hy
      have hxe : x = root ++ [m1.id, p] := by
        simp only [perModuleContrib] at hx
        by_cases hmm : m1.mode = MountMode.magic
        · rw [if_pos hmm] at hx; cases hx
        · rw [if_neg hmm] at hx
          by_cases he : fs.pathExists (root ++ [m1.id])
          · rw [if_pos he] at hx
            have := contribParts_all_eq fs (root ++ [m1.id]) tps p x hx
            rw [this]; simp
          · rw [if_neg he] at hx; cases hx
      have hye : y = root ++ [m2.id, p] := by
        simp only [perModuleContrib] at hy
        by_cases hmm : m2.mode = MountMode.magic
        · rw [if_pos hmm] at hy; cases hy
        · rw [if_neg hmm] at hy
          by_cases he : fs.pathExists (root ++ [m2.id])
          · rw [if_pos he] at hy
            have := contribParts_all_eq fs (root ++ [m2.id]) tps p y hy
            rw [this]; simp
          · rw [if_neg he] at hy; cases hy
      rw [hxe, hye, layerId_append, layerId_append]
      exact hle

/-- Concrete overlay operation for the C6 witness (scenario S1). -/
def c6op : OverlayOperationG :=
  { partition_name := "system", target := "/system",
    lowerdirs := [["root", "beta", "system"], ["root", "alpha", "system"]] }

/-- Concrete inventory for the C6 witness, sorted descending by id. -/
def c6modules : List ModuleP :=
  [{ id := "beta", source_path := ["data", "beta"], mode := MountMode.overlay },
   { id := "alpha", source_path := ["data", "alpha"], mode := MountMode.overlay }]

/-- Concrete filesystem for the C6 witness. -/
def c6fs : PlanFs :=
  { pathExists := fun p => decide (p = ["root", "beta"] ∨ p = ["root", "alpha"]),
    isDirWithFiles := fun p =>
      decide (p = ["root", "beta", "system"] ∨ p = ["root", "alpha", "system"]),
    existsWithFiles := fun _ => false,
    resolveTarget := fun s => if s = "/system" then some "/system" else none,
    resolvedIsDir := fun _ => true }

/-- Witness for C6 at scenario S1: modules `beta`, `alpha` (descending),
each with a non-empty `system` directory. -/
theorem C6_lowerdirs_nonempty_descending_witness :
    c6op.lowerdirs ≠ [] ∧
    (∀ l ∈ c6op.lowerdirs,
      l = ["root"] ++ [layerId ["root"] l, c6op.partition_name] ∧
      layerId ["root"] l ∈ c6modules.map ModuleP.id) ∧
    c6op.lowerdirs.Pairwise
      (fun l1 l2 => strLeB (layerId ["root"] l2) (layerId ["root"] l1) = true) :=
  C6_lowerdirs_nonempty_descending c6fs [] c6modules ["root"]
    (by decide) c6op (by decide)

/-! ## Overlay engine (src/mount/overlay.rs)

`mount_overlayfs` tries one direct `do_mount_overlay`; on failure with a
lowerdir string of at least `PAGE_LIMIT = 4000` bytes and no upper/work dir
it falls back to `mount_overlayfs_staged`, which chunks the layers into
`SAFE_CHUNK_SIZE = 3500`-byte batches, mounts them in reverse order through
staging directories, and lets a guard object detach and remove the staging
mounts on error.  `do_mount_overlay` outcomes are an oracle keyed by
(lowerdir string, destination); staging directory names drop the
timestamp component (`stage_<i>` instead of `stage_<ts>_<i>`), which no
claim observes. -/

/-- Oracle for `do_mount_overlay` outcomes. -/
structure OvEnv where
  mountOk : String → String → Bool

/-- Observable events of one overlay-engine run. -/
inductive OvEv where
  | mountOv (lowerdir : String) (dest : String)
  | mountFail (lowerdir : String) (dest : String)
  | mkStageDir (dest : String)
  | detach (path : String)
  | rmdir (path : String)
  deriving DecidableEq, Repr

/-- `Vec::join(":")`. -/
def joinColon : List String → String
  | [] => ""
  | [s] => s
  | s :: rest => s ++ ":" ++ joinColon rest

/-- `PAGE_LIMIT` (src/mount/overlay.rs line 17). -/
def PAGE_LIMIT : Nat := 4000

/-- `SAFE_CHUNK_SIZE` (src/mount/overlay.rs line 104). -/
def SAFE_CHUNK_SIZE : Nat := 3500

/-- The greedy chunking loop of `mount_overlayfs_staged`
(src/mount/overlay.rs lines 101-117), one dir at a time; state is
(batches, current batch, current joined length). -/
def chunkAux : List String → List (List String) × List String × Nat →
    List (List String) × List String × Nat
  | [], st => st
  | d :: ds, (bs, cur, len) =>
      if SAFE_CHUNK_SIZE < len + d.length + 1 then
        chunkAux ds (bs ++ [cur], [d], d.length + 1)
      else
        chunkAux ds (bs, cur ++ [d], len + d.length + 1)

/-- The batch list of `mount_overlayfs_staged`. -/
def chunkBatches (dirs : List String) : List (List String) :=
  let st := chunkAux dirs ([], [], 0)
  if st.2.1 = [] then st.1 else st.1 ++ [st.2.1]

/-- The staging directory for index `i` under `<RUN_DIR>/staging`. -/
def stageName (i : Nat) : String :=
  "/data/adb/meta-hybrid/run/staging/stage_" ++ toString i

/-- The guard's drop handler (src/mount/overlay.rs lines 24-33): detach each
recorded staging mount in reverse order and remove its directory. -/
def cleanupEvs (guard : List String) : List OvEv :=
  guard.reverse.flatMap (fun p => [OvEv.detach p, OvEv.rmdir p])

/-- The mount loop of `mount_overlayfs_staged`
(src/mount/overlay.rs lines 124-170) over the reversed batch list:
`i` is the enumerate index, `total` the batch count, `base` the current
base, `guard` the staging mounts recorded so far.  Returns the events,
whether the loop committed, and the final guard list. -/
def stagedLoop (env : OvEnv) (dest : String) (total : Nat) :
    List (List String) → Nat → String → List String →
      List OvEv × Bool × List String
  | [], _, _, guard => ([], true, guard)
  | batch :: rest, i, base, guard =>
      let isLast := i = total - 1
      let target := if isLast then dest else stageName i
      let mkEv : List OvEv := if isLast then [] else [OvEv.mkStageDir target]
      let lowerdir := joinColon (batch ++ [base])
      if env.mountOk lowerdir target then
        let r := stagedLoop env dest total rest (i + 1)
          (if isLast then base else target)
          (if isLast then guard else guard ++ [target])
        (mkEv ++ OvEv.mountOv lowerdir target :: r.1, r.2.1, r.2.2)
      else
        (mkEv ++ OvEv.mountFail lowerdir target :: cleanupEvs guard, false, guard)

/-- `mount_overlayfs_staged` (src/mount/overlay.rs lines 95-171). -/
def mountOverlayfsStaged (env : OvEnv) (lower_dirs : List String)
    (lowest dest : String) : List OvEv × Bool :=
  let batches := chunkBatches lower_dirs
  let r := stagedLoop env dest batches.length batches.reverse 0 lowest []
  (r.1, r.2.1)

/-- `mount_overlayfs` (src/mount/overlay.rs lines 52-93).  Returns the
events, the overall outcome, and whether the staged path was taken. -/
def mountOverlayfs (env : OvEnv) (lower_dirs : List String) (lowest : String)
    (upperdir workdir : Option String) (dest : String) :
    List OvEv × Bool × Bool :=
  let cfg := joinColon (lower_dirs ++ [lowest])
  if env.mountOk cfg dest then ([OvEv.mountOv cfg dest], true, false)
  else if PAGE_LIMIT ≤ cfg.length then
    if upperdir.isSome || workdir.isSome then
      ([OvEv.mountFail cfg dest], false, false)
    else
      let r := mountOverlayfsStaged env lower_dirs lowest dest
      (OvEv.mountFail cfg dest :: r.1, r.2, true)
  else ([OvEv.mountFail cfg dest], false, false)

/-- The destinations of the successful overlay mounts in a trace, in order. -/
def mountDests (evs : List OvEv) : List String :=
  evs.filterMap (fun ev =>
    match ev with
    | OvEv.mountOv _ t => some t
    | _ => none)

/-- The joined byte budget the chunking loop tracks: each dir plus one
separator byte. -/
def chunkLen (b : List String) : Nat := (b.map (fun d => d.length + 1)).sum

theorem joinColon_length (b : List String) (h : b ≠ []) :
    (joinColon b).length + 1 = chunkLen b := by
  induction b with
  | nil => cases h rfl
  | cons d rest ih =>
      cases rest with
      | nil => simp [joinColon, chunkLen]
      | cons e rest2 =>
          have hne : (e :: rest2) ≠ ([] : List String) := by simp
          have ih2 := ih hne
          show ((d ++ ":" ++ joinColon (e :: rest2)).length) + 1 = _
          rw [String.length_append, String.length_append]
          have hcolon : (":" : String).length = 1 := rfl
          rw [hcolon]
          simp only [chunkLen, List.map_cons, List.sum_cons] at ih2 ⊢
          omega

theorem chunkAux_invariant (ds : List String) :
    ∀ (bs : List (List String)) (cur : List String) (len : Nat),
      (∀ d ∈ ds, d.length ≤ 3499) →
      len = chunkLen cur → len ≤ SAFE_CHUNK_SIZE →
      (∀ b ∈ bs, b ≠ [] ∧ chunkLen b ≤ SAFE_CHUNK_SIZE) →
      ((chunkAux ds (bs, cur, len)).2.2 = chunkLen (chunkAux ds (bs, cur, len)).2.1 ∧
       (chunkAux ds (bs, cur, len)).2.2 ≤ SAFE_CHUNK_SIZE ∧
       (∀ b ∈ (chunkAux ds (bs, cur, len)).1,
          b ≠ [] ∧ chunkLen b ≤ SAFE_CHUNK_SIZE)) := by
  induction ds with
  | nil =>
      intro bs cur len _ h1 h2 h3
      exact ⟨h1, h2, h3⟩
  | cons d ds ih =>
      intro bs cur len hd h1 h2 h3
      have hdlen : d.length ≤ 3499 := hd d (List.mem_cons_self _ _)
      have hdrest : ∀ x ∈ ds, x.length ≤ 3499 :=
        fun x hx => hd x (List.mem_cons_of_mem _ hx)
      simp only [chunkAux]
      by_cases hflush : SAFE_CHUNK_SIZE < len + d.length + 1
      · rw [if_pos hflush]
        refine ih _ _ _ hdrest (by simp [chunkLen]) ?_ ?_
        · simp only [SAFE_CHUNK_SIZE]; omega
        · intro b hb
          rcases List.mem_append.1 hb with hb | hb
          · exact h3 b hb
          · rw [List.mem_singleton] at hb
            subst hb
            refine ⟨?_, by omega⟩
            intro hcur
            subst hcur
            simp only [chunkLen, List.map_nil, List.sum_nil] at h1
            subst h1
            simp only [SAFE_CHUNK_SIZE] at hflush
            omega
      · rw [if_neg hflush]
        refine ih _ _ _ hdrest ?_ (by omega) h3
        rw [h1]
        simp only [chunkLen, List.map_append, List.map_cons, List.map_nil,
          List.sum_append, List.sum_cons, List.sum_nil]
        omega

theorem chunkBatches_bound (dirs : List String)
    (hd : ∀ d ∈ dirs, d.length ≤ 3499) :
    ∀ b ∈ chunkBatches dirs, b ≠ [] ∧ (joinColon b).length ≤ SAFE_CHUNK_SIZE := by
  have hinv := chunkAux_invariant dirs [] [] 0 hd (by simp [chunkLen])
    (by simp [SAFE_CHUNK_SIZE]) (by simp)
  intro b hb
  simp only [chunkBatches] at hb
  have hmain : b ≠ [] ∧ chunkLen b ≤ SAFE_CHUNK_SIZE := by
    by_cases hcur : (chunkAux dirs ([], [], 0)).2.1 = []
    · rw [if_pos hcur] at hb
      exact hinv.2.2 b hb
    · rw [if_neg hcur] at hb
      rcases List.mem_append.1 hb with hb | hb
      · exact hinv.2.2 b hb
      · rw [List.mem_singleton] at hb
        subst hb
        exact ⟨hcur, by rw [← hinv.1]; exact hinv.2.1⟩
  refine ⟨hmain.1, ?_⟩
  have := joinColon_length b hmain.1
  omega

theorem mem_cleanupEvs (guard : List String) (p : String) (h : p ∈ guard) :
    OvEv.detach p ∈ cleanupEvs guard ∧ OvEv.rmdir p ∈ cleanupEvs guard := by
  constructor <;>
    · refine List.mem_flatMap.2 ⟨p, List.mem_reverse.2 h, ?_⟩
      simp

theorem stagedLoop_dests (env : OvEnv) (dest : String) (total : Nat) :
    ∀ (batches : List (List String)) (i : Nat) (base : String)
      (guard : List String),
      (stagedLoop env dest total batches i base guard).2.1 = true →
      mountDests (stagedLoop env dest total batches i base guard).1 =
        (List.range batches.length).map
          (fun j => if i + j = total - 1 then dest else stageName (i + j)) := by
  intro batches
  induction batches with
  | nil => intro i base guard _; simp [stagedLoop, mountDests]
  | cons batch rest ih =>
      intro i base guard hok
      simp only [stagedLoop] at hok ⊢
      by_cases hmnt : env.mountOk (joinColon (batch ++ [base]))
          (if i = total - 1 then dest else stageName i)
      · rw [if_pos hmnt] at hok ⊢
        simp only at hok
        have ihr := ih (i + 1)
          (if i = total - 1 then base else (if i = total - 1 then dest else stageName i))
          (if i = total - 1 then guard
           else guard ++ [if i = total - 1 then dest else stageName i]) hok
        have hdst : mountDests
            ((if i = total - 1 then ([] : List OvEv)
              else [OvEv.mkStageDir (if i = total - 1 then dest else stageName i)]) ++
              OvEv.mountOv (joinColon (batch ++ [base]))
                (if i = total - 1 then dest else stageName i) ::
              (stagedLoop env dest total rest (i + 1)
                (if i = total - 1 then base else (if i = total - 1 then dest else stageName i))
                (if i = total - 1 then guard
                 else guard ++ [if i = total - 1 then dest else stageName i])).1) =
            (if i = total - 1 then dest else stageName i) ::
              mountDests (stagedLoop env dest total rest (i + 1)
                (if i = total - 1 then base else (if i = total - 1 then dest else stageName i))
                (if i = total - 1 then guard
                 else guard ++ [if i = total - 1 then dest else stageName i])).1 := by
          by_cases hl : i = total - 1 <;> simp [hl, mountDests]
        rw [hdst, ihr]
        rw [List.length_cons, List.range_succ_eq_map, List.map_cons, List.map_map]
        congr 1
        refine List.map_congr_left ?_
        intro a _
        simp only [Function.comp, Nat.succ_eq_add_one]
        rw [show i + (a + 1) = i + 1 + a from by omega]
      · rw [if_neg hmnt] at hok
        simp only at hok
        cases hok

theorem stagedLoop_cleanup (env : OvEnv) (dest : String) (total : Nat) :
    ∀ (batches : List (List String)) (i : Nat) (base : String)
      (guard : List String),
      (stagedLoop env dest total batches i base guard).2.1 = false →
      ((∀ p ∈ guard,
          OvEv.detach p ∈ (stagedLoop env dest total batches i base guard).1 ∧
          OvEv.rmdir p ∈ (stagedLoop env dest total batches i base guard).1) ∧
       (∀ l p, OvEv.mountOv l p ∈ (stagedLoop env dest total batches i base guard).1 →
          p ≠ dest →
          OvEv.detach p ∈ (stagedLoop env dest total batches i base guard).1 ∧
          OvEv.rmdir p ∈ (stagedLoop env dest total batches i base guard).1)) := by
  intro batches
  induction batches with
  | nil =>
      intro i base guard hok
      simp [stagedLoop] at hok
  | cons batch rest ih =>
      intro i base guard hok
      simp only [stagedLoop] at hok ⊢
      by_cases hmnt : env.mountOk (joinColon (batch ++ [base]))
          (if i = total - 1 then dest else stageName i)
      · rw [if_pos hmnt] at hok ⊢
        simp only at hok
        have ihr := ih (i + 1)
          (if i = total - 1 then base else (if i = total - 1 then dest else stageName i))
          (if i = total - 1 then guard
           else guard ++ [if i = total - 1 then dest else stageName i]) hok
        constructor
        · intro p hp
          have hpg : p ∈ (if i = total - 1 then guard
              else guard ++ [if i = total - 1 then dest else stageName i]) := by
            by_cases hl : i = total - 1
            · simpa [hl] using hp
            · simp only [hl, if_false]
              exact List.mem_append.2 (Or.inl hp)
          have := ihr.1 p hpg
          constructor
          · exact List.mem_append.2 (Or.inr (List.mem_cons_of_mem _ this.1))
          · exact List.mem_append.2 (Or.inr (List.mem_cons_of_mem _ this.2))
        · intro l p hmem hpdest
          rcases List.mem_append.1 hmem with hmem | hmem
          · exfalso
            by_cases hl : i = total - 1
            · simp [hl] at hmem
            · simp [hl] at hmem
          · rcases List.mem_cons.1 hmem with hmem | hmem
            · cases hmem
              by_cases hl : i = total - 1
              · exact absurd (by simp [hl]) hpdest
              · have hpg : (if i = total - 1 then dest else stageName i) ∈
                    (if i = total - 1 then guard
                     else guard ++ [if i = total - 1 then dest else stageName i]) := by
                  simp [hl]
                have hdr := ihr.1 _ hpg
                constructor
                · exact List.mem_append.2 (Or.inr (List.mem_cons_of_mem _ hdr.1))
                · exact List.mem_append.2 (Or.inr (List.mem_cons_of_mem _ hdr.2))
            · have := ihr.2 l p hmem hpdest
              constructor
              · exact List.mem_append.2 (Or.inr (List.mem_cons_of_mem _ this.1))
              · exact List.mem_append.2 (Or.inr (List.mem_cons_of_mem _ this.2))
      · rw [if_neg hmnt] at hok ⊢
        constructor
        · intro p hp
          have := mem_cleanupEvs guard p hp
          constructor
          · exact List.mem_append.2 (Or.inr (List.mem_cons_of_mem _ this.1))
          · exact List.mem_append.2 (Or.inr (List.mem_cons_of_mem _ this.2))
        · intro l p hmem _
          exfalso
          rcases List.mem_append.1 hmem with hmem | hmem
          · by_cases hl : i = total - 1
            · simp [hl] at hmem
            · simp [hl] at hmem
          · rcases List.mem_cons.1 hmem with hmem | hmem
            · cases hmem
            · rcases List.mem_flatMap.1 hmem with ⟨q, _, hq⟩
              simp at hq

/-- C7 as stated fails on the code, in two ways.  First, a long lowerdir
string alone does not switch the engine to staged mounting: staging only
happens after the direct mount has failed, so with a 4001-byte layer whose
direct mount succeeds no staged mount occurs.  Second, the greedy chunker
can emit a batch whose joined size exceeds 3500 bytes (a single 3501-byte
layer), preceded by a spurious empty batch. -/
theorem C7_counterexample_direct_success_and_oversized_batch :
    ((mountOverlayfs { mountOk := fun _ _ => true }
        [String.mk (List.replicate 4001 'a')] "/low" none none "/system").2.2
      = false ∧
     PAGE_LIMIT ≤
      (joinColon ([String.mk (List.replicate 4001 'a')] ++ ["/low"])).length) ∧
    (chunkBatches [String.mk (List.replicate 3501 'a')]
        = [[], [String.mk (List.replicate 3501 'a')]] ∧
     SAFE_CHUNK_SIZE < (joinColon [String.mk (List.replicate 3501 'a')]).length) := by
  have hlen1 : (String.mk (List.replicate 4001 'a')).length = 4001 := by
    show (List.replicate 4001 'a').length = 4001
    rw [List.length_replicate]
  have hlen2 : (String.mk (List.replicate 3501 'a')).length = 3501 := by
    show (List.replicate 3501 'a').length = 3501
    rw [List.length_replicate]
  refine ⟨⟨rfl, ?_⟩, ?_, ?_⟩
  · show PAGE_LIMIT ≤ (String.mk (List.replicate 4001 'a') ++ ":" ++ "/low").length
    rw [String.length_append, String.length_append, hlen1]
    have h1 : (":" : String).length = 1 := rfl
    have h2 : ("/low" : String).length = 4 := rfl
    rw [h1, h2]
    norm_num [PAGE_LIMIT]
  · have hstep : chunkAux [String.mk (List.replicate 3501 'a')] ([], [], 0)
        = ([[]], [String.mk (List.replicate 3501 'a')],
           (String.mk (List.replicate 3501 'a')).length + 1) := by
      simp only [chunkAux]
      rw [if_pos (by rw [hlen2]; norm_num [SAFE_CHUNK_SIZE])]
      simp
    simp only [chunkBatches, hstep]
    rw [if_neg (by simp)]
    simp
  · show SAFE_CHUNK_SIZE < (String.mk (List.replicate 3501 'a')).length
    rw [hlen2]
    norm_num [SAFE_CHUNK_SIZE]

/-- C7 (amended): when the direct overlay mount fails and the computed
lowerdir string is at least `PAGE_LIMIT = 4000` bytes with neither an
upperdir nor a workdir requested, the engine switches to staged mounting:
the layer list is chunked greedily into non-empty batches whose joined size
stays within `SAFE_CHUNK_SIZE = 3500` bytes provided each individual layer
path is at most 3499 bytes; on success the batches are processed in reverse
order, each non-final batch mounted onto a fresh staging directory and the
final batch onto the real destination; and on an error mid-stage every
staging mount created so far is detached and its directory removed. -/
theorem C7_staged_mount_amended (env : OvEnv) (lower_dirs : List String)
    (lowest dest : String)
    (hfail : env.mountOk (joinColon (lower_dirs ++ [lowest])) dest = false)
    (hlen : PAGE_LIMIT ≤ (joinColon (lower_dirs ++ [lowest])).length) :
    (mountOverlayfs env lower_dirs lowest none none dest).2.2 = true ∧
    (mountOverlayfs env lower_dirs lowest none none dest).1 =
      OvEv.mountFail (joinColon (lower_dirs ++ [lowest])) dest ::
        (mountOverlayfsStaged env lower_dirs lowest dest).1 ∧
    ((∀ d ∈ lower_dirs, d.length ≤ 3499) →
      ∀ b ∈ chunkBatches lower_dirs,
        b ≠ [] ∧ (joinColon b).length ≤ SAFE_CHUNK_SIZE) ∧
    ((mountOverlayfsStaged env lower_dirs lowest dest).2 = true →
      1 ≤ (chunkBatches lower_dirs).length →
      mountDests (mountOverlayfsStaged env lower_dirs lowest dest).1 =
        (List.range ((chunkBatches lower_dirs).length - 1)).map stageName
          ++ [dest]) ∧
    ((mountOverlayfsStaged env lower_dirs lowest dest).2 = false →
      ∀ l p, OvEv.mountOv l p ∈ (mountOverlayfsStaged env lower_dirs lowest dest).1 →
        p ≠ dest →
        OvEv.detach p ∈ (mountOverlayfsStaged env lower_dirs lowest dest).1 ∧
        OvEv.rmdir p ∈ (mountOverlayfsStaged env lower_dirs lowest dest).1) := by
  have hmain : mountOverlayfs env lower_dirs lowest none none dest =
      (OvEv.mountFail (joinColon (lower_dirs ++ [lowest])) dest ::
        (mountOverlayfsStaged env lower_dirs lowest dest).1,
       (mountOverlayfsStaged env lower_dirs lowest dest).2, true) := by
    simp only [mountOverlayfs]
    rw [hfail]
    simp only [Bool.false_eq_true, if_false]
    rw [if_pos hlen]
    simp
  refine ⟨by rw [hmain], by rw [hmain], chunkBatches_bound lower_dirs, ?_, ?_⟩
  · intro hok hone
    have hds := stagedLoop_dests env dest (chunkBatches lower_dirs).length
      (chunkBatches lower_dirs).reverse 0 lowest [] (by exact hok)
    show mountDests (stagedLoop env dest (chunkBatches lower_dirs).length
      (chunkBatches lower_dirs).reverse 0 lowest []).1 = _
    rw [hds, List.length_reverse]
    obtain ⟨m, hm⟩ : ∃ m, (chunkBatches lower_dirs).length = m + 1 :=
      ⟨(chunkBatches lower_dirs).length - 1, by omega⟩
    rw [hm]
    rw [List.range_succ, List.map_append]
    simp only [Nat.add_sub_cancel, Nat.zero_add]
    congr 1
    · refine List.map_congr_left ?_
      intro j hj
      have hjm : j < m := List.mem_range.1 hj
      rw [if_neg (by omega)]
    · simp
  · intro hbad l p hmem hpdest
    have hcl := stagedLoop_cleanup env dest (chunkBatches lower_dirs).length
      (chunkBatches lower_dirs).reverse 0 lowest [] (by exact hbad)
    exact hcl.2 l p hmem hpdest

/-- Concrete environment for the C7 witness: mounts succeed exactly when the
lowerdir option string fits within the page limit, so the long direct mount
fails and every staged mount succeeds. -/
def c7env : OvEnv :=
  { mountOk := fun l _ => decide (l.length < PAGE_LIMIT) }

/-- A 30-byte layer path for the C7 witness. -/
def c7dir : String := "dddddddddddddddddddddddddddddd"

/-- 150 such layers: the joined lowerdir string is 4651 bytes. -/
def c7dirs : List String := List.replicate 150 c7dir

/-- Witness for C7 (amended): 150 layers of 30 bytes each (joined lowerdir
string 4651 bytes), direct mount failing, staged mounts succeeding. -/
theorem C7_staged_mount_amended_witness :
    (mountOverlayfs c7env c7dirs "L" none none "/system").2.2 = true ∧
    (mountOverlayfs c7env c7dirs "L" none none "/system").1 =
      OvEv.mountFail (joinColon (c7dirs ++ ["L"])) "/system" ::
        (mountOverlayfsStaged c7env c7dirs "L" "/system").1 ∧
    ((∀ d ∈ c7dirs, d.length ≤ 3499) →
      ∀ b ∈ chunkBatches c7dirs,
        b ≠ [] ∧ (joinColon b).length ≤ SAFE_CHUNK_SIZE) ∧
    ((mountOverlayfsStaged c7env c7dirs "L" "/system").2 = true →
      1 ≤ (chunkBatches c7dirs).length →
      mountDests (mountOverlayfsStaged c7env c7dirs "L" "/system").1 =
        (List.range ((chunkBatches c7dirs).length - 1)).map stageName
          ++ ["/system"]) ∧
    ((mountOverlayfsStaged c7env c7dirs "L" "/system").2 = false →
      ∀ l p, OvEv.mountOv l p ∈ (mountOverlayfsStaged c7env c7dirs "L" "/system").1 →
        p ≠ "/system" →
        OvEv.detach p ∈ (mountOverlayfsStaged c7env c7dirs "L" "/system").1 ∧
        OvEv.rmdir p ∈ (mountOverlayfsStaged c7env c7dirs "L" "/system").1) := by
  have hck : chunkLen (c7dirs ++ ["L"]) = 4652 := by
    have h30 : c7dir.length = 30 := rfl
    have hL : ("L" : String).length = 1 := rfl
    simp only [c7dirs, chunkLen, List.map_append, List.map_replicate,
      List.sum_append, List.map_cons, List.map_nil, List.sum_cons, List.sum_nil,
      List.sum_replicate, h30, hL, smul_eq_mul]
    norm_num
  have hjoin : (joinColon (c7dirs ++ ["L"])).length + 1 = chunkLen (c7dirs ++ ["L"]) :=
    joinColon_length _ (by simp [c7dirs])
  have hclen : (joinColon (c7dirs ++ ["L"])).length = 4651 := by omega
  have hunf : ∀ l t, c7env.mountOk l t = decide (l.length < PAGE_LIMIT) :=
    fun _ _ => rfl
  refine C7_staged_mount_amended c7env c7dirs "L" "/system" ?_ ?_
  · rw [hunf, hclen]
    decide
  · rw [hclen]
    norm_num [PAGE_LIMIT]

/-! ## Magic-mount engine (src/mount/magic.rs)

`MagicMount::do_magic_mount` walks the merged node tree against the live
filesystem.  The `Node` data type lives in the repository's
`mount/node.rs`, absent from the sources; it is modelled from the spec's
data model (name, file type, optional module path, replace flag, runtime
skip flag, children).  The live filesystem is an immutable snapshot tree;
primitive mount/copy operations are an oracle keyed by kind and path.
`check_tmpfs` marks skipped children by mutating the node in the source;
here the marks are returned as a name set consulted by both child loops,
which is observationally the same. -/

/-- `NodeFileType`. -/
inductive NodeType where
  | regularFile
  | symlink
  | directory
  | whiteout
  deriving DecidableEq, Repr

/-- Modelled from the spec: a magic-mount tree node (`mount/node.rs` is not
among the provided sources).  The root has name `""` and no module path. -/
inductive Node where
  | mk (name : String) (file_type : NodeType) (module_path : Option FsPath)
       (replace : Bool) (skip : Bool) (children : List Node)
  deriving Repr

def Node.name : Node → String
  | .mk n _ _ _ _ _ => n

def Node.file_type : Node → NodeType
  | .mk _ ft _ _ _ _ => ft

def Node.module_path : Node → Option FsPath
  | .mk _ _ mp _ _ _ => mp

def Node.replace : Node → Bool
  | .mk _ _ _ r _ _ => r

def Node.skip : Node → Bool
  | .mk _ _ _ _ s _ => s

def Node.children : Node → List Node
  | .mk _ _ _ _ _ cs => cs

/-- A snapshot of the live filesystem below one path. -/
inductive LiveFS where
  | file
  | symlink
  | whiteoutDev
  | dir (entries : List (String × LiveFS))
  deriving Repr

/-- Modelled from the spec: `NodeFileType::from(fs::FileType)` — directories,
symlinks and regular files map to their node types; a character device with
`rdev == 0` is a whiteout. -/
def liveType : LiveFS → NodeType
  | .file => NodeType.regularFile
  | .symlink => NodeType.symlink
  | .whiteoutDev => NodeType.whiteout
  | .dir _ => NodeType.directory

/-- Lookup of one live directory entry by name. -/
def lookupEntry : List (String × LiveFS) → String → Option LiveFS
  | [], _ => none
  | (n, l) :: rest, name => if n = name then some l else lookupEntry rest name

/-- The live subtree of a named child of `live`. -/
def childLiveOf (live : Option LiveFS) (name : String) : Option LiveFS :=
  match live with
  | some (LiveFS.dir es) => lookupEntry es name
  | _ => none

/-- A node's own virtual path below its parent's (`path.join(node.name)`,
the root's empty name adding nothing). -/
def ownPathOf (parent : FsPath) (name : String) : FsPath :=
  if name = "" then parent else parent ++ [name]

/-- The primitive-operation kinds of the magic mount whose outcomes the
environment decides. -/
inductive MOpKind where
  | bind
  | createFile
  | cloneLink
  | meta
  | bindSelf
  | moveTmp
  deriving DecidableEq, Repr

/-- Oracle for primitive magic-mount operations, keyed by kind and the
(work or target) path operated on. -/
structure MEnv where
  ok : MOpKind → FsPath → Bool

/-- Observable traversal events of the magic mount. -/
inductive MEv where
  /-- `self.path.read_dir()` performed at `dir` (the live-children loop ran). -/
  | enumLive (dir : FsPath)
  /-- `mount_mirror` invoked for the live entry `name` of directory `parent`. -/
  | mirror (parent : FsPath) (name : String)
  /-- a node child `name` of directory `parent` entered `do_magic_mount`. -/
  | enter (parent : FsPath) (name : String)
  deriving DecidableEq, Repr

/-- The directory an event belongs to. -/
def MEv.parent : MEv → FsPath
  | .enumLive d => d
  | .mirror p _ => p
  | .enter p _ => p

mutual

/-- `mount_mirror` (src/mount/magic.rs lines 226-263): mirror one live
entry into the work dir; any failure propagates. -/
def mountMirror (env : MEnv) (live : LiveFS) (path workPath : FsPath) :
    List MEv × Option FsPath :=
  match live with
  | LiveFS.file =>
      if env.ok MOpKind.createFile workPath then
        if env.ok MOpKind.bind path then ([], none) else ([], some path)
      else ([], some workPath)
  | LiveFS.symlink =>
      if env.ok MOpKind.cloneLink workPath then ([], none) else ([], some path)
  | LiveFS.whiteoutDev => ([], none)
  | LiveFS.dir es =>
      if env.ok MOpKind.meta workPath then
        let r := mirrorChildren env path workPath es
        (MEv.enumLive path :: r.1, r.2)
      else ([], some workPath)

/-- The child loop of the directory case of `mount_mirror`. -/
def mirrorChildren (env : MEnv) (path workPath : FsPath) :
    List (String × LiveFS) → List MEv × Option FsPath
  | [] => ([], none)
  | (n, l) :: rest =>
      let r := mountMirror env l (path ++ [n]) (workPath ++ [n])
      match r.2 with
      | some e => (MEv.mirror path n :: r.1, some e)
      | none =>
          let r2 := mirrorChildren env path workPath rest
          (MEv.mirror path n :: r.1 ++ r2.1, r2.2)

end

/-- `check_tmpfs` (src/mount/magic.rs lines 295-332): scan the children for
one whose required type conflicts with the live entry; children needing
tmpfs without a module path are marked to be skipped, the first needing one
with a module path sets the flag and stops the scan.  Returns the marked
names and the flag.  (`real_path.exists()` for a whiteout child is modelled
as the live entry being present.) -/
def checkTmpfs (live : Option LiveFS) : List Node → List String × Bool
  | [] => ([], false)
  | c :: rest =>
      let childLive := childLiveOf live c.name
      let need : Bool :=
        match c.file_type with
        | NodeType.symlink => true
        | NodeType.whiteout => childLive.isSome
        | _ =>
            match childLive with
            | some lt => decide (liveType lt ≠ c.file_type ∨ liveType lt = NodeType.symlink)
            | none => true
      if need then
        if c.module_path.isNone then
          let r := checkTmpfs live rest
          (c.name :: r.1, r.2)
        else ([], true)
      else checkTmpfs live rest

/-- `create_tmpfs` before `check_tmpfs` runs
(src/mount/magic.rs line 387). -/
def dirCreate0 (node : Node) (hasTmpfs : Bool) : Bool :=
  !hasTmpfs && node.replace && node.module_path.isSome

/-- The `check_tmpfs` call of `handle_directory`, when it runs. -/
def dirCheck (live : Option LiveFS) (node : Node) (hasTmpfs : Bool) :
    List String × Bool :=
  if !hasTmpfs && !dirCreate0 node hasTmpfs then checkTmpfs live node.children
  else ([], false)

/-- Whether this directory owns a new tmpfs instance. -/
def dirCreate (live : Option LiveFS) (node : Node) (hasTmpfs : Bool) : Bool :=
  dirCreate0 node hasTmpfs || (dirCheck live node hasTmpfs).2

/-- `has_tmpfs` in effect for the children of this directory
(src/mount/magic.rs line 396). -/
def dirHasT (live : Option LiveFS) (node : Node) (hasTmpfs : Bool) : Bool :=
  hasTmpfs || dirCreate live node hasTmpfs

/-- `handle_regular_file` (src/mount/magic.rs lines 347-384):
under tmpfs the target is a freshly created work file, else the live path;
a node without a module path is a mount error. -/
def handleRegularFile (env : MEnv) (mp : Option FsPath)
    (ownPath ownWork : FsPath) (hasT : Bool) : Option FsPath :=
  if hasT && !env.ok MOpKind.createFile ownWork then some ownWork
  else
    match mp with
    | none => some ownPath
    | some _ =>
        if env.ok MOpKind.bind (if hasT then ownWork else ownPath) then none
        else some ownPath

/-- `handle_symlink` (src/mount/magic.rs lines 557-577). -/
def handleSymlink (env : MEnv) (mp : Option FsPath)
    (ownPath ownWork : FsPath) : Option FsPath :=
  match mp with
  | none => some ownPath
  | some _ => if env.ok MOpKind.cloneLink ownWork then none else some ownPath

/-- The tmpfs-skeleton block of `handle_directory`
(src/mount/magic.rs lines 398-426): metadata is read from the live path if
it exists, else from the module path, else the mount fails; then the
attributes are applied to the work dir. -/
def dirSkeleton (env : MEnv) (live : Option LiveFS) (mp : Option FsPath)
    (ownPath ownWork : FsPath) : Option FsPath :=
  match live, mp with
  | some _, _ =>
      if env.ok MOpKind.meta ownPath then
        if env.ok MOpKind.meta ownWork then none else some ownWork
      else some ownPath
  | none, some m =>
      if env.ok MOpKind.meta m then
        if env.ok MOpKind.meta ownWork then none else some ownWork
      else some m
  | none, none => some ownPath

lemma sizeOf_filter_le {α} [SizeOf α] (p : α → Bool) :
    ∀ l : List α, sizeOf (l.filter p) ≤ sizeOf l := by
  intro l
  induction l with
  | nil => simp [List.filter]
  | cons a rest ih =>
      simp only [List.filter, List.cons.sizeOf_spec]
      cases p a <;> simp only [List.cons.sizeOf_spec] <;> omega

lemma sizeOf_children_lt (n : Node) : sizeOf n.children < sizeOf n := by
  cases n with
  | mk name ft mp rep skp cs =>
      simp only [Node.children, Node.mk.sizeOf_spec]
      omega

lemma sizeOf_lookupEntry_le (nm : String) :
    ∀ es : List (String × LiveFS), sizeOf (lookupEntry es nm) ≤ 1 + sizeOf es := by
  intro es
  induction es with
  | nil => simp [lookupEntry]
  | cons hd rest ih =>
      obtain ⟨n, l⟩ := hd
      simp only [lookupEntry]
      by_cases h : n = nm
      · rw [if_pos h]
        simp only [Option.some.sizeOf_spec, List.cons.sizeOf_spec, Prod.mk.sizeOf_spec]
        omega
      · rw [if_neg h]
        simp only [List.cons.sizeOf_spec, Prod.mk.sizeOf_spec]
        omega

lemma sizeOf_childLiveOf_le (live : Option LiveFS) (nm : String) :
    sizeOf (childLiveOf live nm) ≤ sizeOf live := by
  cases live with
  | none => simp [childLiveOf]
  | some l =>
      cases l with
      | file => simp [childLiveOf]
      | symlink => simp [childLiveOf]
      | whiteoutDev => simp [childLiveOf]
      | dir es =>
          have := sizeOf_lookupEntry_le nm es
          simp only [childLiveOf, Option.some.sizeOf_spec, LiveFS.dir.sizeOf_spec]
          omega

/-- Assembly of the directory result after both child loops when the live
loop ran: a live-loop error aborts before the second loop, then a
second-loop error aborts, then the tmpfs move runs. -/
def dirAssemble (ownPath : FsPath) (create moveOk : Bool)
    (r1 r2 : List MEv × Option FsPath) : List MEv × Option FsPath :=
  match r1.2 with
  | some e => (MEv.enumLive ownPath :: r1.1, some e)
  | none =>
      match r2.2 with
      | some e => (MEv.enumLive ownPath :: r1.1 ++ r2.1, some e)
      | none =>
          if create && !moveOk then
            (MEv.enumLive ownPath :: r1.1 ++ r2.1, some ownPath)
          else (MEv.enumLive ownPath :: r1.1 ++ r2.1, none)

/-- Assembly of the directory result when the live loop did not run. -/
def tailAssemble (ownPath : FsPath) (create moveOk : Bool)
    (r2 : List MEv × Option FsPath) : List MEv × Option FsPath :=
  match r2.2 with
  | some e => (r2.1, some e)
  | none => if create && !moveOk then (r2.1, some ownPath) else (r2.1, none)

/-- Lookup of a child's mount result by child name.  The source keeps the
children in a map keyed by name, so names are unique. -/
def lookupRes (results : List (String × (List MEv × Option FsPath)))
    (nm : String) : List MEv × Option FsPath :=
  match results with
  | [] => ([], none)
  | (n, r) :: rest => if n = nm then r else lookupRes rest nm

/-- The live-children loop of `handle_directory`
(src/mount/magic.rs lines 446-482): matched node children are mounted
(their recursive results supplied in `results`), unmatched live entries
mirrored when a tmpfs is in effect; an error aborts under tmpfs and is
only logged otherwise. -/
def liveLoop (env : MEnv)
    (results : List (String × (List MEv × Option FsPath)))
    (children : List Node) (skips : List String)
    (es : List (String × LiveFS)) (ownPath ownWork : FsPath) (hasT : Bool) :
    List MEv × Option FsPath :=
  match es with
  | [] => ([], none)
  | (n, lv) :: rest =>
      match children.find? (fun c => c.name = n) with
      | some c =>
          if c.skip || skips.contains c.name then
            liveLoop env results children skips rest ownPath ownWork hasT
          else
            let r := lookupRes results n
            match r.2 with
            | some e =>
                if hasT then (MEv.enter ownPath n :: r.1, some e)
                else
                  let r2 := liveLoop env results children skips rest ownPath ownWork hasT
                  (MEv.enter ownPath n :: r.1 ++ r2.1, r2.2)
            | none =>
                let r2 := liveLoop env results children skips rest ownPath ownWork hasT
                (MEv.enter ownPath n :: r.1 ++ r2.1, r2.2)
      | none =>
          if hasT then
            let r := mountMirror env lv (ownPath ++ [n]) (ownWork ++ [n])
            match r.2 with
            | some e => (MEv.mirror ownPath n :: r.1, some e)
            | none =>
                let r2 := liveLoop env results children skips rest ownPath ownWork hasT
                (MEv.mirror ownPath n :: r.1 ++ r2.1, r2.2)
          else liveLoop env results children skips rest ownPath ownWork hasT

/-- The remaining-children loop of `handle_directory`
(src/mount/magic.rs lines 495-517), with the same error policy as the
live loop. -/
def childLoop (results : List (String × (List MEv × Option FsPath)))
    (cs : List Node) (skips : List String) (ownPath : FsPath) (hasT : Bool) :
    List MEv × Option FsPath :=
  match cs with
  | [] => ([], none)
  | c :: rest =>
      if c.skip || skips.contains c.name then
        childLoop results rest skips ownPath hasT
      else
        let r := lookupRes results c.name
        match r.2 with
        | some e =>
            if hasT then (MEv.enter ownPath c.name :: r.1, some e)
            else
              let r2 := childLoop results rest skips ownPath hasT
              (MEv.enter ownPath c.name :: r.1 ++ r2.1, r2.2)
        | none =>
            let r2 := childLoop results rest skips ownPath hasT
            (MEv.enter ownPath c.name :: r.1 ++ r2.1, r2.2)

/-- `handle_directory` (src/mount/magic.rs lines 386-555) given the
recursive mount results of the node's children (keyed by child name). -/
def dirProcess (env : MEnv) (live : Option LiveFS) (node : Node)
    (ownPath ownWork : FsPath) (hasTmpfs : Bool)
    (results : List (String × (List MEv × Option FsPath))) :
    List MEv × Option FsPath :=
  let skips := (dirCheck live node hasTmpfs).1
  let create := dirCreate live node hasTmpfs
  let hasT := dirHasT live node hasTmpfs
  let skel := if hasT then dirSkeleton env live node.module_path ownPath ownWork
              else none
  if skel.isSome then ([], skel)
  else if create && !env.ok MOpKind.bindSelf ownWork then ([], some ownWork)
  else
    match live, node.replace with
    | some (LiveFS.dir es), false =>
        dirAssemble ownPath create (env.ok MOpKind.moveTmp ownPath)
          (liveLoop env results node.children skips es ownPath ownWork hasT)
          (childLoop results
            (node.children.filter (fun c => (lookupEntry es c.name).isNone))
            skips ownPath hasT)
    | some LiveFS.file, false => ([], some ownPath)
    | some LiveFS.symlink, false => ([], some ownPath)
    | some LiveFS.whiteoutDev, false => ([], some ownPath)
    | _, _ =>
        if node.replace && node.module_path.isNone then ([], some ownPath)
        else
          tailAssemble ownPath create (env.ok MOpKind.moveTmp ownPath)
            (childLoop results node.children skips ownPath hasT)

/-- `do_magic_mount` (src/mount/magic.rs lines 334-345).  `live` is the
live filesystem below this node's own path, `parentPath`/`parentWork` the
parent's virtual and work paths; the result is the event trace and the
propagated error, if any.  For a directory, every child's recursive result
is computed against its own live subtree and the directory's effective
tmpfs flag, then the two child loops consume those results. -/
def doMagicMount (env : MEnv) (live : Option LiveFS) (node : Node)
    (parentPath parentWork : FsPath) (hasTmpfs : Bool) :
    List MEv × Option FsPath :=
  let ownPath := ownPathOf parentPath node.name
  let ownWork := ownPathOf parentWork node.name
  match node.file_type with
  | NodeType.regularFile =>
      ([], handleRegularFile env node.module_path ownPath ownWork hasTmpfs)
  | NodeType.symlink => ([], handleSymlink env node.module_path ownPath ownWork)
  | NodeType.whiteout => ([], none)
  | NodeType.directory =>
      dirProcess env live node ownPath ownWork hasTmpfs
        (node.children.attach.map (fun c =>
          (c.1.name,
            doMagicMount env (childLiveOf live c.1.name) c.1 ownPath ownWork
              (dirHasT live node hasTmpfs))))
termination_by sizeOf node + sizeOf live
decreasing_by
  have h1 := List.sizeOf_lt_of_mem c.2
  have h2 := sizeOf_children_lt node
  have h3 := sizeOf_childLiveOf_le live c.1.name
  omega

/-- The recursive mount results of a directory node's children, keyed by
child name. -/
def childResultsOf (env : MEnv) (live : Option LiveFS) (node : Node)
    (ownPath ownWork : FsPath) (hasT : Bool) :
    List (String × (List MEv × Option FsPath)) :=
  node.children.map (fun c =>
    (c.name, doMagicMount env (childLiveOf live c.name) c ownPath ownWork hasT))

/-- One granary entry as the system writes it: file name equals the stored
silo's id, which is determined by its timestamp. -/
def entryWf (kv : String × Silo) : Prop :=
  kv.1 = kv.2.id ∧ kv.2.id = "silo_" ++ toString kv.2.timestamp

theorem gwf_iff (st : GState) :
    GWf st ↔ (st.granary.map Prod.fst).Nodup ∧ ∀ kv ∈ st.granary, entryWf kv :=
  Iff.rfl

theorem mem_insertReplaceSilo (g : List (String × Silo)) (k : String) (v : Silo)
    (kv : String × Silo) (h : kv ∈ insertReplaceSilo g k v) :
    kv ∈ g ∨ kv = (k, v) := by
  induction g with
  | nil =>
      simp only [insertReplaceSilo, List.mem_singleton] at h
      exact Or.inr h
  | cons hd rest ih =>
      obtain ⟨k0, v0⟩ := hd
      by_cases h0 : k0 = k
      · have hrw : insertReplaceSilo ((k0, v0) :: rest) k v = (k, v) :: rest := by
          simp [insertReplaceSilo, h0]
        rw [hrw, List.mem_cons] at h
        rcases h with h | h
        · exact Or.inr h
        · exact Or.inl (List.mem_cons_of_mem _ h)
      · have hrw : insertReplaceSilo ((k0, v0) :: rest) k v
            = (k0, v0) :: insertReplaceSilo rest k v := by
          simp [insertReplaceSilo, h0]
        rw [hrw, List.mem_cons] at h
        rcases h with h | h
        · exact Or.inl (List.mem_cons.2 (Or.inl h))
        · rcases ih h with h2 | h2
          · exact Or.inl (List.mem_cons_of_mem _ h2)
          · exact Or.inr h2

theorem keys_insertReplaceSilo (g : List (String × Silo)) (k : String) (v : Silo)
    (x : String) (h : x ∈ (insertReplaceSilo g k v).map Prod.fst) :
    x = k ∨ x ∈ g.map Prod.fst := by
  rcases List.mem_map.1 h with ⟨kv, hkv, hx⟩
  rcases mem_insertReplaceSilo g k v kv hkv with h2 | h2
  · exact Or.inr (hx ▸ List.mem_map_of_mem Prod.fst h2)
  · subst h2
    exact Or.inl hx.symm

theorem keys_nodup_insertReplaceSilo (g : List (String × Silo)) (k : String)
    (v : Silo) (h : (g.map Prod.fst).Nodup) :
    ((insertReplaceSilo g k v).map Prod.fst).Nodup := by
  induction g with
  | nil => simp [insertReplaceSilo]
  | cons hd rest ih =>
      obtain ⟨k0, v0⟩ := hd
      simp only [List.map_cons, List.nodup_cons] at h
      by_cases h0 : k0 = k
      · subst h0
        have hrw : insertReplaceSilo ((k0, v0) :: rest) k0 v = (k0, v) :: rest := by
          simp [insertReplaceSilo]
        rw [hrw, List.map_cons, List.nodup_cons]
        exact ⟨h.1, h.2⟩
      · have hrw : insertReplaceSilo ((k0, v0) :: rest) k v
            = (k0, v0) :: insertReplaceSilo rest k v := by
          simp [insertReplaceSilo, h0]
        rw [hrw, List.map_cons, List.nodup_cons]
        refine ⟨fun hmem => ?_, ih h.2⟩
        rcases keys_insertReplaceSilo rest k v k0 hmem with h2 | h2
        · exact h0 h2
        · exact h.1 h2

theorem pairwise_key_ne (g : List (String × Silo))
    (hnd : (g.map Prod.fst).Nodup) :
    g.Pairwise (fun a b => a.1 ≠ b.1) :=
  (List.pairwise_map).1 hnd

theorem pairwise_ts_ne (g : List (String × Silo))
    (hnd : (g.map Prod.fst).Nodup) (hwf : ∀ kv ∈ g, entryWf kv) :
    g.Pairwise (fun a b => a.2.timestamp ≠ b.2.timestamp) := by
  refine (pairwise_key_ne g hnd).imp_of_mem ?_
  intro a b ha hb hne hts
  apply hne
  have hwa := hwf a ha
  have hwb := hwf b hb
  rw [hwa.1, hwb.1, hwa.2, hwb.2, hts]

theorem pairwise_snd_ne (g : List (String × Silo))
    (hnd : (g.map Prod.fst).Nodup) (hwf : ∀ kv ∈ g, entryWf kv) :
    g.Pairwise (fun a b => a.2 ≠ b.2) := by
  refine (pairwise_key_ne g hnd).imp_of_mem ?_
  intro a b ha hb hne hsnd
  apply hne
  rw [(hwf a ha).1, (hwf b hb).1, hsnd]

/-- The silo listing of a well-formed granary directory is newest-first with
strictly decreasing timestamps. -/
theorem sortedSilos_strict (g : List (String × Silo))
    (hnd : (g.map Prod.fst).Nodup) (hwf : ∀ kv ∈ g, entryWf kv) :
    (List.insertionSort (fun a b : Silo => b.timestamp ≤ a.timestamp)
        (g.map Prod.snd)).Pairwise (fun a b => b.timestamp < a.timestamp) := by
  have hsorted : (List.insertionSort (fun a b : Silo => b.timestamp ≤ a.timestamp)
      (g.map Prod.snd)).Pairwise (fun a b => b.timestamp ≤ a.timestamp) :=
    List.sorted_insertionSort _ _
  have hperm := List.perm_insertionSort
    (fun a b : Silo => b.timestamp ≤ a.timestamp) (g.map Prod.snd)
  have hne0 : (g.map Prod.snd).Pairwise
      (fun a b : Silo => a.timestamp ≠ b.timestamp) :=
    (List.pairwise_map).2 (pairwise_ts_ne g hnd hwf)
  have hsymm : Symmetric (fun a b : Silo => a.timestamp ≠ b.timestamp) :=
    fun a b h => h.symm
  have hne : (List.insertionSort (fun a b : Silo => b.timestamp ≤ a.timestamp)
      (g.map Prod.snd)).Pairwise (fun a b : Silo => a.timestamp ≠ b.timestamp) :=
    (hperm.pairwise_iff (fun hab => hsymm hab)).2 hne0
  refine (hsorted.and hne).imp ?_
  intro a b h
  exact lt_of_le_of_ne h.1 h.2.symm

/-- C5: after any `create_silo`, at most `MAX_AUTO_SILOS = 5` silo files
remain in the granary directory, and `list_silos` afterwards returns the
stored silos newest-first with strictly decreasing timestamps. -/
theorem C5_create_silo_bound_and_sorted (st : GState) (now : Nat) (cfg : ConfigC)
    (label reason : String) (hwf : GWf st) :
    (createSilo st now cfg label reason).1.granary.length ≤ MAX_AUTO_SILOS ∧
    (listSilos (createSilo st now cfg label reason).1).Pairwise
      (fun a b => b.timestamp < a.timestamp) := by
  obtain ⟨hnd, hwfE⟩ := hwf
  have hnd1 : ((insertReplaceSilo st.granary ("silo_" ++ toString now)
      { id := "silo_" ++ toString now, timestamp := now, label := label,
        reason := reason, config_snapshot := cfg }).map Prod.fst).Nodup :=
    keys_nodup_insertReplaceSilo _ _ _ hnd
  have hwf1 : ∀ kv ∈ insertReplaceSilo st.granary ("silo_" ++ toString now)
      { id := "silo_" ++ toString now, timestamp := now, label := label,
        reason := reason, config_snapshot := cfg }, entryWf kv := by
    intro kv hkv
    rcases mem_insertReplaceSilo _ _ _ kv hkv with h | h
    · exact hwfE kv h
    · subst h
      exact ⟨rfl, rfl⟩
  simp only [createSilo]
  set sid := "silo_" ++ toString now with hsid
  set silo : Silo := { id := sid, timestamp := now, label := label,
                       reason := reason, config_snapshot := cfg } with hsilo
  set g1 := insertReplaceSilo st.granary sid silo with hg1
  set st1 : GState := { st with granary := g1 } with hst1
  have hlstx : listSilos st1 = List.insertionSort
      (fun a b : Silo => b.timestamp ≤ a.timestamp) (g1.map Prod.snd) := rfl
  have hlen1 : (listSilos st1).length = g1.length := by
    rw [hlstx, (List.perm_insertionSort _ _).length_eq, List.length_map]
  by_cases hbig : MAX_AUTO_SILOS < (listSilos st1).length
  · rw [if_pos hbig]
    set removeIds := ((listSilos st1).drop MAX_AUTO_SILOS).map Silo.id with hrem
    set g2 := g1.filter (fun kv => ¬ removeIds.contains kv.1) with hg2
    have hsub : List.Sublist g2 g1 := List.filter_sublist g1
    have hnd2 : (g2.map Prod.fst).Nodup := (hsub.map Prod.fst).nodup hnd1
    have hwf2 : ∀ kv ∈ g2, entryWf kv := fun kv hkv => hwf1 kv (hsub.mem hkv)
    constructor
    · have hvalsnd : (g2.map Prod.snd).Nodup :=
        (List.pairwise_map).2 (pairwise_snd_ne g2 hnd2 hwf2)
      have hsubset : ∀ v ∈ g2.map Prod.snd, v ∈ (listSilos st1).take MAX_AUTO_SILOS := by
        intro v hv
        rcases List.mem_map.1 hv with ⟨kv, hkv, hveq⟩
        rw [List.mem_filter] at hkv
        have hv1 : kv.2 ∈ g1.map Prod.snd := List.mem_map_of_mem Prod.snd hkv.1
        have hv2 : kv.2 ∈ listSilos st1 := by
          rw [hlstx]
          exact ((List.perm_insertionSort _ _).mem_iff).2 hv1
        rw [← List.take_append_drop MAX_AUTO_SILOS (listSilos st1),
          List.mem_append] at hv2
        rcases hv2 with h | h
        · rw [← hveq]; exact h
        · exfalso
          have hidmem : kv.2.id ∈ removeIds := by
            rw [hrem]
            exact List.mem_map_of_mem Silo.id h
          have hkey : kv.1 = kv.2.id := (hwf1 kv hkv.1).1
          have : removeIds.contains kv.1 = true := by
            rw [hkey]
            simpa using hidmem
          simp only [this, decide_eq_true_eq] at hkv
          rcases hkv with ⟨_, hfalse⟩
          simp at hfalse
      have hsubperm := (hvalsnd.subperm hsubset)
      have hle := hsubperm.length_le
      have : g2.length ≤ ((listSilos st1).take MAX_AUTO_SILOS).length := by
        rw [← List.length_map g2 Prod.snd]
        exact hle
      calc g2.length ≤ ((listSilos st1).take MAX_AUTO_SILOS).length := this
        _ ≤ MAX_AUTO_SILOS := by
            rw [List.length_take]
            exact min_le_left _ _
    · exact sortedSilos_strict g2 hnd2 hwf2
  · rw [if_neg hbig]
    constructor
    · simpa [hlen1] using Nat.le_of_not_lt hbig
    · exact sortedSilos_strict g1 hnd1 hwf1

/-- Witness for C5 at a concrete granary holding five silos: the sixth
`create_silo` prunes back to five, listed strictly newest-first. -/
theorem C5_create_silo_bound_and_sorted_witness :
    (createSilo
      { counter := none,
        granary := [("silo_1",
           { id := "silo_1", timestamp := 1, label := "l", reason := "r",
             config_snapshot := { content := "c1" } }),
          ("silo_2",
           { id := "silo_2", timestamp := 2, label := "l", reason := "r",
             config_snapshot := { content := "c2" } }),
          ("silo_3",
           { id := "silo_3", timestamp := 3, label := "l", reason := "r",
             config_snapshot := { content := "c3" } }),
          ("silo_4",
           { id := "silo_4", timestamp := 4, label := "l", reason := "r",
             config_snapshot := { content := "c4" } }),
          ("silo_5",
           { id := "silo_5", timestamp := 5, label := "l", reason := "r",
             config_snapshot := { content := "c5" } })],
        liveConfig := none, moduleDirs := [] }
      6 { content := "c6" } "lbl" "rsn").1.granary.length ≤ MAX_AUTO_SILOS ∧
    (listSilos (createSilo
      { counter := none,
        granary := [("silo_1",
           { id := "silo_1", timestamp := 1, label := "l", reason := "r",
             config_snapshot := { content := "c1" } }),
          ("silo_2",
           { id := "silo_2", timestamp := 2, label := "l", reason := "r",
             config_snapshot := { content := "c2" } }),
          ("silo_3",
           { id := "silo_3", timestamp := 3, label := "l", reason := "r",
             config_snapshot := { content := "c3" } }),
          ("silo_4",
           { id := "silo_4", timestamp := 4, label := "l", reason := "r",
             config_snapshot := { content := "c4" } }),
          ("silo_5",
           { id := "silo_5", timestamp := 5, label := "l", reason := "r",
             config_snapshot := { content := "c5" } })],
        liveConfig := none, moduleDirs := [] }
      6 { content := "c6" } "lbl" "rsn").1).Pairwise
      (fun a b => b.timestamp < a.timestamp) :=
  C5_create_silo_bound_and_sorted
    { counter := none,
      granary := [("silo_1",
         { id := "silo_1", timestamp := 1, label := "l", reason := "r",
           config_snapshot := { content := "c1" } }),
        ("silo_2",
         { id := "silo_2", timestamp := 2, label := "l", reason := "r",
           config_snapshot := { content := "c2" } }),
        ("silo_3",
         { id := "silo_3", timestamp := 3, label := "l", reason := "r",
           config_snapshot := { content := "c3" } }),
        ("silo_4",
         { id := "silo_4", timestamp := 4, label := "l", reason := "r",
           config_snapshot := { content := "c4" } }),
        ("silo_5",
         { id := "silo_5", timestamp := 5, label := "l", reason := "r",
           config_snapshot := { content := "c5" } })],
      liveConfig := none, moduleDirs := [] }
    6 { content := "c6" } "lbl" "rsn" (by decide)

/-- Witness for C4 (amended): counter absent, one silo stored, restore
succeeding. -/
theorem C4_ratoon_amended_witness :
    ((0 + 1 < 3 ∨ (0 < 255 ∧ (listSilos
        { counter := none,
          granary := [("silo_10",
            { id := "silo_10", timestamp := 10, label := "l", reason := "r",
              config_snapshot := { content := "snap" } })],
          liveConfig := none, moduleDirs := [("m", false)] } = [] ∨
        ({ saveOk := true } : GEnv).saveOk = false))) →
      readCounterVal (engageRatoon { saveOk := true }
        { counter := none,
          granary := [("silo_10",
            { id := "silo_10", timestamp := 10, label := "l", reason := "r",
              config_snapshot := { content := "snap" } })],
          liveConfig := none, moduleDirs := [("m", false)] }) = 0 + 1) ∧
    (({ counter := none,
        granary := [("silo_10",
          { id := "silo_10", timestamp := 10, label := "l", reason := "r",
            config_snapshot := { content := "snap" } })],
        liveConfig := none, moduleDirs := [("m", false)] } : GState).counter = none →
      (∃ latest, (listSilos
          { counter := none,
            granary := [("silo_10",
              { id := "silo_10", timestamp := 10, label := "l", reason := "r",
                config_snapshot := { content := "snap" } })],
            liveConfig := none, moduleDirs := [("m", false)] }).head? = some latest ∧
        (engageRatoon { saveOk := true } (engageRatoon { saveOk := true }
          (engageRatoon { saveOk := true }
            { counter := none,
              granary := [("silo_10",
                { id := "silo_10", timestamp := 10, label := "l", reason := "r",
                  config_snapshot := { content := "snap" } })],
              liveConfig := none, moduleDirs := [("m", false)] }))).liveConfig
          = some latest.config_snapshot ∧
        (engageRatoon { saveOk := true } (engageRatoon { saveOk := true }
          (engageRatoon { saveOk := true }
            { counter := none,
              granary := [("silo_10",
                { id := "silo_10", timestamp := 10, label := "l", reason := "r",
                  config_snapshot := { content := "snap" } })],
              liveConfig := none, moduleDirs := [("m", false)] }))).counter
          = none) ∨
      (∀ d ∈ (engageRatoon { saveOk := true } (engageRatoon { saveOk := true }
          (engageRatoon { saveOk := true }
            { counter := none,
              granary := [("silo_10",
                { id := "silo_10", timestamp := 10, label := "l", reason := "r",
                  config_snapshot := { content := "snap" } })],
              liveConfig := none, moduleDirs := [("m", false)] }))).moduleDirs,
        d.2 = true)) :=
  C4_ratoon_amended { saveOk := true }
    { counter := none,
      granary := [("silo_10",
        { id := "silo_10", timestamp := 10, label := "l", reason := "r",
          config_snapshot := { content := "snap" } })],
      liveConfig := none, moduleDirs := [("m", false)] }
    0 (by decide)

/-! ### Magic-mount lemmas -/

lemma doMagicMount_regular (env : MEnv) (live : Option LiveFS) (node : Node)
    (pP pW : FsPath) (h0 : Bool) (hft : node.file_type = NodeType.regularFile) :
    doMagicMount env live node pP pW h0 =
      ([], handleRegularFile env node.module_path (ownPathOf pP node.name)
        (ownPathOf pW node.name) h0) := by
  rw [doMagicMount.eq_def]
  simp only [hft]

lemma doMagicMount_symlink (env : MEnv) (live : Option LiveFS) (node : Node)
    (pP pW : FsPath) (h0 : Bool) (hft : node.file_type = NodeType.symlink) :
    doMagicMount env live node pP pW h0 =
      ([], handleSymlink env node.module_path (ownPathOf pP node.name)
        (ownPathOf pW node.name)) := by
  rw [doMagicMount.eq_def]
  simp only [hft]

lemma doMagicMount_whiteout (env : MEnv) (live : Option LiveFS) (node : Node)
    (pP pW : FsPath) (h0 : Bool) (hft : node.file_type = NodeType.whiteout) :
    doMagicMount env live node pP pW h0 = ([], none) := by
  rw [doMagicMount.eq_def]
  simp only [hft]

lemma doMagicMount_dir (env : MEnv) (live : Option LiveFS) (node : Node)
    (pP pW : FsPath) (h0 : Bool) (hft : node.file_type = NodeType.directory) :
    doMagicMount env live node pP pW h0 =
      dirProcess env live node (ownPathOf pP node.name) (ownPathOf pW node.name) h0
        (childResultsOf env live node (ownPathOf pP node.name)
          (ownPathOf pW node.name) (dirHasT live node h0)) := by
  rw [doMagicMount.eq_def]
  simp only [hft, childResultsOf]
  congr 1
  exact List.attach_map_coe node.children (fun c =>
    (c.name, doMagicMount env (childLiveOf live c.name) c (ownPathOf pP node.name)
      (ownPathOf pW node.name) (dirHasT live node h0)))

lemma lookupRes_cases (nm : String) :
    ∀ results, lookupRes results nm = ([], none) ∨
      (nm, lookupRes results nm) ∈ results := by
  intro results
  induction results with
  | nil => left; rfl
  | cons hd rest ih =>
      obtain ⟨n, r⟩ := hd
      by_cases h : n = nm
      · right
        simp only [lookupRes, if_pos h]
        subst h
        exact List.mem_cons_self _ _
      · rcases ih with h2 | h2
        · left
          simpa only [lookupRes, if_neg h] using h2
        · right
          simp only [lookupRes, if_neg h]
          exact List.mem_cons_of_mem _ h2

lemma lookupRes_map_nodup (f : Node → List MEv × Option FsPath) (c : Node) :
    ∀ l : List Node, (l.map Node.name).Nodup → c ∈ l →
      lookupRes (l.map fun x => (x.name, f x)) c.name = f c := by
  intro l
  induction l with
  | nil => intro _ hc; cases hc
  | cons a rest ih =>
      intro hnd hc
      simp only [List.map_cons, List.nodup_cons] at hnd
      rcases List.mem_cons.mp hc with rfl | hc
      · simp [List.map_cons, lookupRes]
      · have hne : a.name ≠ c.name := by
          intro he
          exact hnd.1 (he ▸ List.mem_map_of_mem Node.name hc)
        simp only [List.map_cons, lookupRes, if_neg hne]
        exact ih hnd.2 hc

lemma lookupEntry_mem (nm : String) (lv : LiveFS) :
    ∀ es : List (String × LiveFS), lookupEntry es nm = some lv → (nm, lv) ∈ es := by
  intro es
  induction es with
  | nil => intro h; cases h
  | cons hd rest ih =>
      obtain ⟨n, l⟩ := hd
      intro h
      by_cases he : n = nm
      · rw [lookupEntry, if_pos he] at h
        subst he
        cases h
        exact List.mem_cons_self _ _
      · rw [lookupEntry, if_neg he] at h
        exact List.mem_cons_of_mem _ (ih h)

lemma find?_name_of_nodup (c : Node) :
    ∀ l : List Node, (l.map Node.name).Nodup → c ∈ l →
      l.find? (fun x => x.name = c.name) = some c := by
  intro l
  induction l with
  | nil => intro _ hc; cases hc
  | cons a rest ih =>
      intro hnd hc
      simp only [List.map_cons, List.nodup_cons] at hnd
      rcases List.mem_cons.mp hc with rfl | hc
      · simp [List.find?_cons]
      · have hne : a.name ≠ c.name := by
          intro he
          exact hnd.1 (he ▸ List.mem_map_of_mem Node.name hc)
        rw [List.find?_cons_of_neg _ (by simpa using hne)]
        exact ih hnd.2 hc

lemma dirAssemble_err1 (oP : FsPath) (cr mv : Bool) (evs1 : List MEv)
    (e : FsPath) (r2 : List MEv × Option FsPath) :
    dirAssemble oP cr mv (evs1, some e) r2 = (MEv.enumLive oP :: evs1, some e) :=
  rfl

lemma dirAssemble_err2 (oP : FsPath) (cr mv : Bool) (evs1 evs2 : List MEv)
    (e : FsPath) :
    dirAssemble oP cr mv (evs1, none) (evs2, some e) =
      (MEv.enumLive oP :: evs1 ++ evs2, some e) :=
  rfl

lemma dirAssemble_none (oP : FsPath) (cr mv : Bool) (evs1 evs2 : List MEv) :
    dirAssemble oP cr mv (evs1, none) (evs2, none) =
      if cr && !mv then (MEv.enumLive oP :: evs1 ++ evs2, some oP)
      else (MEv.enumLive oP :: evs1 ++ evs2, none) :=
  rfl

lemma tailAssemble_err (oP : FsPath) (cr mv : Bool) (evs2 : List MEv)
    (e : FsPath) :
    tailAssemble oP cr mv (evs2, some e) = (evs2, some e) :=
  rfl

lemma tailAssemble_none (oP : FsPath) (cr mv : Bool) (evs2 : List MEv) :
    tailAssemble oP cr mv (evs2, none) =
      if cr && !mv then (evs2, some oP) else (evs2, none) :=
  rfl

lemma dirAssemble_err_none (oP : FsPath) (cr mv : Bool)
    (r1 r2 : List MEv × Option FsPath)
    (h : (dirAssemble oP cr mv r1 r2).2 = none) :
    r1.2 = none ∧ r2.2 = none := by
  obtain ⟨evs1, err1⟩ := r1
  obtain ⟨evs2, err2⟩ := r2
  cases err1 with
  | some e => rw [dirAssemble_err1] at h; cases h
  | none =>
      cases err2 with
      | some e => rw [dirAssemble_err2] at h; cases h
      | none => exact ⟨rfl, rfl⟩

lemma dirAssemble_fst (oP : FsPath) (cr mv : Bool)
    (r1 r2 : List MEv × Option FsPath) (h1 : r1.2 = none) :
    (dirAssemble oP cr mv r1 r2).1 = MEv.enumLive oP :: r1.1 ++ r2.1 := by
  obtain ⟨evs1, err1⟩ := r1
  obtain ⟨evs2, err2⟩ := r2
  cases err1 with
  | some e => cases h1
  | none =>
      cases err2 with
      | some e => rw [dirAssemble_err2]
      | none => rw [dirAssemble_none]; split <;> rfl

lemma dirAssemble_ok (oP : FsPath) (cr mv : Bool)
    (r1 r2 : List MEv × Option FsPath) (h1 : r1.2 = none) (h2 : r2.2 = none)
    (hcr : cr = false) :
    (dirAssemble oP cr mv r1 r2).2 = none := by
  obtain ⟨evs1, err1⟩ := r1
  obtain ⟨evs2, err2⟩ := r2
  cases err1 with
  | some e => cases h1
  | none =>
      cases err2 with
      | some e => cases h2
      | none => rw [dirAssemble_none, hcr]; simp

lemma tailAssemble_fst (oP : FsPath) (cr mv : Bool)
    (r2 : List MEv × Option FsPath) :
    (tailAssemble oP cr mv r2).1 = r2.1 := by
  obtain ⟨evs2, err2⟩ := r2
  cases err2 with
  | some e => rw [tailAssemble_err]
  | none => rw [tailAssemble_none]; split <;> rfl

lemma tailAssemble_err_none (oP : FsPath) (cr mv : Bool)
    (r2 : List MEv × Option FsPath)
    (h : (tailAssemble oP cr mv r2).2 = none) : r2.2 = none := by
  obtain ⟨evs2, err2⟩ := r2
  cases err2 with
  | some e => rw [tailAssemble_err] at h; cases h
  | none => rfl

lemma tailAssemble_ok (oP : FsPath) (cr mv : Bool)
    (r2 : List MEv × Option FsPath) (h2 : r2.2 = none) (hcr : cr = false) :
    (tailAssemble oP cr mv r2).2 = none := by
  obtain ⟨evs2, err2⟩ := r2
  cases err2 with
  | some e => cases h2
  | none => rw [tailAssemble_none, hcr]; simp

lemma liveLoop_ok_child (env : MEnv)
    (results : List (String × (List MEv × Option FsPath)))
    (children : List Node) (skips : List String) (oP oW : FsPath) :
    ∀ es : List (String × LiveFS),
      (liveLoop env results children skips es oP oW true).2 = none →
      ∀ n lv c, (n, lv) ∈ es → children.find? (fun x => x.name = n) = some c →
        c.skip = false → skips.contains c.name = false →
        (lookupRes results n).2 = none := by
  intro es
  induction es with
  | nil => intro _ n lv c hmem; cases hmem
  | cons hd rest ih =>
      obtain ⟨n0, lv0⟩ := hd
      intro hok n lv c hmem hfind hskip hcont
      rcases hf : children.find? (fun x => x.name = n0) with _ | c0
      · simp only [liveLoop.eq_2, hf, if_pos rfl] at hok
        rcases hm : (mountMirror env lv0 (oP ++ [n0]) (oW ++ [n0])).2 with _ | e
        · rw [hm] at hok
          rcases List.mem_cons.mp hmem with heq | hmem'
          · injection heq with hn hl
            subst hn
            rw [hfind] at hf
            cases hf
          · exact ih hok n lv c hmem' hfind hskip hcont
        · rw [hm] at hok
          cases hok
      · simp only [liveLoop.eq_2, hf] at hok
        by_cases hsk : (c0.skip || skips.contains c0.name) = true
        · rw [if_pos hsk] at hok
          rcases List.mem_cons.mp hmem with heq | hmem'
          · injection heq with hn hl
            subst hn
            rw [hfind] at hf
            injection hf with hc
            subst hc
            rw [hskip, hcont] at hsk
            cases hsk
          · exact ih hok n lv c hmem' hfind hskip hcont
        · rw [if_neg hsk] at hok
          rcases hr : (lookupRes results n0).2 with _ | e
          · rw [hr] at hok
            rcases List.mem_cons.mp hmem with heq | hmem'
            · injection heq with hn hl
              subst hn
              exact hr
            · exact ih hok n lv c hmem' hfind hskip hcont
          · rw [hr] at hok
            cases hok

lemma liveLoop_ok_mirror (env : MEnv)
    (results : List (String × (List MEv × Option FsPath)))
    (children : List Node) (skips : List String) (oP oW : FsPath) :
    ∀ es : List (String × LiveFS),
      (liveLoop env results children skips es oP oW true).2 = none →
      ∀ n lv, (n, lv) ∈ es → children.find? (fun x => x.name = n) = none →
        (mountMirror env lv (oP ++ [n]) (oW ++ [n])).2 = none := by
  intro es
  induction es with
  | nil => intro _ n lv hmem; cases hmem
  | cons hd rest ih =>
      obtain ⟨n0, lv0⟩ := hd
      intro hok n lv hmem hfind
      rcases hf : children.find? (fun x => x.name = n0) with _ | c0
      · simp only [liveLoop.eq_2, hf, if_pos rfl] at hok
        rcases hm : (mountMirror env lv0 (oP ++ [n0]) (oW ++ [n0])).2 with _ | e
        · rw [hm] at hok
          rcases List.mem_cons.mp hmem with heq | hmem'
          · injection heq with hn hl
            subst hn
            subst hl
            exact hm
          · exact ih hok n lv hmem' hfind
        · rw [hm] at hok
          cases hok
      · simp only [liveLoop.eq_2, hf] at hok
        by_cases hsk : (c0.skip || skips.contains c0.name) = true
        · rw [if_pos hsk] at hok
          rcases List.mem_cons.mp hmem with heq | hmem'
          · injection heq with hn hl
            subst hn
            rw [hfind] at hf
            cases hf
          · exact ih hok n lv hmem' hfind
        · rw [if_neg hsk] at hok
          rcases hr : (lookupRes results n0).2 with _ | e
          · rw [hr] at hok
            rcases List.mem_cons.mp hmem with heq | hmem'
            · injection heq with hn hl
              subst hn
              rw [hfind] at hf
              cases hf
            · exact ih hok n lv hmem' hfind
          · rw [hr] at hok
            cases hok

lemma liveLoop_false_ok (env : MEnv)
    (results : List (String × (List MEv × Option FsPath)))
    (children : List Node) (skips : List String) (oP oW : FsPath) :
    ∀ es : List (String × LiveFS),
      (liveLoop env results children skips es oP oW false).2 = none := by
  intro es
  induction es with
  | nil => rfl
  | cons hd rest ih =>
      obtain ⟨n0, lv0⟩ := hd
      rcases hf : children.find? (fun x => x.name = n0) with _ | c0
      · simp only [liveLoop.eq_2, hf]
        rw [if_neg (by simp)]
        exact ih
      · simp only [liveLoop.eq_2, hf]
        by_cases hsk : (c0.skip || skips.contains c0.name) = true
        · rw [if_pos hsk]
          exact ih
        · rw [if_neg hsk]
          rcases hr : (lookupRes results n0).2 with _ | e
          · exact ih
          · exact ih

lemma liveLoop_enter (env : MEnv)
    (results : List (String × (List MEv × Option FsPath)))
    (children : List Node) (skips : List String) (oP oW : FsPath) (hasT : Bool) :
    ∀ es : List (String × LiveFS),
      (liveLoop env results children skips es oP oW hasT).2 = none →
      ∀ n lv c, (n, lv) ∈ es → children.find? (fun x => x.name = n) = some c →
        c.skip = false → skips.contains c.name = false →
        MEv.enter oP n ∈ (liveLoop env results children skips es oP oW hasT).1 := by
  intro es
  induction es with
  | nil => intro _ n lv c hmem; cases hmem
  | cons hd rest ih =>
      obtain ⟨n0, lv0⟩ := hd
      intro hok n lv c hmem hfind hskip hcont
      rcases hf : children.find? (fun x => x.name = n0) with _ | c0
      · simp only [liveLoop.eq_2, hf] at hok ⊢
        by_cases hT : hasT = true
        · rw [if_pos hT] at hok ⊢
          rcases hm : (mountMirror env lv0 (oP ++ [n0]) (oW ++ [n0])).2 with _ | e
          · simp only [hm] at hok ⊢
            rcases List.mem_cons.mp hmem with heq | hmem2
            · injection heq with hn hl
              subst hn
              rw [hfind] at hf
              cases hf
            · exact List.mem_cons_of_mem _ (List.mem_append_right _
                (ih hok n lv c hmem2 hfind hskip hcont))
          · simp only [hm] at hok
            cases hok
        · rw [if_neg hT] at hok ⊢
          rcases List.mem_cons.mp hmem with heq | hmem2
          · injection heq with hn hl
            subst hn
            rw [hfind] at hf
            cases hf
          · exact ih hok n lv c hmem2 hfind hskip hcont
      · simp only [liveLoop.eq_2, hf] at hok ⊢
        by_cases hsk : (c0.skip || skips.contains c0.name) = true
        · rw [if_pos hsk] at hok ⊢
          rcases List.mem_cons.mp hmem with heq | hmem2
          · injection heq with hn hl
            subst hn
            rw [hfind] at hf
            injection hf with hc
            subst hc
            rw [hskip, hcont] at hsk
            cases hsk
          · exact ih hok n lv c hmem2 hfind hskip hcont
        · rw [if_neg hsk] at hok ⊢
          rcases hr : (lookupRes results n0).2 with _ | e
          · simp only [hr] at hok ⊢
            rcases List.mem_cons.mp hmem with heq | hmem2
            · injection heq with hn hl
              subst hn
              exact List.mem_cons_self _ _
            · exact List.mem_cons_of_mem _ (List.mem_append_right _
                (ih hok n lv c hmem2 hfind hskip hcont))
          · simp only [hr] at hok ⊢
            by_cases hT : hasT = true
            · rw [if_pos hT] at hok
              cases hok
            · rw [if_neg hT] at hok ⊢
              rcases List.mem_cons.mp hmem with heq | hmem2
              · injection heq with hn hl
                subst hn
                exact List.mem_cons_self _ _
              · exact List.mem_cons_of_mem _ (List.mem_append_right _
                  (ih hok n lv c hmem2 hfind hskip hcont))

lemma childLoop_ok (results : List (String × (List MEv × Option FsPath)))
    (skips : List String) (oP : FsPath) :
    ∀ cs : List Node,
      (childLoop results cs skips oP true).2 = none →
      ∀ c ∈ cs, c.skip = false → skips.contains c.name = false →
        (lookupRes results c.name).2 = none := by
  intro cs
  induction cs with
  | nil => intro _ c hmem; cases hmem
  | cons c0 rest ih =>
      intro hok c hmem hskip hcont
      by_cases hsk : (c0.skip || skips.contains c0.name) = true
      · simp only [childLoop.eq_2, if_pos hsk] at hok
        rcases List.mem_cons.mp hmem with rfl | hmem'
        · rw [hskip, hcont] at hsk
          cases hsk
        · exact ih hok c hmem' hskip hcont
      · simp only [childLoop.eq_2, if_neg hsk] at hok
        rcases hr : (lookupRes results c0.name).2 with _ | e
        · rw [hr] at hok
          rcases List.mem_cons.mp hmem with rfl | hmem'
          · exact hr
          · exact ih hok c hmem' hskip hcont
        · rw [hr] at hok
          cases hok

lemma childLoop_false_ok (results : List (String × (List MEv × Option FsPath)))
    (skips : List String) (oP : FsPath) :
    ∀ cs : List Node, (childLoop results cs skips oP false).2 = none := by
  intro cs
  induction cs with
  | nil => rfl
  | cons c0 rest ih =>
      by_cases hsk : (c0.skip || skips.contains c0.name) = true
      · simp only [childLoop.eq_2, if_pos hsk]
        exact ih
      · simp only [childLoop.eq_2, if_neg hsk]
        rcases hr : (lookupRes results c0.name).2 with _ | e
        · exact ih
        · exact ih

lemma childLoop_enter (results : List (String × (List MEv × Option FsPath)))
    (skips : List String) (oP : FsPath) (hasT : Bool) :
    ∀ cs : List Node,
      (childLoop results cs skips oP hasT).2 = none →
      ∀ c ∈ cs, c.skip = false → skips.contains c.name = false →
        MEv.enter oP c.name ∈ (childLoop results cs skips oP hasT).1 := by
  intro cs
  induction cs with
  | nil => intro _ c hmem; cases hmem
  | cons c0 rest ih =>
      intro hok c hmem hskip hcont
      by_cases hsk : (c0.skip || skips.contains c0.name) = true
      · simp only [childLoop.eq_2, if_pos hsk] at hok ⊢
        rcases List.mem_cons.mp hmem with rfl | hmem2
        · rw [hskip, hcont] at hsk
          cases hsk
        · exact ih hok c hmem2 hskip hcont
      · simp only [childLoop.eq_2, if_neg hsk] at hok ⊢
        rcases hr : (lookupRes results c0.name).2 with _ | e
        · simp only [hr] at hok ⊢
          rcases List.mem_cons.mp hmem with rfl | hmem2
          · exact List.mem_cons_self _ _
          · exact List.mem_cons_of_mem _ (List.mem_append_right _
              (ih hok c hmem2 hskip hcont))
        · simp only [hr] at hok ⊢
          by_cases hT : hasT = true
          · rw [if_pos hT] at hok
            cases hok
          · rw [if_neg hT] at hok ⊢
            rcases List.mem_cons.mp hmem with rfl | hmem2
            · exact List.mem_cons_self _ _
            · exact List.mem_cons_of_mem _ (List.mem_append_right _
                (ih hok c hmem2 hskip hcont))

lemma childLoop_events (results : List (String × (List MEv × Option FsPath)))
    (skips : List String) (oP : FsPath) (hasT : Bool) :
    ∀ cs : List Node, ∀ ev ∈ (childLoop results cs skips oP hasT).1,
      (∃ c ∈ cs, ev = MEv.enter oP c.name) ∨
      (∃ c ∈ cs, ev ∈ (lookupRes results c.name).1) := by
  intro cs
  induction cs with
  | nil => intro ev hev; cases hev
  | cons c0 rest ih =>
      intro ev hev
      have push : (∃ c ∈ rest, ev = MEv.enter oP c.name) ∨
          (∃ c ∈ rest, ev ∈ (lookupRes results c.name).1) →
          (∃ c ∈ c0 :: rest, ev = MEv.enter oP c.name) ∨
          (∃ c ∈ c0 :: rest, ev ∈ (lookupRes results c.name).1) := by
        rintro (⟨c, hc, he⟩ | ⟨c, hc, he⟩)
        · exact Or.inl ⟨c, List.mem_cons_of_mem _ hc, he⟩
        · exact Or.inr ⟨c, List.mem_cons_of_mem _ hc, he⟩
      by_cases hsk : (c0.skip || skips.contains c0.name) = true
      · simp only [childLoop.eq_2, if_pos hsk] at hev
        exact push (ih ev hev)
      · simp only [childLoop.eq_2, if_neg hsk] at hev
        rcases hr : (lookupRes results c0.name).2 with _ | e
        · simp only [hr] at hev
          rcases List.mem_cons.mp hev with rfl | hev2
          · exact Or.inl ⟨c0, List.mem_cons_self _ _, rfl⟩
          · rcases List.mem_append.mp hev2 with hev3 | hev3
            · exact Or.inr ⟨c0, List.mem_cons_self _ _, hev3⟩
            · exact push (ih ev hev3)
        · simp only [hr] at hev
          by_cases hT : hasT = true
          · rw [if_pos hT] at hev
            rcases List.mem_cons.mp hev with rfl | hev2
            · exact Or.inl ⟨c0, List.mem_cons_self _ _, rfl⟩
            · exact Or.inr ⟨c0, List.mem_cons_self _ _, hev2⟩
          · rw [if_neg hT] at hev
            rcases List.mem_cons.mp hev with rfl | hev2
            · exact Or.inl ⟨c0, List.mem_cons_self _ _, rfl⟩
            · rcases List.mem_append.mp hev2 with hev3 | hev3
              · exact Or.inr ⟨c0, List.mem_cons_self _ _, hev3⟩
              · exact push (ih ev hev3)

lemma liveLoop_events (env : MEnv)
    (results : List (String × (List MEv × Option FsPath)))
    (children : List Node) (skips : List String) (oP oW : FsPath) (hasT : Bool) :
    ∀ es : List (String × LiveFS),
      ∀ ev ∈ (liveLoop env results children skips es oP oW hasT).1,
      (∃ n, ev = MEv.enter oP n) ∨ (∃ n, ev = MEv.mirror oP n) ∨
      (∃ n, ev ∈ (lookupRes results n).1) ∨
      (∃ n lv, (n, lv) ∈ es ∧
        ev ∈ (mountMirror env lv (oP ++ [n]) (oW ++ [n])).1) := by
  intro es
  induction es with
  | nil => intro ev hev; cases hev
  | cons hd rest ih =>
      obtain ⟨n0, lv0⟩ := hd
      intro ev hev
      have push : (∃ n, ev = MEv.enter oP n) ∨ (∃ n, ev = MEv.mirror oP n) ∨
          (∃ n, ev ∈ (lookupRes results n).1) ∨
          (∃ n lv, (n, lv) ∈ rest ∧
            ev ∈ (mountMirror env lv (oP ++ [n]) (oW ++ [n])).1) →
          (∃ n, ev = MEv.enter oP n) ∨ (∃ n, ev = MEv.mirror oP n) ∨
          (∃ n, ev ∈ (lookupRes results n).1) ∨
          (∃ n lv, (n, lv) ∈ (n0, lv0) :: rest ∧
            ev ∈ (mountMirror env lv (oP ++ [n]) (oW ++ [n])).1) := by
        rintro (h | h | h | ⟨n, lv, hm, he⟩)
        · exact Or.inl h
        · exact Or.inr (Or.inl h)
        · exact Or.inr (Or.inr (Or.inl h))
        · exact Or.inr (Or.inr (Or.inr ⟨n, lv, List.mem_cons_of_mem _ hm, he⟩))
      rcases hf : children.find? (fun x => x.name = n0) with _ | c0
      · simp only [liveLoop.eq_2, hf] at hev
        by_cases hT : hasT = true
        · rw [if_pos hT] at hev
          rcases hm : (mountMirror env lv0 (oP ++ [n0]) (oW ++ [n0])).2 with _ | e
          · simp only [hm] at hev
            rcases List.mem_cons.mp hev with rfl | hev'
            · exact Or.inr (Or.inl ⟨n0, rfl⟩)
            · rcases List.mem_append.mp hev' with hev2 | hev2
              · exact Or.inr (Or.inr (Or.inr
                  ⟨n0, lv0, List.mem_cons_self _ _, hev2⟩))
              · exact push (ih ev hev2)
          · simp only [hm] at hev
            rcases List.mem_cons.mp hev with rfl | hev'
            · exact Or.inr (Or.inl ⟨n0, rfl⟩)
            · exact Or.inr (Or.inr (Or.inr
                ⟨n0, lv0, List.mem_cons_self _ _, hev'⟩))
        · rw [if_neg hT] at hev
          exact push (ih ev hev)
      · simp only [liveLoop.eq_2, hf] at hev
        by_cases hsk : (c0.skip || skips.contains c0.name) = true
        · rw [if_pos hsk] at hev
          exact push (ih ev hev)
        · rw [if_neg hsk] at hev
          rcases hr : (lookupRes results n0).2 with _ | e
          · simp only [hr] at hev
            rcases List.mem_cons.mp hev with rfl | hev'
            · exact Or.inl ⟨n0, rfl⟩
            · rcases List.mem_append.mp hev' with hev2 | hev2
              · exact Or.inr (Or.inr (Or.inl ⟨n0, hev2⟩))
              · exact push (ih ev hev2)
          · simp only [hr] at hev
            by_cases hT : hasT = true
            · rw [if_pos hT] at hev
              rcases List.mem_cons.mp hev with rfl | hev'
              · exact Or.inl ⟨n0, rfl⟩
              · exact Or.inr (Or.inr (Or.inl ⟨n0, hev'⟩))
            · rw [if_neg hT] at hev
              rcases List.mem_cons.mp hev with rfl | hev'
              · exact Or.inl ⟨n0, rfl⟩
              · rcases List.mem_append.mp hev' with hev2 | hev2
                · exact Or.inr (Or.inr (Or.inl ⟨n0, hev2⟩))
                · exact push (ih ev hev2)

lemma mirrorChildren_nil (env : MEnv) (p w : FsPath) :
    mirrorChildren env p w [] = ([], none) := by
  rw [mirrorChildren.eq_def]

lemma mirrorChildren_cons (env : MEnv) (p w : FsPath) (n : String) (l : LiveFS)
    (rest : List (String × LiveFS)) :
    mirrorChildren env p w ((n, l) :: rest) =
      match (mountMirror env l (p ++ [n]) (w ++ [n])).2 with
      | some e =>
          (MEv.mirror p n :: (mountMirror env l (p ++ [n]) (w ++ [n])).1, some e)
      | none =>
          (MEv.mirror p n :: (mountMirror env l (p ++ [n]) (w ++ [n])).1 ++
            (mirrorChildren env p w rest).1, (mirrorChildren env p w rest).2) := by
  rw [mirrorChildren.eq_def]

lemma mountMirror_dir_eq (env : MEnv) (es : List (String × LiveFS)) (p w : FsPath) :
    mountMirror env (LiveFS.dir es) p w =
      if env.ok MOpKind.meta w then
        (MEv.enumLive p :: (mirrorChildren env p w es).1,
          (mirrorChildren env p w es).2)
      else ([], some w) := by
  rw [mountMirror.eq_def]

lemma mountMirror_file_fst (env : MEnv) (p w : FsPath) :
    (mountMirror env LiveFS.file p w).1 = [] := by
  rw [mountMirror.eq_def]
  dsimp only
  split <;> (try split) <;> rfl

lemma mountMirror_symlink_fst (env : MEnv) (p w : FsPath) :
    (mountMirror env LiveFS.symlink p w).1 = [] := by
  rw [mountMirror.eq_def]
  dsimp only
  split <;> rfl

lemma mountMirror_whiteout_fst (env : MEnv) (p w : FsPath) :
    (mountMirror env LiveFS.whiteoutDev p w).1 = [] := by
  rw [mountMirror.eq_def]

lemma mirrorChildren_depth_of (env : MEnv) (p w : FsPath) :
    ∀ es : List (String × LiveFS),
      (∀ n lv, (n, lv) ∈ es →
        ∀ ev ∈ (mountMirror env lv (p ++ [n]) (w ++ [n])).1,
          (p ++ [n]).length ≤ (MEv.parent ev).length) →
      ∀ ev ∈ (mirrorChildren env p w es).1, p.length ≤ (MEv.parent ev).length := by
  intro es
  induction es with
  | nil =>
      intro _ ev hev
      rw [mirrorChildren_nil] at hev
      cases hev
  | cons hd rest ih =>
      obtain ⟨n0, l0⟩ := hd
      intro H ev hev
      rw [mirrorChildren_cons] at hev
      have hlen : p.length ≤ (p ++ [n0]).length := by simp
      rcases hm : (mountMirror env l0 (p ++ [n0]) (w ++ [n0])).2 with _ | e
      · simp only [hm] at hev
        rcases List.mem_cons.mp hev with rfl | hev2
        · simp [MEv.parent]
        · rcases List.mem_append.mp hev2 with hev3 | hev3
          · exact le_trans hlen (H n0 l0 (List.mem_cons_self _ _) ev hev3)
          · exact ih (fun n lv hm2 => H n lv (List.mem_cons_of_mem _ hm2)) ev hev3
      · simp only [hm] at hev
        rcases List.mem_cons.mp hev with rfl | hev2
        · simp [MEv.parent]
        · exact le_trans hlen (H n0 l0 (List.mem_cons_self _ _) ev hev2)

lemma mountMirror_depth :
    ∀ N : Nat, ∀ l : LiveFS, sizeOf l < N → ∀ (env : MEnv) (p w : FsPath),
      ∀ ev ∈ (mountMirror env l p w).1, p.length ≤ (MEv.parent ev).length := by
  intro N
  induction N with
  | zero => intro l hl; omega
  | succ N ihN =>
      intro l hl env p w ev hev
      cases l with
      | file => rw [mountMirror_file_fst] at hev; cases hev
      | symlink => rw [mountMirror_symlink_fst] at hev; cases hev
      | whiteoutDev => rw [mountMirror_whiteout_fst] at hev; cases hev
      | dir es =>
          rw [mountMirror_dir_eq] at hev
          by_cases hmeta : env.ok MOpKind.meta w = true
          · rw [if_pos hmeta] at hev
            rcases List.mem_cons.mp hev with rfl | hev2
            · simp [MEv.parent]
            · refine mirrorChildren_depth_of env p w es ?_ ev hev2
              intro n lv hmem ev2 hev3
              have hsz : sizeOf lv < N := by
                have h1 := List.sizeOf_lt_of_mem hmem
                have h2 : sizeOf (LiveFS.dir es) = 1 + sizeOf es := by
                  simp
                simp only [Prod.mk.sizeOf_spec] at h1
                omega
              exact ihN lv hsz env (p ++ [n]) (w ++ [n]) ev2 hev3
          · rw [if_neg hmeta] at hev
            cases hev

lemma ownPathOf_length_ge (p : FsPath) (nm : String) :
    p.length ≤ (ownPathOf p nm).length := by
  unfold ownPathOf
  split
  · exact le_refl _
  · simp

lemma ownPathOf_length_of_ne (p : FsPath) (nm : String) (h : nm ≠ "") :
    (ownPathOf p nm).length = p.length + 1 := by
  unfold ownPathOf
  rw [if_neg h]
  simp

lemma dirAssemble_events (oP : FsPath) (cr mv : Bool)
    (r1 r2 : List MEv × Option FsPath) :
    ∀ ev ∈ (dirAssemble oP cr mv r1 r2).1,
      ev = MEv.enumLive oP ∨ ev ∈ r1.1 ∨ ev ∈ r2.1 := by
  intro ev hev
  obtain ⟨evs1, err1⟩ := r1
  obtain ⟨evs2, err2⟩ := r2
  cases err1 with
  | some e =>
      rw [dirAssemble_err1] at hev
      rcases List.mem_cons.mp hev with rfl | hev2
      · exact Or.inl rfl
      · exact Or.inr (Or.inl hev2)
  | none =>
      cases err2 with
      | some e =>
          rw [dirAssemble_err2] at hev
          rcases List.mem_cons.mp hev with rfl | hev2
          · exact Or.inl rfl
          · rcases List.mem_append.mp hev2 with h3 | h3
            · exact Or.inr (Or.inl h3)
            · exact Or.inr (Or.inr h3)
      | none =>
          rw [dirAssemble_none] at hev
          have hev' : ev ∈ MEv.enumLive oP :: evs1 ++ evs2 := by
            rcases hc : (cr && !mv) with _ | _
            · rw [hc] at hev
              simpa using hev
            · rw [hc] at hev
              simpa using hev
          rcases List.mem_cons.mp hev' with rfl | hev2
          · exact Or.inl rfl
          · rcases List.mem_append.mp hev2 with h3 | h3
            · exact Or.inr (Or.inl h3)
            · exact Or.inr (Or.inr h3)

/-- Every event of `handle_directory` is an own-level enumeration, enter or
mirror event, an event of a child's recursive result, or an event of a
`mount_mirror` run on a live entry. -/
lemma dirProcess_events (env : MEnv) (live : Option LiveFS) (node : Node)
    (oP oW : FsPath) (h0 : Bool)
    (results : List (String × (List MEv × Option FsPath))) :
    ∀ ev ∈ (dirProcess env live node oP oW h0 results).1,
      ev = MEv.enumLive oP ∨ (∃ n, ev = MEv.enter oP n) ∨
      (∃ n, ev = MEv.mirror oP n) ∨
      (∃ n, ev ∈ (lookupRes results n).1) ∨
      (∃ es n lv, live = some (LiveFS.dir es) ∧ (n, lv) ∈ es ∧
        ev ∈ (mountMirror env lv (oP ++ [n]) (oW ++ [n])).1) := by
  intro ev hev
  simp only [dirProcess] at hev
  by_cases h1 : (if dirHasT live node h0 = true then
      dirSkeleton env live node.module_path oP oW else none).isSome
  · rw [if_pos h1] at hev
    cases hev
  · rw [if_neg h1] at hev
    by_cases h2 : (dirCreate live node h0 && !env.ok MOpKind.bindSelf oW) = true
    · rw [if_pos h2] at hev
      cases hev
    · rw [if_neg h2] at hev
      have tailCase : ∀ cs skips,
          ev ∈ (tailAssemble oP (dirCreate live node h0)
            (env.ok MOpKind.moveTmp oP)
            (childLoop results cs skips oP (dirHasT live node h0))).1 →
          ev = MEv.enumLive oP ∨ (∃ n, ev = MEv.enter oP n) ∨
          (∃ n, ev = MEv.mirror oP n) ∨
          (∃ n, ev ∈ (lookupRes results n).1) ∨
          (∃ es n lv, live = some (LiveFS.dir es) ∧ (n, lv) ∈ es ∧
            ev ∈ (mountMirror env lv (oP ++ [n]) (oW ++ [n])).1) := by
        intro cs skips hev2
        rw [tailAssemble_fst] at hev2
        rcases childLoop_events results skips oP (dirHasT live node h0) cs ev hev2
          with ⟨c, _, rfl⟩ | ⟨c, _, hin⟩
        · exact Or.inr (Or.inl ⟨c.name, rfl⟩)
        · exact Or.inr (Or.inr (Or.inr (Or.inl ⟨c.name, hin⟩)))
      rcases live with _ | l
      · rcases hb : (node.replace && node.module_path.isNone) with _ | _
        · rw [hb] at hev
          simp only [if_neg (by simp : ¬(false = true))] at hev
          exact tailCase _ _ hev
        · rw [hb] at hev
          simp only [if_pos rfl] at hev
          cases hev
      · cases l with
        | file =>
            rcases hrep : node.replace with _ | _
            · rw [hrep] at hev
              cases hev
            · rw [hrep] at hev
              rcases hb : node.module_path.isNone with _ | _
              · rw [hb] at hev
                simp only [Bool.and_false,
                  if_neg (by simp : ¬(false = true))] at hev
                exact tailCase _ _ hev
              · rw [hb] at hev
                simp only [Bool.and_true, if_pos rfl] at hev
                cases hev
        | symlink =>
            rcases hrep : node.replace with _ | _
            · rw [hrep] at hev
              cases hev
            · rw [hrep] at hev
              rcases hb : node.module_path.isNone with _ | _
              · rw [hb] at hev
                simp only [Bool.and_false,
                  if_neg (by simp : ¬(false = true))] at hev
                exact tailCase _ _ hev
              · rw [hb] at hev
                simp only [Bool.and_true, if_pos rfl] at hev
                cases hev
        | whiteoutDev =>
            rcases hrep : node.replace with _ | _
            · rw [hrep] at hev
              cases hev
            · rw [hrep] at hev
              rcases hb : node.module_path.isNone with _ | _
              · rw [hb] at hev
                simp only [Bool.and_false,
                  if_neg (by simp : ¬(false = true))] at hev
                exact tailCase _ _ hev
              · rw [hb] at hev
                simp only [Bool.and_true, if_pos rfl] at hev
                cases hev
        | dir es =>
            rcases hrep : node.replace with _ | _
            · rw [hrep] at hev
              rcases dirAssemble_events oP (dirCreate (some (LiveFS.dir es)) node h0)
                  (env.ok MOpKind.moveTmp oP) _ _ ev hev with h3 | h3 | h3
              · exact Or.inl h3
              · rcases liveLoop_events env results node.children
                    (dirCheck (some (LiveFS.dir es)) node h0).1 oP oW
                    (dirHasT (some (LiveFS.dir es)) node h0) es ev h3
                  with ⟨n, rfl⟩ | ⟨n, rfl⟩ | ⟨n, hin⟩ | ⟨n, lv, hmem, hin⟩
                · exact Or.inr (Or.inl ⟨n, rfl⟩)
                · exact Or.inr (Or.inr (Or.inl ⟨n, rfl⟩))
                · exact Or.inr (Or.inr (Or.inr (Or.inl ⟨n, hin⟩)))
                · exact Or.inr (Or.inr (Or.inr (Or.inr ⟨es, n, lv, rfl, hmem, hin⟩)))
              · rcases childLoop_events results
                    (dirCheck (some (LiveFS.dir es)) node h0).1 oP
                    (dirHasT (some (LiveFS.dir es)) node h0) _ ev h3
                  with ⟨c, _, rfl⟩ | ⟨c, _, hin⟩
                · exact Or.inr (Or.inl ⟨c.name, rfl⟩)
                · exact Or.inr (Or.inr (Or.inr (Or.inl ⟨c.name, hin⟩)))
            · rw [hrep] at hev
              rcases hb : node.module_path.isNone with _ | _
              · rw [hb] at hev
                simp only [Bool.and_false,
                  if_neg (by simp : ¬(false = true))] at hev
                exact tailCase _ _ hev
              · rw [hb] at hev
                simp only [Bool.and_true, if_pos rfl] at hev
                cases hev

/-- Every event in a node's magic-mount trace belongs to the node's own
directory or deeper: its event path is at least as long as the node's own
path. -/
lemma doMagic_depth :
    ∀ N : Nat, ∀ (node : Node) (live : Option LiveFS),
      sizeOf node + sizeOf live < N → ∀ (env : MEnv) (pP pW : FsPath) (h0 : Bool),
      ∀ ev ∈ (doMagicMount env live node pP pW h0).1,
        (ownPathOf pP node.name).length ≤ (MEv.parent ev).length := by
  intro N
  induction N with
  | zero => intro node live hsz; omega
  | succ N ihN =>
      intro node live hsz env pP pW h0 ev hev
      rcases hft : node.file_type with _ | _ | _ | _
      · rw [doMagicMount_regular env live node pP pW h0 hft] at hev
        cases hev
      · rw [doMagicMount_symlink env live node pP pW h0 hft] at hev
        cases hev
      · rw [doMagicMount_dir env live node pP pW h0 hft] at hev
        rcases dirProcess_events env live node (ownPathOf pP node.name)
            (ownPathOf pW node.name) h0 _ ev hev
          with h3 | ⟨n, h3⟩ | ⟨n, h3⟩ | ⟨n, h3⟩ | ⟨es, n, lv, hlv, hmem, h3⟩
        · rw [h3]; simp [MEv.parent]
        · rw [h3]; simp [MEv.parent]
        · rw [h3]; simp [MEv.parent]
        · rcases lookupRes_cases n (childResultsOf env live node
              (ownPathOf pP node.name) (ownPathOf pW node.name)
              (dirHasT live node h0)) with hnil | hmem2
          · rw [hnil] at h3
            cases h3
          · obtain ⟨c, hc, hpair⟩ := List.mem_map.mp hmem2
            have hr : lookupRes (childResultsOf env live node
                (ownPathOf pP node.name) (ownPathOf pW node.name)
                (dirHasT live node h0)) n =
                doMagicMount env (childLiveOf live c.name) c
                  (ownPathOf pP node.name) (ownPathOf pW node.name)
                  (dirHasT live node h0) := by
              have := congrArg Prod.snd hpair
              simpa using this.symm
            rw [hr] at h3
            have hszc : sizeOf c + sizeOf (childLiveOf live c.name) < N := by
              have h4 := List.sizeOf_lt_of_mem hc
              have h5 := sizeOf_children_lt node
              have h6 := sizeOf_childLiveOf_le live c.name
              omega
            have h7 := ihN c (childLiveOf live c.name) hszc env
              (ownPathOf pP node.name) (ownPathOf pW node.name)
              (dirHasT live node h0) ev h3
            exact le_trans (ownPathOf_length_ge _ _) h7
        · have h7 := mountMirror_depth (sizeOf lv + 1) lv (Nat.lt_succ_self _)
            env (ownPathOf pP node.name ++ [n]) (ownPathOf pW node.name ++ [n])
            ev h3
          have h8 : (ownPathOf pP node.name).length ≤
              (ownPathOf pP node.name ++ [n]).length := by simp
          exact le_trans h8 h7
      · rw [doMagicMount_whiteout env live node pP pW h0 hft] at hev
        cases hev

/-- Events of a child with a non-empty name lie strictly below the parent
directory. -/
lemma doMagic_events_deep (env : MEnv) (live2 : Option LiveFS) (c : Node)
    (oP oW : FsPath) (h : Bool) (hname : c.name ≠ "") :
    ∀ ev ∈ (doMagicMount env live2 c oP oW h).1,
      oP.length + 1 ≤ (MEv.parent ev).length := by
  intro ev hev
  have h7 := doMagic_depth (sizeOf c + sizeOf live2 + 1) c live2
    (Nat.lt_succ_self _) env oP oW h ev hev
  rwa [ownPathOf_length_of_ne oP c.name hname] at h7

lemma dirProcess_skel_err (env : MEnv) (live : Option LiveFS) (node : Node)
    (oP oW : FsPath) (h0 : Bool)
    (results : List (String × (List MEv × Option FsPath)))
    (h1 : (if dirHasT live node h0 = true then
      dirSkeleton env live node.module_path oP oW else none).isSome = true) :
    dirProcess env live node oP oW h0 results =
      ([], if dirHasT live node h0 = true then
        dirSkeleton env live node.module_path oP oW else none) := by
  simp only [dirProcess]
  rw [if_pos h1]

lemma dirProcess_bind_err (env : MEnv) (live : Option LiveFS) (node : Node)
    (oP oW : FsPath) (h0 : Bool)
    (results : List (String × (List MEv × Option FsPath)))
    (h1 : (if dirHasT live node h0 = true then
      dirSkeleton env live node.module_path oP oW else none).isSome = false)
    (h2 : (dirCreate live node h0 && !env.ok MOpKind.bindSelf oW) = true) :
    dirProcess env live node oP oW h0 results = ([], some oW) := by
  simp only [dirProcess]
  rw [if_neg (by simp [h1]), if_pos h2]

lemma dirProcess_dir_false (env : MEnv) (node : Node) (oP oW : FsPath)
    (h0 : Bool) (results : List (String × (List MEv × Option FsPath)))
    (es : List (String × LiveFS))
    (h1 : (if dirHasT (some (LiveFS.dir es)) node h0 = true then
      dirSkeleton env (some (LiveFS.dir es)) node.module_path oP oW
      else none).isSome = false)
    (h2 : (dirCreate (some (LiveFS.dir es)) node h0 &&
      !env.ok MOpKind.bindSelf oW) = false)
    (hrep : node.replace = false) :
    dirProcess env (some (LiveFS.dir es)) node oP oW h0 results =
      dirAssemble oP (dirCreate (some (LiveFS.dir es)) node h0)
        (env.ok MOpKind.moveTmp oP)
        (liveLoop env results node.children
          (dirCheck (some (LiveFS.dir es)) node h0).1 es oP oW
          (dirHasT (some (LiveFS.dir es)) node h0))
        (childLoop results
          (node.children.filter (fun c => (lookupEntry es c.name).isNone))
          (dirCheck (some (LiveFS.dir es)) node h0).1 oP
          (dirHasT (some (LiveFS.dir es)) node h0)) := by
  simp only [dirProcess]
  rw [if_neg (by simp [h1]), if_neg (by simp [h2]), hrep]

lemma dirProcess_live_nondir (env : MEnv) (node : Node) (oP oW : FsPath)
    (h0 : Bool) (results : List (String × (List MEv × Option FsPath)))
    (l : LiveFS)
    (h1 : (if dirHasT (some l) node h0 = true then
      dirSkeleton env (some l) node.module_path oP oW else none).isSome = false)
    (h2 : (dirCreate (some l) node h0 && !env.ok MOpKind.bindSelf oW) = false)
    (hrep : node.replace = false)
    (hl : l = LiveFS.file ∨ l = LiveFS.symlink ∨ l = LiveFS.whiteoutDev) :
    dirProcess env (some l) node oP oW h0 results = ([], some oP) := by
  simp only [dirProcess]
  rw [if_neg (by simp [h1]), if_neg (by simp [h2])]
  rcases hl with rfl | rfl | rfl <;> rw [hrep]

lemma dirProcess_noloop (env : MEnv) (live : Option LiveFS) (node : Node)
    (oP oW : FsPath) (h0 : Bool)
    (results : List (String × (List MEv × Option FsPath)))
    (h1 : (if dirHasT live node h0 = true then
      dirSkeleton env live node.module_path oP oW else none).isSome = false)
    (h2 : (dirCreate live node h0 && !env.ok MOpKind.bindSelf oW) = false)
    (hnl : live = none ∨ node.replace = true)
    (hb : (node.replace && node.module_path.isNone) = false) :
    dirProcess env live node oP oW h0 results =
      tailAssemble oP (dirCreate live node h0) (env.ok MOpKind.moveTmp oP)
        (childLoop results node.children (dirCheck live node h0).1 oP
          (dirHasT live node h0)) := by
  simp only [dirProcess]
  rw [if_neg (by simp [h1]), if_neg (by simp [h2])]
  rcases hnl with rfl | hrep
  · rw [hb]
    dsimp only
    rw [if_neg (by simp)]
  · rcases live with _ | l
    · rw [hb]
      dsimp only
      rw [if_neg (by simp)]
    · rw [hrep] at hb
      cases l <;> rw [hrep] <;> dsimp only <;> rw [hb] <;>
        rw [if_neg (by simp)]

lemma dirProcess_bail (env : MEnv) (live : Option LiveFS) (node : Node)
    (oP oW : FsPath) (h0 : Bool)
    (results : List (String × (List MEv × Option FsPath)))
    (h1 : (if dirHasT live node h0 = true then
      dirSkeleton env live node.module_path oP oW else none).isSome = false)
    (h2 : (dirCreate live node h0 && !env.ok MOpKind.bindSelf oW) = false)
    (hnl : live = none ∨ node.replace = true)
    (hb : (node.replace && node.module_path.isNone) = true) :
    dirProcess env live node oP oW h0 results = ([], some oP) := by
  simp only [dirProcess]
  rw [if_neg (by simp [h1]), if_neg (by simp [h2])]
  rcases hnl with rfl | hrep
  · rw [hb]
    dsimp only
    rw [if_pos rfl]
  · rcases live with _ | l
    · rw [hb]
      dsimp only
      rw [if_pos rfl]
    · rw [hrep] at hb
      cases l <;> rw [hrep] <;> dsimp only <;> rw [hb] <;> rw [if_pos rfl]

lemma bool_false_or_true (b : Bool) : b = false ∨ b = true := by
  cases b
  · exact Or.inl rfl
  · exact Or.inr rfl

/-- C8: during magic mount of a Directory node, if any child mount fails
while a tmpfs skeleton is in effect (inherited or created at this node),
the error is propagated and aborts the whole subtree — contrapositively, a
successful directory mount means every non-skipped matched child and every
mirrored live entry succeeded; if no tmpfs is in effect, a child failure is
only logged: the directory itself succeeds and the remaining sibling
children are still processed (each non-skipped child is entered).
Children are keyed by name in the source's map, hence the distinct-names
hypothesis. -/
theorem C8_tmpfs_error_policy (env : MEnv) (live : Option LiveFS) (node : Node)
    (pP pW : FsPath) (h0 : Bool)
    (hft : node.file_type = NodeType.directory)
    (hnodupC : (node.children.map Node.name).Nodup) :
    (dirHasT live node h0 = true →
      (doMagicMount env live node pP pW h0).2 = none →
      ∀ c ∈ node.children, c.skip = false →
        (dirCheck live node h0).1.contains c.name = false →
        (doMagicMount env (childLiveOf live c.name) c (ownPathOf pP node.name)
          (ownPathOf pW node.name) (dirHasT live node h0)).2 = none) ∧
    (dirHasT live node h0 = true →
      (doMagicMount env live node pP pW h0).2 = none →
      ∀ es, live = some (LiveFS.dir es) → node.replace = false →
        ∀ n lv, (n, lv) ∈ es →
          node.children.find? (fun x => x.name = n) = none →
          (mountMirror env lv (ownPathOf pP node.name ++ [n])
            (ownPathOf pW node.name ++ [n])).2 = none) ∧
    (dirHasT live node h0 = false → node.replace = false →
      (live = none ∨ ∃ es, live = some (LiveFS.dir es)) →
      (doMagicMount env live node pP pW h0).2 = none ∧
      (∀ c ∈ node.children, c.skip = false →
        (dirCheck live node h0).1.contains c.name = false →
        MEv.enter (ownPathOf pP node.name) c.name ∈
          (doMagicMount env live node pP pW h0).1)) := by
  refine ⟨?_, ?_, ?_⟩
  · -- (A) tmpfs in effect: parent success implies child success
    intro hT hok c hc hskip hcont
    rw [doMagicMount_dir env live node pP pW h0 hft] at hok
    rcases bool_false_or_true ((if dirHasT live node h0 = true then
        dirSkeleton env live node.module_path (ownPathOf pP node.name)
          (ownPathOf pW node.name) else none).isSome) with h1f | h1t
    case inr =>
      rw [dirProcess_skel_err env live node _ _ h0 _ h1t] at hok
      have h1' : (if dirHasT live node h0 = true then
          dirSkeleton env live node.module_path (ownPathOf pP node.name)
            (ownPathOf pW node.name) else none) = none := hok
      rw [h1'] at h1t
      cases h1t
    rcases bool_false_or_true (dirCreate live node h0 &&
        !env.ok MOpKind.bindSelf (ownPathOf pW node.name)) with h2f | h2t
    case inr =>
      rw [dirProcess_bind_err env live node _ _ h0 _ h1f h2t] at hok
      cases hok
    rcases live with _ | l
    · rcases bool_false_or_true (node.replace && node.module_path.isNone)
        with hbf | hbt
      · rw [dirProcess_noloop env none node _ _ h0 _ h1f h2f (Or.inl rfl) hbf]
          at hok
        have hch := tailAssemble_err_none _ _ _ _ hok
        rw [hT] at hch
        have h9 := childLoop_ok _ _ _ _ hch c hc hskip hcont
        have h10 : lookupRes (childResultsOf env none node
            (ownPathOf pP node.name) (ownPathOf pW node.name) true) c.name =
            doMagicMount env (childLiveOf none c.name) c
              (ownPathOf pP node.name) (ownPathOf pW node.name) true :=
          lookupRes_map_nodup _ c node.children hnodupC hc
        rw [h10] at h9
        rw [hT]
        exact h9
      · rw [dirProcess_bail env none node _ _ h0 _ h1f h2f (Or.inl rfl) hbt]
          at hok
        cases hok
    · cases l with
      | dir es =>
          rcases bool_false_or_true node.replace with hrepf | hrept
          · rw [dirProcess_dir_false env node _ _ h0 _ es h1f h2f hrepf] at hok
            obtain ⟨hr1, hr2⟩ := dirAssemble_err_none _ _ _ _ _ hok
            rw [hT] at hr1 hr2
            have h10 : lookupRes (childResultsOf env (some (LiveFS.dir es)) node
                (ownPathOf pP node.name) (ownPathOf pW node.name) true) c.name =
                doMagicMount env (childLiveOf (some (LiveFS.dir es)) c.name) c
                  (ownPathOf pP node.name) (ownPathOf pW node.name) true :=
              lookupRes_map_nodup _ c node.children hnodupC hc
            rcases hle : lookupEntry es c.name with _ | lv
            · have hcf : c ∈ node.children.filter
                  (fun x => (lookupEntry es x.name).isNone) :=
                List.mem_filter.mpr ⟨hc, by rw [hle]; rfl⟩
              have h9 := childLoop_ok _ _ _ _ hr2 c hcf hskip hcont
              rw [h10] at h9
              rw [hT]
              exact h9
            · have hmemes := lookupEntry_mem c.name lv es hle
              have hfind := find?_name_of_nodup c node.children hnodupC hc
              have h9 := liveLoop_ok_child env _ node.children _
                (ownPathOf pP node.name) (ownPathOf pW node.name) es hr1
                c.name lv c hmemes hfind hskip hcont
              rw [h10] at h9
              rw [hT]
              exact h9
          · rcases bool_false_or_true
                (node.replace && node.module_path.isNone) with hbf | hbt
            · rw [dirProcess_noloop env (some (LiveFS.dir es)) node _ _ h0 _
                  h1f h2f (Or.inr hrept) hbf] at hok
              have hch := tailAssemble_err_none _ _ _ _ hok
              rw [hT] at hch
              have h9 := childLoop_ok _ _ _ _ hch c hc hskip hcont
              have h10 : lookupRes (childResultsOf env (some (LiveFS.dir es))
                  node (ownPathOf pP node.name) (ownPathOf pW node.name) true)
                  c.name =
                  doMagicMount env (childLiveOf (some (LiveFS.dir es)) c.name) c
                    (ownPathOf pP node.name) (ownPathOf pW node.name) true :=
                lookupRes_map_nodup _ c node.children hnodupC hc
              rw [h10] at h9
              rw [hT]
              exact h9
            · rw [dirProcess_bail env (some (LiveFS.dir es)) node _ _ h0 _
                  h1f h2f (Or.inr hrept) hbt] at hok
              cases hok
      | file =>
          rcases bool_false_or_true node.replace with hrepf | hrept
          · rw [dirProcess_live_nondir env node _ _ h0 _ LiveFS.file h1f h2f
                hrepf (Or.inl rfl)] at hok
            cases hok
          · rcases bool_false_or_true
                (node.replace && node.module_path.isNone) with hbf | hbt
            · rw [dirProcess_noloop env (some LiveFS.file) node _ _ h0 _
                  h1f h2f (Or.inr hrept) hbf] at hok
              have hch := tailAssemble_err_none _ _ _ _ hok
              rw [hT] at hch
              have h9 := childLoop_ok _ _ _ _ hch c hc hskip hcont
              have h10 : lookupRes (childResultsOf env (some LiveFS.file) node
                  (ownPathOf pP node.name) (ownPathOf pW node.name) true)
                  c.name =
                  doMagicMount env (childLiveOf (some LiveFS.file) c.name) c
                    (ownPathOf pP node.name) (ownPathOf pW node.name) true :=
                lookupRes_map_nodup _ c node.children hnodupC hc
              rw [h10] at h9
              rw [hT]
              exact h9
            · rw [dirProcess_bail env (some LiveFS.file) node _ _ h0 _
                  h1f h2f (Or.inr hrept) hbt] at hok
              cases hok
      | symlink =>
          rcases bool_false_or_true node.replace with hrepf | hrept
          · rw [dirProcess_live_nondir env node _ _ h0 _ LiveFS.symlink h1f h2f
                hrepf (Or.inr (Or.inl rfl))] at hok
            cases hok
          · rcases bool_false_or_true
                (node.replace && node.module_path.isNone) with hbf | hbt
            · rw [dirProcess_noloop env (some LiveFS.symlink) node _ _ h0 _
                  h1f h2f (Or.inr hrept) hbf] at hok
              have hch := tailAssemble_err_none _ _ _ _ hok
              rw [hT] at hch
              have h9 := childLoop_ok _ _ _ _ hch c hc hskip hcont
              have h10 : lookupRes (childResultsOf env (some LiveFS.symlink)
                  node (ownPathOf pP node.name) (ownPathOf pW node.name) true)
                  c.name =
                  doMagicMount env (childLiveOf (some LiveFS.symlink) c.name) c
                    (ownPathOf pP node.name) (ownPathOf pW node.name) true :=
                lookupRes_map_nodup _ c node.children hnodupC hc
              rw [h10] at h9
              rw [hT]
              exact h9
            · rw [dirProcess_bail env (some LiveFS.symlink) node _ _ h0 _
                  h1f h2f (Or.inr hrept) hbt] at hok
              cases hok
      | whiteoutDev =>
          rcases bool_false_or_true node.replace with hrepf | hrept
          · rw [dirProcess_live_nondir env node _ _ h0 _ LiveFS.whiteoutDev h1f
                h2f hrepf (Or.inr (Or.inr rfl))] at hok
            cases hok
          · rcases bool_false_or_true
                (node.replace && node.module_path.isNone) with hbf | hbt
            · rw [dirProcess_noloop env (some LiveFS.whiteoutDev) node _ _ h0 _
                  h1f h2f (Or.inr hrept) hbf] at hok
              have hch := tailAssemble_err_none _ _ _ _ hok
              rw [hT] at hch
              have h9 := childLoop_ok _ _ _ _ hch c hc hskip hcont
              have h10 : lookupRes (childResultsOf env (some LiveFS.whiteoutDev)
                  node (ownPathOf pP node.name) (ownPathOf pW node.name) true)
                  c.name =
                  doMagicMount env (childLiveOf (some LiveFS.whiteoutDev)
                    c.name) c (ownPathOf pP node.name) (ownPathOf pW node.name)
                    true :=
                lookupRes_map_nodup _ c node.children hnodupC hc
              rw [h10] at h9
              rw [hT]
              exact h9
            · rw [dirProcess_bail env (some LiveFS.whiteoutDev) node _ _ h0 _
                  h1f h2f (Or.inr hrept) hbt] at hok
              cases hok
  · -- mirror entries under tmpfs also all succeeded
    intro hT hok es hlive hrepf n lv hmem hfindnone
    subst hlive
    rw [doMagicMount_dir env (some (LiveFS.dir es)) node pP pW h0 hft] at hok
    rcases bool_false_or_true ((if dirHasT (some (LiveFS.dir es)) node h0
        = true then dirSkeleton env (some (LiveFS.dir es)) node.module_path
        (ownPathOf pP node.name) (ownPathOf pW node.name) else none).isSome)
      with h1f | h1t
    case inr =>
      rw [dirProcess_skel_err env (some (LiveFS.dir es)) node _ _ h0 _ h1t]
        at hok
      have h1' : (if dirHasT (some (LiveFS.dir es)) node h0 = true then
          dirSkeleton env (some (LiveFS.dir es)) node.module_path
            (ownPathOf pP node.name) (ownPathOf pW node.name) else none) =
          none := hok
      rw [h1'] at h1t
      cases h1t
    rcases bool_false_or_true (dirCreate (some (LiveFS.dir es)) node h0 &&
        !env.ok MOpKind.bindSelf (ownPathOf pW node.name)) with h2f | h2t
    case inr =>
      rw [dirProcess_bind_err env (some (LiveFS.dir es)) node _ _ h0 _ h1f h2t]
        at hok
      cases hok
    rw [dirProcess_dir_false env node _ _ h0 _ es h1f h2f hrepf] at hok
    obtain ⟨hr1, _⟩ := dirAssemble_err_none _ _ _ _ _ hok
    rw [hT] at hr1
    exact liveLoop_ok_mirror env _ node.children _ (ownPathOf pP node.name)
      (ownPathOf pW node.name) es hr1 n lv hmem hfindnone
  · -- (B) without tmpfs: best-effort, directory succeeds, siblings processed
    intro hTf hrepf hld
    have hcr : dirCreate live node h0 = false := by
      have h' := hTf
      unfold dirHasT at h'
      exact (Bool.or_eq_false_iff.mp h').2
    have h1f : (if dirHasT live node h0 = true then
        dirSkeleton env live node.module_path (ownPathOf pP node.name)
          (ownPathOf pW node.name) else none).isSome = false := by
      rw [hTf]
      simp
    have h2f : (dirCreate live node h0 &&
        !env.ok MOpKind.bindSelf (ownPathOf pW node.name)) = false := by
      rw [hcr]
      simp
    rcases hld with rfl | ⟨es, rfl⟩
    · have hb : (node.replace && node.module_path.isNone) = false := by
        rw [hrepf]
        simp
      rw [doMagicMount_dir env none node pP pW h0 hft]
      rw [dirProcess_noloop env none node _ _ h0 _ h1f h2f (Or.inl rfl) hb]
      constructor
      · refine tailAssemble_ok _ _ _ _ ?_ hcr
        rw [hTf]
        exact childLoop_false_ok _ _ _ _
      · intro c hc hskip hcont
        rw [tailAssemble_fst]
        have hch : (childLoop (childResultsOf env none node
            (ownPathOf pP node.name) (ownPathOf pW node.name)
            (dirHasT none node h0)) node.children (dirCheck none node h0).1
            (ownPathOf pP node.name) (dirHasT none node h0)).2 = none := by
          rw [hTf]
          exact childLoop_false_ok _ _ _ _
        exact childLoop_enter _ _ _ _ _ hch c hc hskip hcont
    · have hb : (node.replace && node.module_path.isNone) = false := by
        rw [hrepf]
        simp
      rw [doMagicMount_dir env (some (LiveFS.dir es)) node pP pW h0 hft]
      rw [dirProcess_dir_false env node _ _ h0 _ es h1f h2f hrepf]
      have hr1 : (liveLoop env (childResultsOf env (some (LiveFS.dir es)) node
          (ownPathOf pP node.name) (ownPathOf pW node.name)
          (dirHasT (some (LiveFS.dir es)) node h0)) node.children
          (dirCheck (some (LiveFS.dir es)) node h0).1 es
          (ownPathOf pP node.name) (ownPathOf pW node.name)
          (dirHasT (some (LiveFS.dir es)) node h0)).2 = none := by
        rw [hTf]
        exact liveLoop_false_ok _ _ _ _ _ _ _
      have hr2 : (childLoop (childResultsOf env (some (LiveFS.dir es)) node
          (ownPathOf pP node.name) (ownPathOf pW node.name)
          (dirHasT (some (LiveFS.dir es)) node h0))
          (node.children.filter (fun x => (lookupEntry es x.name).isNone))
          (dirCheck (some (LiveFS.dir es)) node h0).1
          (ownPathOf pP node.name)
          (dirHasT (some (LiveFS.dir es)) node h0)).2 = none := by
        rw [hTf]
        exact childLoop_false_ok _ _ _ _
      constructor
      · exact dirAssemble_ok _ _ _ _ _ hr1 hr2 hcr
      · intro c hc hskip hcont
        rw [dirAssemble_fst _ _ _ _ _ hr1]
        rcases hle : lookupEntry es c.name with _ | lv
        · have hcf : c ∈ node.children.filter
              (fun x => (lookupEntry es x.name).isNone) :=
            List.mem_filter.mpr ⟨hc, by rw [hle]; rfl⟩
          have h9 := childLoop_enter _ _ _ _ _ hr2 c hcf hskip hcont
          exact List.mem_cons_of_mem _ (List.mem_append_right _ h9)
        · have hmemes := lookupEntry_mem c.name lv es hle
          have hfind := find?_name_of_nodup c node.children hnodupC hc
          have h9 := liveLoop_enter env _ node.children _
            (ownPathOf pP node.name) (ownPathOf pW node.name) _ es hr1
            c.name lv c hmemes hfind hskip hcont
          exact List.mem_cons_of_mem _ (List.mem_append_left _ h9)

/-- C9: a Directory node with `replace = true` (and a module path, as any
merged replace directory has) skips the live-children enumeration and
mirroring entirely: its trace contains no live-enumeration event and no
mirror event at the directory's path, and when the mount succeeds exactly
the node's own non-skipped children are projected (each is entered).
Child names are non-empty, as produced by `collect_module_files`. -/
theorem C9_replace_obscures_live (env : MEnv) (live : Option LiveFS)
    (node : Node) (pP pW : FsPath) (h0 : Bool)
    (hft : node.file_type = NodeType.directory)
    (hrept : node.replace = true)
    (hmp : node.module_path.isSome = true)
    (hnames : ∀ c ∈ node.children, c.name ≠ "") :
    MEv.enumLive (ownPathOf pP node.name) ∉
      (doMagicMount env live node pP pW h0).1 ∧
    (∀ n, MEv.mirror (ownPathOf pP node.name) n ∉
      (doMagicMount env live node pP pW h0).1) ∧
    ((doMagicMount env live node pP pW h0).2 = none →
      ∀ c ∈ node.children, c.skip = false →
        MEv.enter (ownPathOf pP node.name) c.name ∈
          (doMagicMount env live node pP pW h0).1) := by
  have hmpn : node.module_path.isNone = false := by
    rcases hmp2 : node.module_path with _ | m
    · rw [hmp2] at hmp
      cases hmp
    · rfl
  have hb : (node.replace && node.module_path.isNone) = false := by
    rw [hrept, hmpn]
    rfl
  have hskips : (dirCheck live node h0).1 = [] := by
    rcases bool_false_or_true h0 with h0f | h0t
    · unfold dirCheck dirCreate0
      simp [h0f, hrept, hmp]
    · unfold dirCheck
      simp [h0t]
  rw [doMagicMount_dir env live node pP pW h0 hft]
  rcases bool_false_or_true ((if dirHasT live node h0 = true then
      dirSkeleton env live node.module_path (ownPathOf pP node.name)
        (ownPathOf pW node.name) else none).isSome) with h1f | h1t
  case inr =>
    rw [dirProcess_skel_err env live node _ _ h0 _ h1t]
    refine ⟨by simp, fun n => by simp, ?_⟩
    intro hok
    have h1' : (if dirHasT live node h0 = true then
        dirSkeleton env live node.module_path (ownPathOf pP node.name)
          (ownPathOf pW node.name) else none) = none := hok
    rw [h1'] at h1t
    cases h1t
  rcases bool_false_or_true (dirCreate live node h0 &&
      !env.ok MOpKind.bindSelf (ownPathOf pW node.name)) with h2f | h2t
  case inr =>
    rw [dirProcess_bind_err env live node _ _ h0 _ h1f h2t]
    refine ⟨by simp, fun n => by simp, ?_⟩
    intro hok
    cases hok
  rw [dirProcess_noloop env live node _ _ h0 _ h1f h2f (Or.inr hrept) hb,
    hskips]
  refine ⟨?_, ?_, ?_⟩
  · intro hmem
    rw [tailAssemble_fst] at hmem
    rcases childLoop_events _ _ _ _ _ _ hmem with ⟨c, hc, heq⟩ | ⟨c, hc, hin⟩
    · cases heq
    · rcases lookupRes_cases c.name (childResultsOf env live node
          (ownPathOf pP node.name) (ownPathOf pW node.name)
          (dirHasT live node h0)) with hnil | hmemr
      · rw [hnil] at hin
        cases hin
      · simp only [childResultsOf] at hmemr
        obtain ⟨c', hc', hpair⟩ := List.mem_map.mp hmemr
        injection hpair with hn hr
        simp only [childResultsOf] at hin
        rw [← hr] at hin
        have hdeep := doMagic_events_deep env (childLiveOf live c'.name) c'
          (ownPathOf pP node.name) (ownPathOf pW node.name)
          (dirHasT live node h0) (hnames c' hc') _ hin
        simp [MEv.parent] at hdeep
  · intro n hmem
    rw [tailAssemble_fst] at hmem
    rcases childLoop_events _ _ _ _ _ _ hmem with ⟨c, hc, heq⟩ | ⟨c, hc, hin⟩
    · cases heq
    · rcases lookupRes_cases c.name (childResultsOf env live node
          (ownPathOf pP node.name) (ownPathOf pW node.name)
          (dirHasT live node h0)) with hnil | hmemr
      · rw [hnil] at hin
        cases hin
      · simp only [childResultsOf] at hmemr
        obtain ⟨c', hc', hpair⟩ := List.mem_map.mp hmemr
        injection hpair with hn hr
        simp only [childResultsOf] at hin
        rw [← hr] at hin
        have hdeep := doMagic_events_deep env (childLiveOf live c'.name) c'
          (ownPathOf pP node.name) (ownPathOf pW node.name)
          (dirHasT live node h0) (hnames c' hc') _ hin
        simp [MEv.parent] at hdeep
  · intro hok c hc hskip
    have hch := tailAssemble_err_none _ _ _ _ hok
    rw [tailAssemble_fst]
    exact childLoop_enter _ _ _ _ _ hch c hc hskip rfl

def c8env : MEnv := ⟨fun _ _ => true⟩

def c8child : Node := Node.mk "a" NodeType.regularFile (some ["m", "a"]) false false []

def c8node : Node := Node.mk "" NodeType.directory none false false [c8child]

def c8live : Option LiveFS := some (LiveFS.dir [("a", LiveFS.file)])

theorem C8_tmpfs_error_policy_witness :
    c8node.file_type = NodeType.directory ∧
    (c8node.children.map Node.name).Nodup ∧
    ((dirHasT c8live c8node false = true →
      (doMagicMount c8env c8live c8node [] ["w"] false).2 = none →
      ∀ c ∈ c8node.children, c.skip = false →
        (dirCheck c8live c8node false).1.contains c.name = false →
        (doMagicMount c8env (childLiveOf c8live c.name) c
          (ownPathOf [] c8node.name)
          (ownPathOf ["w"] c8node.name) (dirHasT c8live c8node false)).2 =
          none) ∧
    (dirHasT c8live c8node false = true →
      (doMagicMount c8env c8live c8node [] ["w"] false).2 = none →
      ∀ es, c8live = some (LiveFS.dir es) → c8node.replace = false →
        ∀ n lv, (n, lv) ∈ es →
          c8node.children.find? (fun x => x.name = n) = none →
          (mountMirror c8env lv (ownPathOf [] c8node.name ++ [n])
            (ownPathOf ["w"] c8node.name ++ [n])).2 = none) ∧
    (dirHasT c8live c8node false = false → c8node.replace = false →
      (c8live = none ∨ ∃ es, c8live = some (LiveFS.dir es)) →
      (doMagicMount c8env c8live c8node [] ["w"] false).2 = none ∧
      (∀ c ∈ c8node.children, c.skip = false →
        (dirCheck c8live c8node false).1.contains c.name = false →
        MEv.enter (ownPathOf [] c8node.name) c.name ∈
          (doMagicMount c8env c8live c8node [] ["w"] false).1))) :=
  ⟨rfl, by decide,
    C8_tmpfs_error_policy c8env c8live c8node [] ["w"] false rfl (by decide)⟩

def c9env : MEnv := ⟨fun _ _ => true⟩

def c9child : Node := Node.mk "b" NodeType.regularFile (some ["m", "b"]) false false []

def c9node : Node := Node.mk "app" NodeType.directory (some ["m"]) true false [c9child]

def c9live : Option LiveFS := some (LiveFS.dir [("x", LiveFS.file)])

theorem C9_replace_obscures_live_witness :
    c9node.file_type = NodeType.directory ∧
    c9node.replace = true ∧
    c9node.module_path.isSome = true ∧
    (∀ c ∈ c9node.children, c.name ≠ "") ∧
    (MEv.enumLive (ownPathOf [] c9node.name) ∉
      (doMagicMount c9env c9live c9node [] ["w"] false).1 ∧
    (∀ n, MEv.mirror (ownPathOf [] c9node.name) n ∉
      (doMagicMount c9env c9live c9node [] ["w"] false).1) ∧
    ((doMagicMount c9env c9live c9node [] ["w"] false).2 = none →
      ∀ c ∈ c9node.children, c.skip = false →
        MEv.enter (ownPathOf [] c9node.name) c.name ∈
          (doMagicMount c9env c9live c9node [] ["w"] false).1)) :=
  ⟨rfl, rfl, rfl, by decide,
    C9_replace_obscures_live c9env c9live c9node [] ["w"] false rfl rfl rfl
      (by decide)⟩

end MetaHybrid
